import Mathlib

/-!
# YASTM soul-gem allocation: a shallow embedding

The definitions below embed `src/TrapSoulFix.cpp`, `src/config/SoulSize.hpp` and
`src/config/YASTMConfig.cpp`.

* A soul size is the underlying integer of the C++ `enum class SoulSize`, a natural number;
  the enumerators are the constants of the namespace `SoulSize`.
* A soul gem form (`RE::TESSoulGem*`) is identified by a natural number.
* C++ exceptions and out-of-range vector accesses are results of type `Except Fault`.
* A `for` loop whose body may `return true` is `forFirst` (ascending counter) or
  `forFirstDown` (descending counter).
* The `while` loop of `trapSoul` takes a fuel argument; `Fault.outOfFuel` is the answer of the
  model when the fuel does not suffice.
* Notifications, logging and the "souls trapped" statistic have no effect on the inventory or on
  the returned value and are left out.
* `_isValidConfig` and `_createSoulGemMap` take the member `_soulGemGroups` and the game's data
  handler as arguments; a group is what its accessors return, a form is what the two functions
  read of it, and a null `RE::TESSoulGem*` in a gem list is the entry `Gem.null`. Of the logging
  of `_createSoulGemMap` the reads of the listed forms are kept, since they fault on a null
  pointer.
-/

namespace YASTM

/-! ## `config/SoulSize.hpp` -/

namespace SoulSize

abbrev None : Nat := 0
abbrev Petty : Nat := 1
abbrev Lesser : Nat := 2
abbrev Common : Nat := 3
abbrev Greater : Nat := 4
abbrev Grand : Nat := 5
abbrev Black : Nat := 6

end SoulSize

/-- Modelled from the spec: `toSoulSize` on an integer counter is not among the sources (only the
overload on `RawSoulSize` is); the loops of `TrapSoulFix.cpp` use it to turn a counter back into
the `SoulSize` of the same underlying value. -/
def toSoulSize (n : Nat) : Nat := n

/-- Source: `isValidSoulCapacity`: `Petty <= soulCapacity && soulCapacity <= Black`. -/
def isValidSoulCapacity (soulCapacity : Nat) : Bool :=
  decide (SoulSize.Petty ≤ soulCapacity) && decide (soulCapacity ≤ SoulSize.Black)

/-- Source: `isValidContainedSoulSize`. -/
def isValidContainedSoulSize (soulCapacity containedSoulSize : Nat) : Bool :=
  if soulCapacity = SoulSize.Black then
    decide (containedSoulSize = SoulSize.None) || decide (containedSoulSize = SoulSize.Black)
  else
    decide (SoulSize.None ≤ containedSoulSize) && decide (containedSoulSize ≤ soulCapacity)

/-- Source: `getVariantCountForCapacity`. -/
def getVariantCountForCapacity (soulCapacity : Nat) : Nat :=
  if soulCapacity = SoulSize.Black then 2 else soulCapacity + 1

/-! ## Faults -/

/-- The ways a call can fail to return normally. -/
inductive Fault where
  /-- Source: `std::range_error`, thrown by `getSoulGemsWith`. -/
  | rangeError
  /-- An index past the end of a `std::vector` (undefined behaviour in the source). -/
  | outOfBounds
  /-- The fuel given to the model of the `while` loop ran out. -/
  | outOfFuel
  /-- A member of a null `RE::TESSoulGem*` is read (undefined behaviour in the source). -/
  | nullDereference
  deriving DecidableEq, Repr

/-! ## `config/YASTMConfig.cpp` -/

/-- A soul gem form, `RE::TESSoulGem*`. -/
abbrev Gem := Nat

/-- The configuration keys read by `trapSoul`. -/
inductive Key where
  | AllowPartiallyFillingSoulGems
  | AllowSoulDisplacement
  | AllowSoulRelocation
  | AllowSoulShrinking
  deriving DecidableEq, Repr

/-- A `GlobalId`: `form` is the value of the game's global variable once its form is loaded, and
`none` while `globalId.form() == nullptr`. The value is a `float` in the source; only its
comparison with `0` is used, and it is an integer here. -/
structure GlobalId where
  form : Option Int
  deriving DecidableEq, Repr

/-- The members of `YASTMConfig` that the allocation reads. -/
structure YASTMConfig where
  /-- The globals named by the configuration file, by key. -/
  _globals : Key → Option GlobalId
  /-- The built-in default of each key. -/
  _globalsDefaults : Key → Int
  /-- White gems: `_whiteSoulGems[capacity - 1][containedSoulSize]` is a list of forms. -/
  _whiteSoulGems : List (List (List Gem))
  _blackSoulGemsEmpty : List Gem
  _blackSoulGemsFilled : List Gem

namespace YASTMConfig

/-- Source: `YASTMConfig::getGlobalValue`. -/
def getGlobalValue (config : YASTMConfig) (key : Key) : Int :=
  match config._globals key with
  | some globalId =>
    match globalId.form with
    | none => config._globalsDefaults key
    | some value => value
  | none => config._globalsDefaults key

def isPartialFillsAllowed (config : YASTMConfig) : Bool :=
  config.getGlobalValue Key.AllowPartiallyFillingSoulGems != 0

def isSoulDisplacementAllowed (config : YASTMConfig) : Bool :=
  config.getGlobalValue Key.AllowSoulDisplacement != 0

def isSoulRelocationAllowed (config : YASTMConfig) : Bool :=
  config.getGlobalValue Key.AllowSoulRelocation != 0

def isSoulShrinkingAllowed (config : YASTMConfig) : Bool :=
  config.getGlobalValue Key.AllowSoulShrinking != 0

/-- Source: `YASTMConfig::getSoulGemsWith`. -/
def getSoulGemsWith (config : YASTMConfig) (soulCapacity containedSoulSize : Nat) :
    Except Fault (List Gem) :=
  if !isValidSoulCapacity soulCapacity then
    .error Fault.rangeError
  else if !isValidContainedSoulSize soulCapacity containedSoulSize then
    .error Fault.rangeError
  else if soulCapacity = SoulSize.Black then
    if containedSoulSize = SoulSize.None then
      .ok config._blackSoulGemsEmpty
    else if containedSoulSize = SoulSize.Black then
      .ok config._blackSoulGemsFilled
    else
      .error Fault.rangeError
  else
    match config._whiteSoulGems[soulCapacity - 1]? with
    | none => .error Fault.outOfBounds
    | some variants =>
      match variants[containedSoulSize]? with
      | none => .error Fault.outOfBounds
      | some gems => .ok gems

end YASTMConfig

/-! ## Actors, victims and the inventory -/

/-- Source: `RE::TESObjectREFR::InventoryCountMap`: the count of each object that has an entry. -/
abbrev InventoryCountMap := Gem → Option Nat

/-- The part of an `RE::Actor` that `trapSoul` touches. `replaced` is a ghost field: the
`(objectToAdd, objectToRemove)` arguments of every `_replaceItem` call on this actor, oldest
first. -/
structure Actor where
  /-- Source: `IsDead(false)`. -/
  isDead : Bool
  /-- What `native::soulTrapVictimStatus` returns for the actor; `0` when it was trapped before. -/
  soulTrapVictimStatus : Nat
  /-- The soul size that `Victim(actor)` computes for the actor. -/
  soulSize : Nat
  /-- Whether `currentProcess` and `currentProcess->middleHigh` are both non-null. -/
  hasMiddleHigh : Bool
  /-- Source: `currentProcess->middleHigh->unk325`. -/
  unk325 : Bool
  /-- How many of each soul gem the actor carries. -/
  inventory : Gem → Nat
  replaced : List (Gem × Gem)

namespace Actor

/-- Source: `GetInventoryCounts` filtered by `IsSoulGem`: the objects carried, with their counts. -/
def GetInventoryCounts (actor : Actor) : InventoryCountMap :=
  fun gem => if actor.inventory gem = 0 then none else some (actor.inventory gem)

/-- Source: `AddObjectToContainer(object, nullptr, 1, nullptr)`. -/
def AddObjectToContainer (actor : Actor) (object : Gem) : Actor :=
  { actor with inventory := fun gem => if gem = object then actor.inventory gem + 1
                                       else actor.inventory gem }

/-- Source: `RemoveItem(object, 1, kRemove, nullptr, nullptr)`. -/
def RemoveItem (actor : Actor) (object : Gem) : Actor :=
  { actor with inventory := fun gem => if gem = object then actor.inventory gem - 1
                                       else actor.inventory gem }

end Actor

/-- Modelled from the spec: `Victim.hpp` is not among the sources. A victim is the soul handed to
the allocator: its soul size, and whether it is a displaced soul (built from a `SoulSize`) or the
soul of the victim actor (built from the actor). -/
structure Victim where
  soulSize : Nat
  isDisplacedSoul : Bool
  deriving DecidableEq, Repr

/-- Source: `Victim(actor)`. -/
def Victim.ofActor (actor : Actor) : Victim :=
  { soulSize := actor.soulSize, isDisplacedSoul := false }

/-- Source: `Victim(soulSize)`. -/
def Victim.ofSoulSize (soulSize : Nat) : Victim :=
  { soulSize := soulSize, isDisplacedSoul := true }

/-- The `std::priority_queue` of victims, kept in the order in which `top`/`pop` serve it. -/
abbrev VictimQueue := List Victim

/-- Modelled from the spec: the comparison of `Victim` is declared in `Victim.hpp`, which is not
among the sources; `emplace` on the `std::greater` queue is an insertion that keeps the victims in
ascending order of soul size. -/
def VictimQueue.emplace : VictimQueue → Victim → VictimQueue
  | [], victim => [victim]
  | first :: rest, victim =>
    if victim.soulSize < first.soulSize then victim :: first :: rest
    else first :: VictimQueue.emplace rest victim

/-! ## `TrapSoulFix.cpp` -/

/-- The condition of `_indexOfFirstOwnedObjectInList`:
`inventoryCountMap.contains(boundObject) && inventoryCountMap.at(boundObject) > 0`. -/
def isOwned (inventoryCountMap : InventoryCountMap) (boundObject : Gem) : Bool :=
  match inventoryCountMap boundObject with
  | some count => decide (0 < count)
  | none => false

/-- The loop of `_indexOfFirstOwnedObjectInList`, from counter `i` on. -/
def indexOfFirstOwnedFrom (inventoryCountMap : InventoryCountMap) : List Gem → Nat → Int
  | [], _ => -1
  | boundObject :: rest, i =>
    if isOwned inventoryCountMap boundObject then (i : Int)
    else indexOfFirstOwnedFrom inventoryCountMap rest (i + 1)

/-- Source: `_indexOfFirstOwnedObjectInList`. -/
def _indexOfFirstOwnedObjectInList (inventoryCountMap : InventoryCountMap)
    (objectsToSearch : List Gem) : Int :=
  indexOfFirstOwnedFrom inventoryCountMap objectsToSearch 0

/-- Source: `_replaceItem`. -/
def _replaceItem (actor : Actor) (objectToAdd objectToRemove : Gem) : Actor :=
  let added := actor.AddObjectToContainer objectToAdd
  let removed := added.RemoveItem objectToRemove
  { removed with replaced := removed.replaced ++ [(objectToAdd, objectToRemove)] }

/-- Source: `_fillSoulGem` on two lists of forms. -/
def _fillSoulGem (caster : Actor) (sourceSoulGems targetSoulGems : List Gem)
    (soulGemCountMap : InventoryCountMap) : Except Fault (Bool × Actor) :=
  let firstOwnedIndex := _indexOfFirstOwnedObjectInList soulGemCountMap sourceSoulGems
  if 0 ≤ firstOwnedIndex then
    match targetSoulGems[firstOwnedIndex.toNat]?, sourceSoulGems[firstOwnedIndex.toNat]? with
    | some soulGemToAdd, some soulGemToRemove =>
      .ok (true, _replaceItem caster soulGemToAdd soulGemToRemove)
    | _, _ => .error Fault.outOfBounds
  else
    .ok (false, caster)

/-- Source: `_fillSoulGem` on a capacity and two contained soul sizes. -/
def _fillSoulGemWith (config : YASTMConfig) (caster : Actor)
    (capacity sourceContainedSoulSize targetContainedSoulSize : Nat)
    (soulGemCountMap : InventoryCountMap) : Except Fault (Bool × Actor) :=
  match config.getSoulGemsWith capacity sourceContainedSoulSize with
  | .error fault => .error fault
  | .ok sourceSoulGems =>
    match config.getSoulGemsWith capacity targetContainedSoulSize with
    | .error fault => .error fault
    | .ok targetSoulGems => _fillSoulGem caster sourceSoulGems targetSoulGems soulGemCountMap

/-- Source: `_trapBlackSoul`. -/
def _trapBlackSoul (config : YASTMConfig) (caster : Actor) (victim : Victim)
    (soulGemCountMap : InventoryCountMap) : Except Fault (Bool × Actor) :=
  match _fillSoulGemWith config caster victim.soulSize SoulSize.None victim.soulSize
      soulGemCountMap with
  | .error fault => .error fault
  | .ok (isSoulTrapped, caster) =>
    if isSoulTrapped then .ok (true, caster) else .ok (false, caster)

/-- A loop `for (i = start; ...; ++i)` that runs `count` times at most; the body either leaves
the enclosing function with a value (`some`), or goes on to the next turn (`none`), or throws. -/
def forFirst {σ : Type} (body : Nat → Except Fault (Option σ)) : Nat → Nat →
    Except Fault (Option σ)
  | _, 0 => .ok none
  | start, count + 1 =>
    match body start with
    | .error fault => .error fault
    | .ok (some value) => .ok (some value)
    | .ok none => forFirst body (start + 1) count

/-- A loop `for (i = start; i > 0; --i)`. -/
def forFirstDown {σ : Type} (body : Nat → Except Fault (Option σ)) : Nat →
    Except Fault (Option σ)
  | 0 => .ok none
  | start + 1 =>
    match body (start + 1) with
    | .error fault => .error fault
    | .ok (some value) => .ok (some value)
    | .ok none => forFirstDown body start

/-- What a successful fill in `_trapFullSoul` does after `_fillSoulGem` returned `true`. -/
def afterFullFill (allowRelocation : Bool) (containedSoulSize : Nat) (caster : Actor)
    (victims : VictimQueue) : Actor × VictimQueue :=
  if allowRelocation && decide (SoulSize.None < containedSoulSize) then
    (caster, victims.emplace (Victim.ofSoulSize (toSoulSize containedSoulSize)))
  else
    (caster, victims)

/-- Source: `_trapFullSoul`. The result holds the returned flag, the caster and the victims queue. -/
def _trapFullSoul (config : YASTMConfig) (caster : Actor) (victim : Victim)
    (allowPartial allowDisplacement allowRelocation : Bool) (victims : VictimQueue)
    (soulGemCountMap : InventoryCountMap) : Except Fault (Bool × Actor × VictimQueue) :=
  let maxSoulCapacityToSearch : Nat :=
    if allowPartial then SoulSize.Grand else victim.soulSize
  let maxContainedSoulSizeToSearch : Nat :=
    if allowDisplacement then victim.soulSize else SoulSize.Petty
  let found : Except Fault (Option (Actor × VictimQueue)) :=
    if allowRelocation then
      forFirst (fun soulCapacity =>
        match config.getSoulGemsWith (toSoulSize soulCapacity) victim.soulSize with
        | .error fault => .error fault
        | .ok targetSoulGems =>
          forFirst (fun containedSoulSize =>
            match config.getSoulGemsWith (toSoulSize soulCapacity)
                (toSoulSize containedSoulSize) with
            | .error fault => .error fault
            | .ok sourceSoulGems =>
              match _fillSoulGem caster sourceSoulGems targetSoulGems soulGemCountMap with
              | .error fault => .error fault
              | .ok (result, caster) =>
                if result then
                  .ok (some (afterFullFill allowRelocation containedSoulSize caster victims))
                else .ok none)
            SoulSize.None maxContainedSoulSizeToSearch)
        victim.soulSize (maxSoulCapacityToSearch + 1 - victim.soulSize)
    else
      forFirst (fun containedSoulSize =>
        forFirst (fun soulCapacity =>
          match _fillSoulGemWith config caster (toSoulSize soulCapacity)
              (toSoulSize containedSoulSize) victim.soulSize soulGemCountMap with
          | .error fault => .error fault
          | .ok (result, caster) =>
            if result then
              .ok (some (afterFullFill allowRelocation containedSoulSize caster victims))
            else .ok none)
          victim.soulSize (maxSoulCapacityToSearch + 1 - victim.soulSize))
        SoulSize.None maxContainedSoulSizeToSearch
  match found with
  | .error fault => .error fault
  | .ok (some (caster, victims)) => .ok (true, caster, victims)
  | .ok none => .ok (false, caster, victims)

/-- Source: `_trapShrunkSoul`. -/
def _trapShrunkSoul (config : YASTMConfig) (caster : Actor) (victim : Victim)
    (allowDisplacement : Bool) (soulGemCountMap : InventoryCountMap) (victims : VictimQueue) :
    Except Fault (Bool × Actor × VictimQueue) :=
  let found : Except Fault (Option (Actor × VictimQueue)) :=
    forFirstDown (fun soulCapacity =>
      match config.getSoulGemsWith (toSoulSize soulCapacity) (toSoulSize soulCapacity) with
      | .error fault => .error fault
      | .ok targetSoulGems =>
        let maxContainedSoulSizeToSearch : Nat :=
          if allowDisplacement then victim.soulSize else SoulSize.Petty
        forFirst (fun containedSoulSize =>
          match config.getSoulGemsWith (toSoulSize soulCapacity)
              (toSoulSize containedSoulSize) with
          | .error fault => .error fault
          | .ok sourceSoulGems =>
            match _fillSoulGem caster sourceSoulGems targetSoulGems soulGemCountMap with
            | .error fault => .error fault
            | .ok (isFillSuccessful, caster) =>
              if isFillSuccessful then
                if SoulSize.None < containedSoulSize then
                  .ok (some (caster,
                    victims.emplace (Victim.ofSoulSize (toSoulSize containedSoulSize))))
                else .ok (some (caster, victims))
              else .ok none)
          SoulSize.None maxContainedSoulSizeToSearch)
      (victim.soulSize - 1)
  match found with
  | .error fault => .error fault
  | .ok (some (caster, victims)) => .ok (true, caster, victims)
  | .ok none => .ok (false, caster, victims)

/-- The variables of the `while` loop of `trapSoul`. `processed` is a ghost field: the victims
taken from the queue so far, oldest first. -/
structure LoopState where
  caster : Actor
  victims : VictimQueue
  isSoulTrapSuccessful : Bool
  processed : List Victim

/-- One turn of the `while` loop of `trapSoul`, for the victim just popped. -/
def processVictim (config : YASTMConfig)
    (allowPartial allowDisplacement allowRelocation allowShrinking : Bool)
    (state : LoopState) (victim : Victim) : Except Fault LoopState :=
  let state := { state with processed := state.processed ++ [victim] }
  let soulGemCountMap := state.caster.GetInventoryCounts
  if victim.soulSize = SoulSize.Black then
    match _trapBlackSoul config state.caster victim soulGemCountMap with
    | .error fault => .error fault
    | .ok (true, caster) => .ok { state with caster := caster, isSoulTrapSuccessful := true }
    | .ok (false, _) => .ok state
  else
    match _trapFullSoul config state.caster victim allowPartial allowDisplacement
        allowRelocation state.victims soulGemCountMap with
    | .error fault => .error fault
    | .ok (true, caster, victims) =>
      .ok { state with caster := caster, victims := victims, isSoulTrapSuccessful := true }
    | .ok (false, _, _) =>
      if allowShrinking then
        match _trapShrunkSoul config state.caster victim allowDisplacement soulGemCountMap
            state.victims with
        | .error fault => .error fault
        | .ok (true, caster, victims) =>
          .ok { state with caster := caster, victims := victims, isSoulTrapSuccessful := true }
        | .ok (false, _, _) => .ok state
      else .ok state

/-- The `while (!victims.empty())` loop of `trapSoul`. The result is the state when the loop was
left and the fault that left it, if one did. -/
def trapSoulLoop (config : YASTMConfig)
    (allowPartial allowDisplacement allowRelocation allowShrinking : Bool) :
    Nat → LoopState → LoopState × Option Fault
  | 0, state => (state, some Fault.outOfFuel)
  | fuel + 1, state =>
    match state.victims with
    | [] => (state, none)
    | victim :: rest =>
      let popped := { state with victims := rest }
      match processVictim config allowPartial allowDisplacement allowRelocation allowShrinking
          popped victim with
      | .error fault => ({ popped with processed := popped.processed ++ [victim] }, some fault)
      | .ok next =>
        trapSoulLoop config allowPartial allowDisplacement allowRelocation allowShrinking
          fuel next

/-- What a call of `trapSoul` leaves behind. -/
structure TrapSoulOutcome where
  /-- The returned value. -/
  returned : Bool
  caster : Option Actor
  victimActor : Option Actor
  /-- The victims the loop took from the queue, oldest first. -/
  processed : List Victim
  /-- Whether a `std::exception` reached the `catch` block. -/
  caught : Bool

/-- Source: `trapSoul`. An out-of-range vector access and an exhausted fuel are the only errors. -/
def trapSoul (fuel : Nat) (config : YASTMConfig) (caster victimActor : Option Actor) :
    Except Fault TrapSoulOutcome :=
  match caster, victimActor with
  | some casterActor, some victimA =>
    if casterActor.isDead || !victimA.isDead || victimA.soulTrapVictimStatus == 0 then
      .ok { returned := false, caster := caster, victimActor := victimActor,
            processed := [], caught := false }
    else
      let allowPartial := config.isPartialFillsAllowed
      let allowDisplacement := config.isSoulDisplacementAllowed
      let allowRelocation := config.isSoulRelocationAllowed
      let allowShrinking := config.isSoulShrinkingAllowed
      let start : LoopState :=
        { caster := casterActor, victims := VictimQueue.emplace [] (Victim.ofActor victimA),
          isSoulTrapSuccessful := false, processed := [] }
      match trapSoulLoop config allowPartial allowDisplacement allowRelocation allowShrinking
          fuel start with
      | (final, none) =>
        if final.isSoulTrapSuccessful then
          .ok { returned := true, caster := some final.caster,
                victimActor := some (if victimA.hasMiddleHigh then
                  { victimA with unk325 := true } else victimA),
                processed := final.processed, caught := false }
        else
          .ok { returned := false, caster := some final.caster, victimActor := victimActor,
                processed := final.processed, caught := false }
      | (final, some Fault.rangeError) =>
        .ok { returned := false, caster := some final.caster, victimActor := victimActor,
              processed := final.processed, caught := true }
      | (_, some fault) => .error fault
  | _, _ =>
    .ok { returned := false, caster := caster, victimActor := victimActor,
          processed := [], caught := false }

/-! ## Vocabulary of the statements -/

/-- The caster owns, with a positive count, a gem of the list that the configuration keeps for
`(soulCapacity, containedSoulSize)`. -/
def ownsGemOf (config : YASTMConfig) (soulGemCountMap : InventoryCountMap)
    (soulCapacity containedSoulSize : Nat) : Prop :=
  ∃ gems, config.getSoulGemsWith soulCapacity containedSoulSize = .ok gems ∧
    ∃ gem ∈ gems, isOwned soulGemCountMap gem = true

/-- The actor `after` is `before` with one gem replaced: the first owned gem `removed` of the list
for `(soulCapacity, sourceContained)` went, and the gem `added` at the same index of the list for
`(soulCapacity, targetContained)` came. -/
def replacedGem (config : YASTMConfig) (soulGemCountMap : InventoryCountMap)
    (before after : Actor) (soulCapacity sourceContained targetContained : Nat)
    (removed added : Gem) : Prop :=
  ∃ sourceSoulGems targetSoulGems index,
    config.getSoulGemsWith soulCapacity sourceContained = .ok sourceSoulGems ∧
    config.getSoulGemsWith soulCapacity targetContained = .ok targetSoulGems ∧
    sourceSoulGems[index]? = some removed ∧ targetSoulGems[index]? = some added ∧
    isOwned soulGemCountMap removed = true ∧
    (∀ (j : Nat) (gem : Gem), j < index → sourceSoulGems[j]? = some gem → isOwned soulGemCountMap gem = false) ∧
    after = _replaceItem before added removed

/-- The lists of the configuration have the shape that `_createSoulGemMap` gives them when every
group is complete: five capacities, `capacity + 1` variants for each, the variants of one capacity
all of one length, and the two black lists of one length. -/
def YASTMConfig.isAligned (config : YASTMConfig) : Bool :=
  (config._blackSoulGemsEmpty.length == config._blackSoulGemsFilled.length) &&
  (List.range 5).all fun i =>
    match config._whiteSoulGems[i]? with
    | none => false
    | some variants =>
      (variants.length == i + 2) &&
        variants.all fun gems => gems.length == (variants.headD []).length

/-- The pair `(soulCapacity, containedSoulSize)` is one that `_trapFullSoul` may fill for a victim
of size `soulSize`: the capacity is between the soul size and the largest capacity searched, the
contained soul is below the largest contained size searched, and the caster owns a gem of the
list of the pair. -/
def eligiblePair (config : YASTMConfig) (soulGemCountMap : InventoryCountMap) (soulSize : Nat)
    (allowPartial allowDisplacement : Bool) (soulCapacity containedSoulSize : Nat) : Prop :=
  soulSize ≤ soulCapacity ∧
  soulCapacity ≤ (if allowPartial then SoulSize.Grand else soulSize) ∧
  containedSoulSize < (if allowDisplacement then soulSize else SoulSize.Petty) ∧
  ownsGemOf config soulGemCountMap soulCapacity containedSoulSize

/-! ## Sample inputs -/

/-- One group of gems for each white capacity: gem `10 * c + k` has capacity `c` and holds a soul
of size `k`. -/
def sampleWhiteSoulGems : List (List (List Gem)) :=
  [[[10], [11]],
   [[20], [21], [22]],
   [[30], [31], [32], [33]],
   [[40], [41], [42], [43], [44]],
   [[50], [51], [52], [53], [54], [55]]]

/-- A configuration with the sample white gems, the empty black gem `60`, the filled black gem
`66`, no global form loaded, and the four toggles given by their defaults. -/
def sampleConfig (allowPartial allowDisplacement allowRelocation allowShrinking : Bool) :
    YASTMConfig :=
  { _globals := fun _ => none
    _globalsDefaults := fun key =>
      match key with
      | Key.AllowPartiallyFillingSoulGems => if allowPartial then 1 else 0
      | Key.AllowSoulDisplacement => if allowDisplacement then 1 else 0
      | Key.AllowSoulRelocation => if allowRelocation then 1 else 0
      | Key.AllowSoulShrinking => if allowShrinking then 1 else 0
    _whiteSoulGems := sampleWhiteSoulGems
    _blackSoulGemsEmpty := [60]
    _blackSoulGemsFilled := [66] }

/-- A living caster who carries one of each gem of `gems`. -/
def sampleCaster (gems : List Gem) : Actor :=
  { isDead := false, soulTrapVictimStatus := 1, soulSize := SoulSize.Black,
    hasMiddleHigh := true, unk325 := false,
    inventory := fun gem => if gem ∈ gems then 1 else 0, replaced := [] }

/-- A dead actor of the given soul size that was not soul trapped before. -/
def sampleVictim (soulSize : Nat) : Actor :=
  { isDead := true, soulTrapVictimStatus := 1, soulSize := soulSize,
    hasMiddleHigh := true, unk325 := false, inventory := fun _ => 0, replaced := [] }

/-! ## Raw soul sizes (`config/SoulSize.hpp`) -/

namespace RawSoulSize

abbrev None : Nat := 0
abbrev Petty : Nat := 250
abbrev Lesser : Nat := 500
abbrev Common : Nat := 1000
abbrev Greater : Nat := 2000
abbrev Grand : Nat := 3000

/-- The enumerators of `enum class RawSoulSize`, as underlying values. -/
def enumerators : List Nat := [None, Petty, Lesser, Common, Greater, Grand]

end RawSoulSize

/-- The enumerators of `enum class SoulSize`, as underlying values. -/
def SoulSize.enumerators : List Nat :=
  [SoulSize.None, SoulSize.Petty, SoulSize.Lesser, SoulSize.Common, SoulSize.Greater,
    SoulSize.Grand, SoulSize.Black]

/-- Source: `toRawSoulSize`. A value that is no enumerator leaves the `switch` and gets
`RawSoulSize::None`. -/
def toRawSoulSize (soulSize : Nat) : Nat :=
  if soulSize = SoulSize.None then RawSoulSize.None
  else if soulSize = SoulSize.Petty then RawSoulSize.Petty
  else if soulSize = SoulSize.Lesser then RawSoulSize.Lesser
  else if soulSize = SoulSize.Common then RawSoulSize.Common
  else if soulSize = SoulSize.Greater then RawSoulSize.Greater
  else if soulSize = SoulSize.Grand ∨ soulSize = SoulSize.Black then RawSoulSize.Grand
  else RawSoulSize.None

/-- Source: `toSoulSize(rawSoulSize, isNpc)`. A value that is no enumerator leaves the `switch`
and gets `SoulSize::None`. -/
def RawSoulSize.toSoulSize (rawSoulSize : Nat) (isNpc : Bool) : Nat :=
  if isNpc then SoulSize.Black
  else if rawSoulSize = RawSoulSize.None then SoulSize.None
  else if rawSoulSize = RawSoulSize.Petty then SoulSize.Petty
  else if rawSoulSize = RawSoulSize.Lesser then SoulSize.Lesser
  else if rawSoulSize = RawSoulSize.Common then SoulSize.Common
  else if rawSoulSize = RawSoulSize.Greater then SoulSize.Greater
  else if rawSoulSize = RawSoulSize.Grand then SoulSize.Grand
  else SoulSize.None

/-! ## `config/Form.hpp` and `config/FormError.hpp` -/

/-- A game form, `RE::TESForm`: what `GetFormType()` and `GetName()` return for it. -/
structure TESForm where
  formID : Nat
  formType : Nat
  name : String
  deriving DecidableEq, Repr

/-- Source: `FormId`, the id of a form and the name of the plugin that defines it. -/
structure FormId where
  id_ : Nat
  pluginName_ : String
  deriving DecidableEq, Repr

/-- The exceptions of `FormError.hpp` that `loadForm` throws, with their constructor arguments. -/
inductive FormError where
  | MissingFormError (formLocator : FormId)
  | UnexpectedFormTypeError (expectedFormType receivedFormType : Nat) (formName : String)
  deriving DecidableEq, Repr

/-- Source: the members of `Form<T>`. `FormType` is `T::FORMTYPE`; `form_` is `none` for
`nullptr`. -/
structure Form where
  FormType : Nat
  formId_ : Option FormId
  form_ : Option TESForm
  deriving DecidableEq, Repr

namespace Form

/-- Source: `Form<T>::clear`. -/
def clear (self : Form) : Form :=
  { self with formId_ := none, form_ := none }

/-- Source: `Form<T>::isConfigLoaded`. -/
def isConfigLoaded (self : Form) : Bool := self.formId_.isSome

/-- Source: `Form<T>::isFormLoaded`. -/
def isFormLoaded (self : Form) : Bool := self.form_.isSome

/-- The cast `form->As<T>()`: the form when its type is `T::FORMTYPE`, `nullptr` otherwise. -/
def castAs (FormType : Nat) (form : TESForm) : Option TESForm :=
  if form.formType = FormType then some form else none

/-- Source: `Form<T>::loadForm`. The data handler is its lookup `LookupForm(id, pluginName)`.
The result is the object after the call and the exception that left the call, if one did. -/
def loadForm (self : Form) (dataHandler : Nat → String → Option TESForm) :
    Form × Option FormError :=
  match self.formId_ with
  | none => (self, none)
  | some formId =>
    match dataHandler formId.id_ formId.pluginName_ with
    | none => (self, some (FormError.MissingFormError formId))
    | some form =>
      let assigned : Form := { self with form_ := castAs self.FormType form }
      match assigned.form_ with
      | none =>
        (assigned,
          some (FormError.UnexpectedFormTypeError self.FormType form.formType form.name))
      | some _ => (assigned, none)

end Form

/-! ## More vocabulary of the statements -/

/-- The gem is a member of the list that the configuration keeps for
`(soulCapacity, containedSoulSize)`. -/
def gemOfList (config : YASTMConfig) (soulCapacity containedSoulSize : Nat) (gem : Gem) :
    Prop :=
  ∃ gems, config.getSoulGemsWith soulCapacity containedSoulSize = .ok gems ∧ gem ∈ gems

/-- The triple `(c, k, t)` — the capacity, the contained size of the list of the gem removed and
the contained size of the list of the gem added — is one that a turn of the loop of `trapSoul` may
fill for the victim: through `_trapBlackSoul`, through `_trapFullSoul` or, when shrinking is
allowed, through `_trapShrunkSoul`. -/
def fillOfTurn (allowPartial allowDisplacement allowShrinking : Bool) (victim : Victim)
    (c k t : Nat) : Prop :=
  (victim.soulSize = SoulSize.Black ∧ c = SoulSize.Black ∧ k = SoulSize.None ∧
    t = SoulSize.Black) ∨
  (victim.soulSize ≠ SoulSize.Black ∧ victim.soulSize ≤ c ∧
    c ≤ (if allowPartial then SoulSize.Grand else victim.soulSize) ∧
    k < (if allowDisplacement then victim.soulSize else SoulSize.Petty) ∧
    t = victim.soulSize) ∨
  (victim.soulSize ≠ SoulSize.Black ∧ allowShrinking = true ∧ SoulSize.Petty ≤ c ∧
    c ≤ victim.soulSize - 1 ∧
    k < (if allowDisplacement then victim.soulSize else SoulSize.Petty) ∧ t = c)

/-- Every gem of the white lists of the configuration. -/
def YASTMConfig.whiteGems (config : YASTMConfig) : List Gem :=
  config._whiteSoulGems.flatten.flatten

/-- Every gem of the lists of the configuration. -/
def YASTMConfig.allGems (config : YASTMConfig) : List Gem :=
  config.whiteGems ++ config._blackSoulGemsEmpty ++ config._blackSoulGemsFilled

/-- The configuration with other black lists and everything else the same. -/
def YASTMConfig.withBlackLists (config : YASTMConfig) (empty filled : List Gem) : YASTMConfig :=
  { config with _blackSoulGemsEmpty := empty, _blackSoulGemsFilled := filled }

/-- The configuration with other white lists and other toggles, and the same black lists. -/
def YASTMConfig.withWhiteLists (config : YASTMConfig) (globals : Key → Option GlobalId)
    (defaults : Key → Int) (white : List (List (List Gem))) : YASTMConfig :=
  { config with _globals := globals, _globalsDefaults := defaults, _whiteSoulGems := white }

/-- The states in which the condition of the `while` loop of `trapSoul` is evaluated, in order:
the trace of `trapSoulLoop`. -/
def trapSoulLoopTrace (config : YASTMConfig)
    (allowPartial allowDisplacement allowRelocation allowShrinking : Bool) :
    Nat → LoopState → List LoopState
  | 0, state => [state]
  | fuel + 1, state =>
    state ::
      match state.victims with
      | [] => []
      | victim :: rest =>
        match processVictim config allowPartial allowDisplacement allowRelocation allowShrinking
            { state with victims := rest } victim with
        | .error _ => []
        | .ok next =>
          trapSoulLoopTrace config allowPartial allowDisplacement allowRelocation allowShrinking
            fuel next

/-! ## Soul gem groups and game forms (`config/YASTMConfig.cpp`) -/

/-- Modelled from the spec: `SoulGemId` is declared in a header that is not among the sources.
It names a form of the game by its form id and the plugin that defines it, read through
`formId()` and `pluginName()`. -/
structure SoulGemId where
  formId : Nat
  pluginName : String
  deriving DecidableEq, Repr

/-- Modelled from the spec: `SoulGemGroup.hpp` is not among the sources. A group is what
`_isValidConfig` and `_createSoulGemMap` read of it through the accessors `id()`, `isReusable()`,
`capacity()`, `effectiveCapacity()` and `members()`; the way a group is built from the
configuration file is not modelled, so every accessor is a field. -/
structure SoulGemGroup where
  id : String
  isReusable : Bool
  capacity : Nat
  effectiveCapacity : Nat
  members : List SoulGemId
  deriving DecidableEq, Repr

namespace SOUL_LEVEL

/-- The game's soul level of an empty gem, `RE::SOUL_LEVEL::kNone`. -/
abbrev kNone : Nat := 0
/-- The game's soul level of a grand soul, `RE::SOUL_LEVEL::kGrand`. -/
abbrev kGrand : Nat := 5

end SOUL_LEVEL

/-- A form of the game, as far as `_isValidConfig` and `_createSoulGemMap` read it: `gem` is the
form as an inventory object (the pointer stored in the gem lists), `isSoulGem` is `IsSoulGem()`,
`maximumCapacity` is `GetMaximumCapacity()`, `containedSoul` is `GetContainedSoul()`,
`hasReusableKeyword` is `HasKeyword(reusableSoulGemKeyword)`, and `linkedSoulGem` is the contained
soul of the form's linked soul gem, `none` when the pointer is null. -/
structure GameForm where
  gem : Gem
  isSoulGem : Bool
  maximumCapacity : Nat
  containedSoul : Nat
  hasReusableKeyword : Bool
  linkedSoulGem : Option Nat
  deriving DecidableEq, Repr

/-- The data handler of the game: `LookupForm(formId, pluginName)`, `none` for a null pointer. -/
abbrev TESDataHandler := Nat → String → Option GameForm

/-- The null pointer, as an entry of a gem list. -/
def Gem.null : Gem := 0

/-- Source: `_getFormFromId`: `LookupForm<RE::TESSoulGem>`, which is null when there is no such
form or when the form is not a soul gem. -/
def _getFormFromId (soulGemId : SoulGemId) (dataHandler : TESDataHandler) : Gem :=
  match dataHandler soulGemId.formId soulGemId.pluginName with
  | some form => if form.isSoulGem then form.gem else Gem.null
  | none => Gem.null

/-- The last check of the body of the inner loop of `_isValidConfig`, on the contained soul of
the member at index `i`: the `switch` for a black group, the comparison with `i` otherwise. -/
def hasValidContainedSoul (soulGemGroup : SoulGemGroup) (i : Nat) (form : GameForm) : Bool :=
  if soulGemGroup.capacity = SoulSize.Black then
    match i with
    | 0 => if form.containedSoul != SOUL_LEVEL.kNone then false else true
    | 1 => if form.containedSoul != SOUL_LEVEL.kGrand then false else true
    | _ => false
  else
    if form.containedSoul != i then false else true

/-- The checks that the body of the inner loop of `_isValidConfig` makes on the member at index
`i` of a group; `false` is the `return false` of the source. -/
def isValidMember (dataHandler : TESDataHandler) (soulGemGroup : SoulGemGroup) (i : Nat)
    (soulGemId : SoulGemId) : Bool :=
  match dataHandler soulGemId.formId soulGemId.pluginName with
  | none => false
  | some form =>
    if !form.isSoulGem then false
    else if soulGemGroup.effectiveCapacity != form.maximumCapacity then false
    else if form.hasReusableKeyword && form.containedSoul != SOUL_LEVEL.kNone then
      match form.linkedSoulGem with
      | none => false
      | some linkedContainedSoul =>
        if linkedContainedSoul != SOUL_LEVEL.kNone then false
        else hasValidContainedSoul soulGemGroup i form
    else hasValidContainedSoul soulGemGroup i form

/-- The inner loop of `_isValidConfig`, from counter `i` on. -/
def areValidMembersFrom (dataHandler : TESDataHandler) (soulGemGroup : SoulGemGroup) :
    Nat → List SoulGemId → Bool
  | _, [] => true
  | i, soulGemId :: rest =>
    if isValidMember dataHandler soulGemGroup i soulGemId then
      areValidMembersFrom dataHandler soulGemGroup (i + 1) rest
    else false

/-- Source: `YASTMConfig::_isValidConfig`. The member `_soulGemGroups` is the argument
`soulGemGroups`. -/
def _isValidConfig (soulGemGroups : List SoulGemGroup) (dataHandler : TESDataHandler) : Bool :=
  match soulGemGroups with
  | [] => true
  | soulGemGroup :: rest =>
    if areValidMembersFrom dataHandler soulGemGroup 0 soulGemGroup.members then
      _isValidConfig rest dataHandler
    else false

/-- Source: `std::vector::resize(count)` on a vector of gem lists: the first `count` lists are
kept and empty lists are appended up to `count`. -/
def resizeVariants (count : Nat) (variants : List (List Gem)) : List (List Gem) :=
  variants.take count ++ List.replicate (count - variants.length) []

/-- The first loop of `_createSoulGemMap`:
`_whiteSoulGems[i].resize(getVariantCountForCapacity(i + 1))` for every `i`. -/
def resizeWhiteSoulGems (whiteSoulGems : List (List (List Gem))) : List (List (List Gem)) :=
  whiteSoulGems.mapIdx fun i variants =>
    resizeVariants (getVariantCountForCapacity (i + 1)) variants

/-- Source: `_whiteSoulGems[row][i].push_back(soulGemForm)`; an index past the end is a fault. -/
def pushWhite (whiteSoulGems : List (List (List Gem))) (row i : Nat) (soulGemForm : Gem) :
    Except Fault (List (List (List Gem))) :=
  match whiteSoulGems[row]? with
  | none => .error Fault.outOfBounds
  | some variants =>
    match variants[i]? with
    | none => .error Fault.outOfBounds
    | some gems => .ok (whiteSoulGems.set row (variants.set i (gems ++ [soulGemForm])))

/-- The row index `static_cast<std::size_t>(capacity) - 1`, in 64-bit unsigned arithmetic. -/
def whiteRow (capacity : Nat) : Nat :=
  (capacity % 2 ^ 64 + 2 ^ 64 - 1) % 2 ^ 64

/-- The loop over the members of a white group in `_createSoulGemMap`, from counter `i` on. -/
def addWhiteMembers (dataHandler : TESDataHandler) (capacity : Nat) :
    Nat → List SoulGemId → List (List (List Gem)) → Except Fault (List (List (List Gem)))
  | _, [], whiteSoulGems => .ok whiteSoulGems
  | i, soulGemId :: rest, whiteSoulGems =>
    match pushWhite whiteSoulGems (whiteRow capacity) i
        (_getFormFromId soulGemId dataHandler) with
    | .error fault => .error fault
    | .ok next => addWhiteMembers dataHandler capacity (i + 1) rest next

/-- What `_createSoulGemMap` does with one group that passed the test on `isReusable()`. -/
def addGroup (dataHandler : TESDataHandler) (config : YASTMConfig)
    (soulGemGroup : SoulGemGroup) : Except Fault YASTMConfig :=
  if soulGemGroup.capacity = SoulSize.Black then
    match soulGemGroup.members[0]?, soulGemGroup.members[1]? with
    | some emptyId, some filledId =>
      .ok { config with
        _blackSoulGemsEmpty :=
          config._blackSoulGemsEmpty ++ [_getFormFromId emptyId dataHandler]
        _blackSoulGemsFilled :=
          config._blackSoulGemsFilled ++ [_getFormFromId filledId dataHandler] }
    | _, _ => .error Fault.outOfBounds
  else
    match addWhiteMembers dataHandler soulGemGroup.capacity 0 soulGemGroup.members
        config._whiteSoulGems with
    | .error fault => .error fault
    | .ok whiteSoulGems => .ok { config with _whiteSoulGems := whiteSoulGems }

/-- One of the two loops over `_soulGemGroups` in `_createSoulGemMap`: the first takes the groups
with `isReusable()`, the second the groups with `!isReusable()`. -/
def addGroups (dataHandler : TESDataHandler) (reusable : Bool) :
    List SoulGemGroup → YASTMConfig → Except Fault YASTMConfig
  | [], config => .ok config
  | soulGemGroup :: rest, config =>
    if soulGemGroup.isReusable = reusable then
      match addGroup dataHandler config soulGemGroup with
      | .error fault => .error fault
      | .ok next => addGroups dataHandler reusable rest next
    else addGroups dataHandler reusable rest config

/-- A listing loop of `_createSoulGemMap` over one gem list: the log line of each form reads
`soulGemForm->GetFormID()`, `GetName()` and other members, which faults on a null pointer. -/
def listSoulGemForms : List Gem → Except Fault Unit
  | [] => .ok ()
  | soulGemForm :: rest =>
    if soulGemForm = Gem.null then .error Fault.nullDereference else listSoulGemForms rest

/-- The listing loop of `_createSoulGemMap` over the variants `_whiteSoulGems[i]` of one row. -/
def listVariants : List (List Gem) → Except Fault Unit
  | [] => .ok ()
  | gems :: rest =>
    match listSoulGemForms gems with
    | .error fault => .error fault
    | .ok _ => listVariants rest

/-- The listing loop of `_createSoulGemMap` over the rows of `_whiteSoulGems`. -/
def listWhiteSoulGems : List (List (List Gem)) → Except Fault Unit
  | [] => .ok ()
  | variants :: rest =>
    match listVariants variants with
    | .error fault => .error fault
    | .ok _ => listWhiteSoulGems rest

/-- Source: `YASTMConfig::_createSoulGemMap`. The member `_soulGemGroups` is the argument
`soulGemGroups`; a vector index past the end is the fault `outOfBounds`. Of the logging only the
reads of the listed forms are kept: the listing loops go over the white lists, over
`_blackSoulGemsEmpty` and, as in the source, over `_blackSoulGemsEmpty` a second time under the
heading of the filled black gems. -/
def _createSoulGemMap (config : YASTMConfig) (soulGemGroups : List SoulGemGroup)
    (dataHandler : TESDataHandler) : Except Fault YASTMConfig :=
  let resized := { config with _whiteSoulGems := resizeWhiteSoulGems config._whiteSoulGems }
  match addGroups dataHandler true soulGemGroups resized with
  | .error fault => .error fault
  | .ok config =>
    match addGroups dataHandler false soulGemGroups config with
    | .error fault => .error fault
    | .ok config =>
      match listWhiteSoulGems config._whiteSoulGems with
      | .error fault => .error fault
      | .ok _ =>
        match listSoulGemForms config._blackSoulGemsEmpty with
        | .error fault => .error fault
        | .ok _ =>
          match listSoulGemForms config._blackSoulGemsEmpty with
          | .error fault => .error fault
          | .ok _ => .ok config

/-- Source: `YASTMConfig::processGameForms`, without `_getGlobalForms`: the map is built only
for a configuration that `_isValidConfig` accepts. -/
def processGameForms (config : YASTMConfig) (soulGemGroups : List SoulGemGroup)
    (dataHandler : TESDataHandler) : Except Fault YASTMConfig :=
  if _isValidConfig soulGemGroups dataHandler then
    _createSoulGemMap config soulGemGroups dataHandler
  else .ok config

/-! ## Vocabulary of the statements on groups -/

/-- A configuration before `_createSoulGemMap`: one row for each of the five white capacities,
no gem listed. -/
def YASTMConfig.isUnmapped (config : YASTMConfig) : Bool :=
  (config._whiteSoulGems.length == 5) &&
    (config._whiteSoulGems.all fun variants => variants.all fun gems => gems.isEmpty) &&
    config._blackSoulGemsEmpty.isEmpty && config._blackSoulGemsFilled.isEmpty

/-- The gem list `whiteSoulGems[row][k]`, when both indices are within bounds. -/
def cellOf (whiteSoulGems : List (List (List Gem))) (row k : Nat) : Option (List Gem) :=
  match whiteSoulGems[row]? with
  | none => none
  | some variants => variants[k]?

/-- The number of variants of `whiteSoulGems[row]`, when the index is within bounds. -/
def rowLength (whiteSoulGems : List (List (List Gem))) (row : Nat) : Option Nat :=
  (whiteSoulGems[row]?).map List.length

/-- The index of the member of a group that is listed for a contained soul size: `0` and `1` for
the empty and the filled gem of a black group, the contained soul size for a white group. -/
def variantIndex (soulCapacity containedSoulSize : Nat) : Nat :=
  if soulCapacity = SoulSize.Black then
    if containedSoulSize = SoulSize.None then 0 else 1
  else containedSoulSize

/-- The gem that `_createSoulGemMap` lists for the member at index `i` of a group, when the group
has one. -/
def SoulGemGroup.gemAt (dataHandler : TESDataHandler) (i : Nat) (soulGemGroup : SoulGemGroup) :
    Option Gem :=
  (soulGemGroup.members[i]?).map fun soulGemId => _getFormFromId soulGemId dataHandler

/-- The groups of one capacity and one value of `isReusable()`, in configuration order. -/
def groupsOf (soulGemGroups : List SoulGemGroup) (reusable : Bool) (capacity : Nat) :
    List SoulGemGroup :=
  soulGemGroups.filter fun soulGemGroup =>
    (soulGemGroup.isReusable == reusable) && (soulGemGroup.capacity == capacity)

/-- Sample forms: form id `n` of plugin `Skyrim.esm` is the gem `n` of the sample configuration,
with the capacity and the contained soul that the sample gives it; form id `n` of plugin
`Reusable.esp` is the gem `100 + n`, a reusable gem of the same capacity and contained soul whose
linked soul gem is empty. -/
def sampleDataHandler : TESDataHandler := fun formId pluginName =>
  if (pluginName = "Skyrim.esm" ∨ pluginName = "Reusable.esp") ∧ 10 ≤ formId ∧ formId < 70 then
    some { gem := if pluginName = "Reusable.esp" then 100 + formId else formId,
           isSoulGem := true,
           maximumCapacity := if formId / 10 = 6 then 5 else formId / 10,
           containedSoul := if formId / 10 = 6 ∧ formId % 10 = 6 then 5 else formId % 10,
           hasReusableKeyword := decide (pluginName = "Reusable.esp"),
           linkedSoulGem := if pluginName = "Reusable.esp" then some SOUL_LEVEL.kNone else none }
  else none

/-- A sample group: the members are the forms `10 * c + k` of the plugin, for the contained sizes
`ks`. -/
def sampleGroupOf (pluginName : String) (id : String) (reusable : Bool) (capacity : Nat)
    (ks : List Nat) : SoulGemGroup :=
  { id := id, isReusable := reusable, capacity := capacity,
    effectiveCapacity := if capacity = SoulSize.Black then SoulSize.Grand else capacity,
    members := ks.map fun k => { formId := 10 * capacity + k, pluginName := pluginName } }

/-- A sample group of gems of `Skyrim.esm`. -/
def sampleGroup (id : String) (reusable : Bool) (capacity : Nat) (ks : List Nat) :
    SoulGemGroup :=
  sampleGroupOf "Skyrim.esm" id reusable capacity ks

/-- The groups from which `_createSoulGemMap` builds the lists of the sample configuration. -/
def sampleGroups : List SoulGemGroup :=
  [sampleGroup "petty" false 1 [0, 1], sampleGroup "lesser" false 2 [0, 1, 2],
   sampleGroup "common" false 3 [0, 1, 2, 3], sampleGroup "greater" false 4 [0, 1, 2, 3, 4],
   sampleGroup "grand" false 5 [0, 1, 2, 3, 4, 5], sampleGroup "black" false 6 [0, 6]]

/-- The sample configuration before `_createSoulGemMap`. -/
def sampleUnmapped (allowPartial allowDisplacement allowRelocation allowShrinking : Bool) :
    YASTMConfig :=
  { sampleConfig allowPartial allowDisplacement allowRelocation allowShrinking with
    _whiteSoulGems := [[], [], [], [], []]
    _blackSoulGemsEmpty := []
    _blackSoulGemsFilled := [] }

/-- The groups with one value of `isReusable()` whose gems go to one row of the white lists, in
configuration order. -/
def rowGroups (soulGemGroups : List SoulGemGroup) (reusable : Bool) (row : Nat) :
    List SoulGemGroup :=
  soulGemGroups.filter fun soulGemGroup =>
    (soulGemGroup.isReusable == reusable) && !(soulGemGroup.capacity == SoulSize.Black) &&
      (whiteRow soulGemGroup.capacity == row)

/-- Sample groups with a reusable group after the other group of its capacity: two Petty groups
and two black groups. -/
def sampleMixedGroups : List SoulGemGroup :=
  [sampleGroup "petty" false 1 [0, 1], sampleGroupOf "Reusable.esp" "petty2" true 1 [0, 1],
   sampleGroup "lesser" false 2 [0, 1, 2], sampleGroup "common" false 3 [0, 1, 2, 3],
   sampleGroup "greater" false 4 [0, 1, 2, 3, 4], sampleGroup "grand" false 5 [0, 1, 2, 3, 4, 5],
   sampleGroup "black" false 6 [0, 6], sampleGroupOf "Reusable.esp" "black2" true 6 [0, 6]]

/-- The lists that `_createSoulGemMap` builds from the mixed sample groups. -/
def sampleMixedConfig : YASTMConfig :=
  { sampleConfig true true true true with
    _whiteSoulGems :=
      [[[110, 10], [111, 11]],
       [[20], [21], [22]],
       [[30], [31], [32], [33]],
       [[40], [41], [42], [43], [44]],
       [[50], [51], [52], [53], [54], [55]]]
    _blackSoulGemsEmpty := [160, 60]
    _blackSoulGemsFilled := [166, 66] }

/-- The sample groups and one more Grand group whose member for the empty gem is the form of
the empty black gem, which has the maximum capacity Grand and no soul, as `_isValidConfig` asks of
the member at index 0 of a Grand group. -/
def sampleTwoColourGroups : List SoulGemGroup :=
  sampleGroups ++
    [{ id := "grand2", isReusable := false, capacity := SoulSize.Grand,
       effectiveCapacity := SoulSize.Grand,
       members := { formId := 60, pluginName := "Skyrim.esm" } ::
         [1, 2, 3, 4, 5].map fun k => { formId := 50 + k, pluginName := "Reusable.esp" } }]

/-- The lists that `_createSoulGemMap` builds from the two-colour sample groups: gem `60` is in
the list of the empty Grand gems and in the list of the empty black gems. -/
def sampleTwoColourConfig : YASTMConfig :=
  { sampleConfig true true true true with
    _whiteSoulGems :=
      [[[10], [11]],
       [[20], [21], [22]],
       [[30], [31], [32], [33]],
       [[40], [41], [42], [43], [44]],
       [[50, 60], [51, 151], [52, 152], [53, 153], [54, 154], [55, 155]]]
    _blackSoulGemsEmpty := [60]
    _blackSoulGemsFilled := [66] }

/-! # Theorems -/

/-! ## Loops -/

theorem forFirst_inv_some {σ : Type} (body : Nat → Except Fault (Option σ)) (value : σ) :
    ∀ (count start : Nat), forFirst body start count = .ok (some value) →
      ∃ j, start ≤ j ∧ j < start + count ∧ body j = .ok (some value) ∧
        ∀ i, start ≤ i → i < j → body i = .ok none := by
  intro count
  induction count with
  | zero => intro start h; simp [forFirst] at h
  | succ n ih =>
    intro start h
    unfold forFirst at h
    cases hb : body start with
    | error fault => rw [hb] at h; simp at h
    | ok r =>
      cases r with
      | some v =>
        rw [hb] at h
        simp at h
        subst h
        exact ⟨start, le_refl _, by omega, hb, fun i h1 h2 => by omega⟩
      | none =>
        rw [hb] at h
        obtain ⟨j, h1, h2, h3, h4⟩ := ih (start + 1) h
        refine ⟨j, by omega, by omega, h3, fun i hi1 hi2 => ?_⟩
        by_cases hi : i = start
        · subst hi; exact hb
        · exact h4 i (by omega) hi2

theorem forFirst_inv_none {σ : Type} (body : Nat → Except Fault (Option σ)) :
    ∀ (count start : Nat), forFirst body start count = .ok none →
      ∀ i, start ≤ i → i < start + count → body i = .ok none := by
  intro count
  induction count with
  | zero => intro start _ i h1 h2; omega
  | succ n ih =>
    intro start h i h1 h2
    unfold forFirst at h
    cases hb : body start with
    | error fault => rw [hb] at h; simp at h
    | ok r =>
      cases r with
      | some v => rw [hb] at h; simp at h
      | none =>
        rw [hb] at h
        by_cases hi : i = start
        · subst hi; exact hb
        · exact ih (start + 1) h i (by omega) (by omega)

theorem forFirst_total {σ : Type} (body : Nat → Except Fault (Option σ)) :
    ∀ (count start : Nat), (∀ i, start ≤ i → i < start + count → ∃ r, body i = .ok r) →
      ∃ r, forFirst body start count = .ok r := by
  intro count
  induction count with
  | zero => intro start _; exact ⟨none, rfl⟩
  | succ n ih =>
    intro start h
    obtain ⟨r, hr⟩ := h start (le_refl _) (by omega)
    unfold forFirst
    rw [hr]
    cases r with
    | some v => exact ⟨some v, rfl⟩
    | none => exact ih (start + 1) (fun i h1 h2 => h i (by omega) (by omega))

theorem forFirstDown_inv_some {σ : Type} (body : Nat → Except Fault (Option σ)) (value : σ) :
    ∀ (start : Nat), forFirstDown body start = .ok (some value) →
      ∃ j, 1 ≤ j ∧ j ≤ start ∧ body j = .ok (some value) ∧
        ∀ i, j < i → i ≤ start → body i = .ok none := by
  intro start
  induction start with
  | zero => intro h; simp [forFirstDown] at h
  | succ n ih =>
    intro h
    unfold forFirstDown at h
    cases hb : body (n + 1) with
    | error fault => rw [hb] at h; simp at h
    | ok r =>
      cases r with
      | some v =>
        rw [hb] at h
        simp at h
        subst h
        exact ⟨n + 1, by omega, le_refl _, hb, fun i h1 h2 => by omega⟩
      | none =>
        rw [hb] at h
        obtain ⟨j, h1, h2, h3, h4⟩ := ih h
        refine ⟨j, h1, by omega, h3, fun i hi1 hi2 => ?_⟩
        by_cases hi : i = n + 1
        · subst hi; exact hb
        · exact h4 i hi1 (by omega)

theorem forFirstDown_inv_none {σ : Type} (body : Nat → Except Fault (Option σ)) :
    ∀ (start : Nat), forFirstDown body start = .ok none →
      ∀ i, 1 ≤ i → i ≤ start → body i = .ok none := by
  intro start
  induction start with
  | zero => intro _ i h1 h2; omega
  | succ n ih =>
    intro h i h1 h2
    unfold forFirstDown at h
    cases hb : body (n + 1) with
    | error fault => rw [hb] at h; simp at h
    | ok r =>
      cases r with
      | some v => rw [hb] at h; simp at h
      | none =>
        rw [hb] at h
        by_cases hi : i = n + 1
        · subst hi; exact hb
        · exact ih h i h1 (by omega)

theorem forFirstDown_total {σ : Type} (body : Nat → Except Fault (Option σ)) :
    ∀ (start : Nat), (∀ i, 1 ≤ i → i ≤ start → ∃ r, body i = .ok r) →
      ∃ r, forFirstDown body start = .ok r := by
  intro start
  induction start with
  | zero => intro _; exact ⟨none, rfl⟩
  | succ n ih =>
    intro h
    obtain ⟨r, hr⟩ := h (n + 1) (by omega) (le_refl _)
    unfold forFirstDown
    rw [hr]
    cases r with
    | some v => exact ⟨some v, rfl⟩
    | none => exact ih (fun i h1 h2 => h i h1 (by omega))

/-! ## `_indexOfFirstOwnedObjectInList` and `_fillSoulGem` -/

theorem indexOfFirstOwnedFrom_spec (m : InventoryCountMap) :
    ∀ (objects : List Gem) (i : Nat),
      (indexOfFirstOwnedFrom m objects i = -1 ∧ ∀ g ∈ objects, isOwned m g = false) ∨
      ∃ j g, indexOfFirstOwnedFrom m objects i = ((i + j : Nat) : Int) ∧ objects[j]? = some g ∧
        isOwned m g = true ∧ ∀ j2 g2, j2 < j → objects[j2]? = some g2 → isOwned m g2 = false := by
  intro objects
  induction objects with
  | nil => intro i; left; simp [indexOfFirstOwnedFrom]
  | cons x rest ih =>
    intro i
    by_cases hx : isOwned m x = true
    · right
      refine ⟨0, x, ?_, by simp, hx, fun j2 g2 h _ => by omega⟩
      simp [indexOfFirstOwnedFrom, hx]
    · have hx2 : isOwned m x = false := by simpa using hx
      rcases ih (i + 1) with ⟨h1, h2⟩ | ⟨j, g, h1, h2, h3, h4⟩
      · left
        refine ⟨by simp [indexOfFirstOwnedFrom, hx2, h1], ?_⟩
        intro g hg
        rcases List.mem_cons.mp hg with rfl | hg
        · exact hx2
        · exact h2 g hg
      · right
        refine ⟨j + 1, g, ?_, by simpa using h2, h3, ?_⟩
        · simp only [indexOfFirstOwnedFrom, hx2, h1]
          simp
          omega
        · intro j2 g2 hj hg
          cases j2 with
          | zero => simp at hg; subst hg; exact hx2
          | succ j3 => exact h4 j3 g2 (by omega) (by simpa using hg)

theorem fillSoulGem_inv_true (caster caster2 : Actor) (src tgt : List Gem)
    (m : InventoryCountMap) (h : _fillSoulGem caster src tgt m = .ok (true, caster2)) :
    ∃ index removed added, src[index]? = some removed ∧ tgt[index]? = some added ∧
      isOwned m removed = true ∧
      (∀ (j : Nat) (gem : Gem), j < index → src[j]? = some gem → isOwned m gem = false) ∧
      caster2 = _replaceItem caster added removed := by
  unfold _fillSoulGem _indexOfFirstOwnedObjectInList at h
  rcases indexOfFirstOwnedFrom_spec m src 0 with ⟨h1, _⟩ | ⟨j, g, h1, h2, h3, h4⟩
  · rw [h1] at h; simp at h
  · rw [h1] at h
    simp only [Nat.zero_add, Int.toNat_ofNat, Int.natCast_nonneg, if_true, h2] at h
    cases ht : tgt[j]? with
    | none => rw [ht] at h; simp at h
    | some a =>
      rw [ht] at h
      simp at h
      exact ⟨j, g, a, h2, ht, h3, h4, h.symm⟩

theorem fillSoulGem_inv_false (caster caster2 : Actor) (src tgt : List Gem)
    (m : InventoryCountMap) (h : _fillSoulGem caster src tgt m = .ok (false, caster2)) :
    caster2 = caster ∧ ∀ gem ∈ src, isOwned m gem = false := by
  unfold _fillSoulGem _indexOfFirstOwnedObjectInList at h
  rcases indexOfFirstOwnedFrom_spec m src 0 with ⟨h1, h2⟩ | ⟨j, g, h1, h2, h3, h4⟩
  · rw [h1] at h
    simp at h
    exact ⟨h.symm, h2⟩
  · rw [h1] at h
    simp only [Nat.zero_add, Int.toNat_ofNat, Int.natCast_nonneg, if_true, h2] at h
    cases ht : tgt[j]? with
    | none => rw [ht] at h; simp at h
    | some a => rw [ht] at h; simp at h

theorem fillSoulGem_total (caster : Actor) (src tgt : List Gem) (m : InventoryCountMap)
    (hlen : src.length ≤ tgt.length) : ∃ r, _fillSoulGem caster src tgt m = .ok r := by
  unfold _fillSoulGem _indexOfFirstOwnedObjectInList
  rcases indexOfFirstOwnedFrom_spec m src 0 with ⟨h1, h2⟩ | ⟨j, g, h1, h2, h3, h4⟩
  · rw [h1]; simp
  · rw [h1]
    simp only [Nat.zero_add, Int.toNat_ofNat, Int.natCast_nonneg, if_true, h2]
    have hj : j < src.length := by
      rcases Nat.lt_or_ge j src.length with h | h
      · exact h
      · rw [List.getElem?_eq_none h] at h2; simp at h2
    have hj2 : j < tgt.length := by omega
    rw [List.getElem?_eq_getElem hj2]
    exact ⟨_, rfl⟩

/-! ## `_trapFullSoul` -/

theorem not_ownsGemOf_of_lookup (config : YASTMConfig) (m : InventoryCountMap) (c k : Nat)
    (src : List Gem) (hsrc : config.getSoulGemsWith c k = .ok src)
    (hno : ∀ gem ∈ src, isOwned m gem = false) : ¬ ownsGemOf config m c k := by
  rintro ⟨gems, hg, g, hmem, hown⟩
  rw [hsrc] at hg
  injection hg with hg
  subst hg
  rw [hno g hmem] at hown
  exact Bool.noConfusion hown

/-- One probe of the relocation branch: the source list is looked up, then filled. -/
theorem probe_inv (config : YASTMConfig) (caster : Actor) (m : InventoryCountMap)
    (c k : Nat) (tgt : List Gem) (after : Actor → Actor × VictimQueue)
    (r : Option (Actor × VictimQueue))
    (h : (match config.getSoulGemsWith c k with
          | .error fault => (.error fault : Except Fault (Option (Actor × VictimQueue)))
          | .ok sourceSoulGems =>
            match _fillSoulGem caster sourceSoulGems tgt m with
            | .error fault => .error fault
            | .ok (result, caster) =>
              if result then .ok (some (after caster)) else .ok none) = .ok r) :
    ∃ src, config.getSoulGemsWith c k = .ok src ∧
      ((r = none ∧ ∀ gem ∈ src, isOwned m gem = false) ∨
       (∃ caster2, r = some (after caster2) ∧
          _fillSoulGem caster src tgt m = .ok (true, caster2))) := by
  cases hs : config.getSoulGemsWith c k with
  | error f => rw [hs] at h; simp at h
  | ok src =>
    rw [hs] at h
    refine ⟨src, rfl, ?_⟩
    dsimp only at h
    cases hf : _fillSoulGem caster src tgt m with
    | error f => rw [hf] at h; simp at h
    | ok res =>
      obtain ⟨b, c2⟩ := res
      rw [hf] at h
      cases b with
      | true =>
        right
        simp at h
        exact ⟨c2, h.symm, rfl⟩
      | false =>
        left
        simp at h
        exact ⟨h.symm, (fillSoulGem_inv_false caster c2 src tgt m hf).2⟩

/-- One probe of the branch without relocation: `_fillSoulGem` by capacity and sizes. -/
theorem probeWith_inv (config : YASTMConfig) (caster : Actor) (m : InventoryCountMap)
    (c k t : Nat) (after : Actor → Actor × VictimQueue)
    (r : Option (Actor × VictimQueue))
    (h : (match _fillSoulGemWith config caster c k t m with
          | .error fault => (.error fault : Except Fault (Option (Actor × VictimQueue)))
          | .ok (result, caster) =>
            if result then .ok (some (after caster)) else .ok none) = .ok r) :
    ∃ src tgt, config.getSoulGemsWith c k = .ok src ∧ config.getSoulGemsWith c t = .ok tgt ∧
      ((r = none ∧ ∀ gem ∈ src, isOwned m gem = false) ∨
       (∃ caster2, r = some (after caster2) ∧
          _fillSoulGem caster src tgt m = .ok (true, caster2))) := by
  unfold _fillSoulGemWith at h
  cases hs : config.getSoulGemsWith c k with
  | error f => rw [hs] at h; simp at h
  | ok src =>
    cases ht : config.getSoulGemsWith c t with
    | error f => rw [hs, ht] at h; simp at h
    | ok tgt =>
      rw [hs, ht] at h
      refine ⟨src, tgt, rfl, rfl, ?_⟩
      dsimp only at h
      cases hf : _fillSoulGem caster src tgt m with
      | error f => rw [hf] at h; simp at h
      | ok res =>
        obtain ⟨b, c2⟩ := res
        rw [hf] at h
        cases b with
        | true =>
          right
          simp at h
          exact ⟨c2, h.symm, rfl⟩
        | false =>
          left
          simp at h
          exact ⟨h.symm, (fillSoulGem_inv_false caster c2 src tgt m hf).2⟩

theorem replacedGem_of_fill (config : YASTMConfig) (m : InventoryCountMap)
    (caster caster2 : Actor) (c k t : Nat) (src tgt : List Gem)
    (hs : config.getSoulGemsWith c k = .ok src) (ht : config.getSoulGemsWith c t = .ok tgt)
    (hf : _fillSoulGem caster src tgt m = .ok (true, caster2)) :
    ∃ removed added, replacedGem config m caster caster2 c k t removed added := by
  obtain ⟨i, removed, added, h1, h2, h3, h4, h5⟩ :=
    fillSoulGem_inv_true caster caster2 src tgt m hf
  exact ⟨removed, added, src, tgt, i, hs, ht, h1, h2, h3, h4, h5⟩

theorem trapFullSoul_found (config : YASTMConfig) (caster : Actor) (victim : Victim)
    (p d r : Bool) (victims : VictimQueue) (m : InventoryCountMap)
    (res : Bool × Actor × VictimQueue)
    (h : _trapFullSoul config caster victim p d r victims m = .ok res) :
    (res.1 = false ∧ res.2 = (caster, victims) ∧
      ∀ c k, victim.soulSize ≤ c → c ≤ (if p then SoulSize.Grand else victim.soulSize) →
        k < (if d then victim.soulSize else SoulSize.Petty) → ¬ ownsGemOf config m c k) ∨
    (res.1 = true ∧ ∃ c k removed added,
      victim.soulSize ≤ c ∧ c ≤ (if p then SoulSize.Grand else victim.soulSize) ∧
      k < (if d then victim.soulSize else SoulSize.Petty) ∧
      replacedGem config m caster res.2.1 c k victim.soulSize removed added ∧
      res.2.2 = (afterFullFill r k res.2.1 victims).2 ∧
      ∀ c2 k2, victim.soulSize ≤ c2 →
        c2 ≤ (if p then SoulSize.Grand else victim.soulSize) →
        k2 < (if d then victim.soulSize else SoulSize.Petty) →
        (if r then c2 < c ∨ (c2 = c ∧ k2 < k) else k2 < k ∨ (k2 = k ∧ c2 < c)) →
        ¬ ownsGemOf config m c2 k2) := by
  unfold _trapFullSoul at h
  dsimp only at h
  split at h
  · exact absurd h (by simp)
  · rename_i caster2 victims2 hfound
    right
    injection h with h
    subst h
    refine ⟨rfl, ?_⟩
    cases r with
    | true =>
      simp only [if_true] at hfound
      obtain ⟨c, hc1, hc2, hbody, hprev⟩ := forFirst_inv_some _ _ _ _ hfound
      try dsimp only at hbody
      cases ht : config.getSoulGemsWith (toSoulSize c) victim.soulSize with
      | error f => rw [ht] at hbody; simp at hbody
      | ok tgt =>
        rw [ht] at hbody
        try dsimp only at hbody
        obtain ⟨k, hk1, hk2, hkbody, hkprev⟩ := forFirst_inv_some _ _ _ _ hbody
        obtain ⟨src, hs, hcase⟩ := probe_inv config caster m (toSoulSize c) (toSoulSize k) tgt
          (fun cst => afterFullFill true k cst victims) _ hkbody
        rcases hcase with ⟨hnone, _⟩ | ⟨caster3, hsome, hfill⟩
        · exact absurd hnone (by simp)
        · have hpair : (caster2, victims2) = afterFullFill true k caster3 victims := by
            simpa using hsome
          have hc3 : caster3 = caster2 := by
            have := congrArg Prod.fst hpair
            unfold afterFullFill at this
            split at this <;> simpa using this.symm
          subst hc3
          obtain ⟨removed, added, hrep⟩ :=
            replacedGem_of_fill config m caster caster3 c k victim.soulSize src tgt hs ht hfill
          refine ⟨c, k, removed, added, hc1, by omega, by simpa using hk2, hrep, ?_, ?_⟩
          · exact congrArg Prod.snd hpair
          · intro c2 k2 h1 h2 h3 h4
            simp only [if_true] at h4
            rcases h4 with h4 | ⟨h4, h5⟩
            · have hb := hprev c2 h1 h4
              try dsimp only at hb
              cases ht2 : config.getSoulGemsWith (toSoulSize c2) victim.soulSize with
              | error f => rw [ht2] at hb; simp at hb
              | ok tgt2 =>
                rw [ht2] at hb
                try dsimp only at hb
                have hb2 := forFirst_inv_none _ _ _ hb k2 (Nat.zero_le _) (by simpa using h3)
                obtain ⟨src2, hs2, hcase2⟩ := probe_inv config caster m (toSoulSize c2)
                  (toSoulSize k2) tgt2 (fun cst => afterFullFill true k2 cst victims) _ hb2
                rcases hcase2 with ⟨_, hno⟩ | ⟨_, hsome2, _⟩
                · exact not_ownsGemOf_of_lookup config m c2 k2 src2 hs2 hno
                · exact absurd hsome2 (by simp)
            · subst h4
              have hb2 := hkprev k2 (Nat.zero_le _) h5
              obtain ⟨src2, hs2, hcase2⟩ := probe_inv config caster m (toSoulSize c2)
                (toSoulSize k2) tgt (fun cst => afterFullFill true k2 cst victims) _ hb2
              rcases hcase2 with ⟨_, hno⟩ | ⟨_, hsome2, _⟩
              · exact not_ownsGemOf_of_lookup config m c2 k2 src2 hs2 hno
              · exact absurd hsome2 (by simp)
    | false =>
      simp only [Bool.false_eq_true, if_false] at hfound
      obtain ⟨k, hk1, hk2, hbody, hprev⟩ := forFirst_inv_some _ _ _ _ hfound
      try dsimp only at hbody
      obtain ⟨c, hc1, hc2, hcbody, hcprev⟩ := forFirst_inv_some _ _ _ _ hbody
      obtain ⟨src, tgt, hs, ht, hcase⟩ := probeWith_inv config caster m (toSoulSize c)
        (toSoulSize k) victim.soulSize (fun cst => afterFullFill false k cst victims) _ hcbody
      rcases hcase with ⟨hnone, _⟩ | ⟨caster3, hsome, hfill⟩
      · exact absurd hnone (by simp)
      · have hpair : (caster2, victims2) = afterFullFill false k caster3 victims := by
          simpa using hsome
        have hc3 : caster3 = caster2 := by
          have := congrArg Prod.fst hpair
          unfold afterFullFill at this
          split at this <;> simpa using this.symm
        subst hc3
        obtain ⟨removed, added, hrep⟩ :=
          replacedGem_of_fill config m caster caster3 c k victim.soulSize src tgt hs ht hfill
        refine ⟨c, k, removed, added, hc1, by omega, by simpa using hk2, hrep, ?_, ?_⟩
        · exact congrArg Prod.snd hpair
        · intro c2 k2 h1 h2 h3 h4
          simp only [Bool.false_eq_true, if_false] at h4
          rcases h4 with h4 | ⟨h4, h5⟩
          · have hb := hprev k2 (Nat.zero_le _) h4
            try dsimp only at hb
            have hb2 := forFirst_inv_none _ _ _ hb c2 h1 (by omega)
            obtain ⟨src2, tgt2, hs2, _, hcase2⟩ := probeWith_inv config caster m
              (toSoulSize c2) (toSoulSize k2) victim.soulSize
              (fun cst => afterFullFill false k2 cst victims) _ hb2
            rcases hcase2 with ⟨_, hno⟩ | ⟨_, hsome2, _⟩
            · exact not_ownsGemOf_of_lookup config m c2 k2 src2 hs2 hno
            · exact absurd hsome2 (by simp)
          · subst h4
            have hb2 := hcprev c2 h1 h5
            obtain ⟨src2, tgt2, hs2, _, hcase2⟩ := probeWith_inv config caster m
              (toSoulSize c2) (toSoulSize k2) victim.soulSize
              (fun cst => afterFullFill false k2 cst victims) _ hb2
            rcases hcase2 with ⟨_, hno⟩ | ⟨_, hsome2, _⟩
            · exact not_ownsGemOf_of_lookup config m c2 k2 src2 hs2 hno
            · exact absurd hsome2 (by simp)
  · rename_i hfound
    left
    injection h with h
    subst h
    refine ⟨rfl, rfl, ?_⟩
    intro c k h1 h2 h3
    cases r with
    | true =>
      simp only [if_true] at hfound
      have hb := forFirst_inv_none _ _ _ hfound c h1 (by omega)
      try dsimp only at hb
      cases ht2 : config.getSoulGemsWith (toSoulSize c) victim.soulSize with
      | error f => rw [ht2] at hb; simp at hb
      | ok tgt2 =>
        rw [ht2] at hb
        try dsimp only at hb
        have hb2 := forFirst_inv_none _ _ _ hb k (Nat.zero_le _) (by simpa using h3)
        obtain ⟨src2, hs2, hcase2⟩ := probe_inv config caster m (toSoulSize c)
          (toSoulSize k) tgt2 (fun cst => afterFullFill true k cst victims) _ hb2
        rcases hcase2 with ⟨_, hno⟩ | ⟨_, hsome2, _⟩
        · exact not_ownsGemOf_of_lookup config m c k src2 hs2 hno
        · exact absurd hsome2 (by simp)
    | false =>
      simp only [Bool.false_eq_true, if_false] at hfound
      have hb := forFirst_inv_none _ _ _ hfound k (Nat.zero_le _) (by simpa using h3)
      try dsimp only at hb
      have hb2 := forFirst_inv_none _ _ _ hb c h1 (by omega)
      obtain ⟨src2, tgt2, hs2, _, hcase2⟩ := probeWith_inv config caster m
        (toSoulSize c) (toSoulSize k) victim.soulSize
        (fun cst => afterFullFill false k cst victims) _ hb2
      rcases hcase2 with ⟨_, hno⟩ | ⟨_, hsome2, _⟩
      · exact not_ownsGemOf_of_lookup config m c k src2 hs2 hno
      · exact absurd hsome2 (by simp)

/-! ## `_trapShrunkSoul` and `_trapBlackSoul` -/

theorem trapShrunkSoul_found (config : YASTMConfig) (caster : Actor) (victim : Victim)
    (d : Bool) (m : InventoryCountMap) (victims : VictimQueue)
    (res : Bool × Actor × VictimQueue)
    (h : _trapShrunkSoul config caster victim d m victims = .ok res) :
    (res.1 = false ∧ res.2 = (caster, victims) ∧
      ∀ c k, 1 ≤ c → c ≤ victim.soulSize - 1 →
        k < (if d then victim.soulSize else SoulSize.Petty) → ¬ ownsGemOf config m c k) ∨
    (res.1 = true ∧ ∃ c k removed added,
      1 ≤ c ∧ c ≤ victim.soulSize - 1 ∧
      k < (if d then victim.soulSize else SoulSize.Petty) ∧
      replacedGem config m caster res.2.1 c k c removed added ∧
      res.2.2 = (if 0 < k then victims.emplace (Victim.ofSoulSize k) else victims) ∧
      ∀ c2 k2, c2 ≤ victim.soulSize - 1 →
        k2 < (if d then victim.soulSize else SoulSize.Petty) →
        (c < c2 ∨ (c2 = c ∧ k2 < k)) → ¬ ownsGemOf config m c2 k2) := by
  unfold _trapShrunkSoul at h
  dsimp only at h
  split at h
  · exact absurd h (by simp)
  · rename_i caster2 victims2 hfound
    right
    injection h with h
    subst h
    refine ⟨rfl, ?_⟩
    obtain ⟨c, hc1, hc2, hbody, hprev⟩ := forFirstDown_inv_some _ _ _ hfound
    try dsimp only at hbody
    cases ht : config.getSoulGemsWith (toSoulSize c) (toSoulSize c) with
    | error f => rw [ht] at hbody; simp at hbody
    | ok tgt =>
      rw [ht] at hbody
      try dsimp only at hbody
      obtain ⟨k, hk1, hk2, hkbody, hkprev⟩ := forFirst_inv_some _ _ _ _ hbody
      try dsimp only at hkbody
      cases hs : config.getSoulGemsWith (toSoulSize c) (toSoulSize k) with
      | error f => rw [hs] at hkbody; simp at hkbody
      | ok src =>
        rw [hs] at hkbody
        try dsimp only at hkbody
        cases hf : _fillSoulGem caster src tgt m with
        | error f => rw [hf] at hkbody; simp at hkbody
        | ok fr =>
          obtain ⟨b, caster3⟩ := fr
          rw [hf] at hkbody
          cases b with
          | false => simp at hkbody
          | true =>
            have hpair : (caster2, victims2) =
                (caster3, if 0 < k then victims.emplace (Victim.ofSoulSize k) else victims) := by
              by_cases hk0 : 0 < k
              · simp [hk0, SoulSize.None, toSoulSize] at hkbody
                simp [hk0, hkbody.1, hkbody.2]
              · simp [hk0, SoulSize.None, toSoulSize] at hkbody
                have : k = 0 := by omega
                subst this
                simp [hkbody.1, hkbody.2]
            have hc3 : caster2 = caster3 := congrArg Prod.fst hpair
            subst hc3
            obtain ⟨removed, added, hrep⟩ :=
              replacedGem_of_fill config m caster caster2 c k c src tgt hs ht hf
            refine ⟨c, k, removed, added, hc1, hc2, by simpa using hk2, hrep,
              congrArg Prod.snd hpair, ?_⟩
            intro c2 k2 h2 h3 h4
            rcases h4 with h4 | ⟨h4, h5⟩
            · have hb := hprev c2 h4 h2
              try dsimp only at hb
              cases ht2 : config.getSoulGemsWith (toSoulSize c2) (toSoulSize c2) with
              | error f => rw [ht2] at hb; simp at hb
              | ok tgt2 =>
                rw [ht2] at hb
                try dsimp only at hb
                have hb2 := forFirst_inv_none _ _ _ hb k2 (Nat.zero_le _) (by simpa using h3)
                try dsimp only at hb2
                cases hs2 : config.getSoulGemsWith (toSoulSize c2) (toSoulSize k2) with
                | error f => rw [hs2] at hb2; simp at hb2
                | ok src2 =>
                  rw [hs2] at hb2
                  try dsimp only at hb2
                  cases hf2 : _fillSoulGem caster src2 tgt2 m with
                  | error f => rw [hf2] at hb2; simp at hb2
                  | ok fr2 =>
                    obtain ⟨b2, caster4⟩ := fr2
                    rw [hf2] at hb2
                    cases b2 with
                    | true =>
                      by_cases hk0 : 0 < k2 <;> simp [hk0, SoulSize.None] at hb2
                    | false =>
                      exact not_ownsGemOf_of_lookup config m c2 k2 src2 hs2
                        (fillSoulGem_inv_false caster caster4 src2 tgt2 m hf2).2
            · subst h4
              have hb2 := hkprev k2 (Nat.zero_le _) h5
              try dsimp only at hb2
              cases hs2 : config.getSoulGemsWith (toSoulSize c2) (toSoulSize k2) with
              | error f => rw [hs2] at hb2; simp at hb2
              | ok src2 =>
                rw [hs2] at hb2
                try dsimp only at hb2
                cases hf2 : _fillSoulGem caster src2 tgt m with
                | error f => rw [hf2] at hb2; simp at hb2
                | ok fr2 =>
                  obtain ⟨b2, caster4⟩ := fr2
                  rw [hf2] at hb2
                  cases b2 with
                  | true =>
                    by_cases hk0 : 0 < k2 <;> simp [hk0, SoulSize.None] at hb2
                  | false =>
                    exact not_ownsGemOf_of_lookup config m c2 k2 src2 hs2
                      (fillSoulGem_inv_false caster caster4 src2 tgt m hf2).2
  · rename_i hfound
    left
    injection h with h
    subst h
    refine ⟨rfl, rfl, ?_⟩
    intro c k h1 h2 h3
    have hb := forFirstDown_inv_none _ _ hfound c h1 h2
    try dsimp only at hb
    cases ht2 : config.getSoulGemsWith (toSoulSize c) (toSoulSize c) with
    | error f => rw [ht2] at hb; simp at hb
    | ok tgt2 =>
      rw [ht2] at hb
      try dsimp only at hb
      have hb2 := forFirst_inv_none _ _ _ hb k (Nat.zero_le _) (by simpa using h3)
      try dsimp only at hb2
      cases hs2 : config.getSoulGemsWith (toSoulSize c) (toSoulSize k) with
      | error f => rw [hs2] at hb2; simp at hb2
      | ok src2 =>
        rw [hs2] at hb2
        try dsimp only at hb2
        cases hf2 : _fillSoulGem caster src2 tgt2 m with
        | error f => rw [hf2] at hb2; simp at hb2
        | ok fr2 =>
          obtain ⟨b2, caster4⟩ := fr2
          rw [hf2] at hb2
          cases b2 with
          | true =>
            by_cases hk0 : 0 < k <;> simp [hk0, SoulSize.None] at hb2
          | false =>
            exact not_ownsGemOf_of_lookup config m c k src2 hs2
              (fillSoulGem_inv_false caster caster4 src2 tgt2 m hf2).2

theorem trapBlackSoul_found (config : YASTMConfig) (caster : Actor) (victim : Victim)
    (m : InventoryCountMap) (res : Bool × Actor)
    (h : _trapBlackSoul config caster victim m = .ok res) :
    (res.1 = false ∧ res.2 = caster ∧ ¬ ownsGemOf config m victim.soulSize SoulSize.None) ∨
    (res.1 = true ∧ ∃ removed added,
      replacedGem config m caster res.2 victim.soulSize SoulSize.None victim.soulSize
        removed added) := by
  unfold _trapBlackSoul _fillSoulGemWith at h
  cases hs : config.getSoulGemsWith victim.soulSize SoulSize.None with
  | error f => rw [hs] at h; simp at h
  | ok src =>
    cases ht : config.getSoulGemsWith victim.soulSize victim.soulSize with
    | error f => rw [hs, ht] at h; simp at h
    | ok tgt =>
      rw [hs, ht] at h
      dsimp only at h
      cases hf : _fillSoulGem caster src tgt m with
      | error f => rw [hf] at h; simp at h
      | ok fr =>
        obtain ⟨b, caster2⟩ := fr
        rw [hf] at h
        cases b with
        | true =>
          right
          simp at h
          subst h
          exact ⟨rfl, replacedGem_of_fill config m caster caster2 _ _ _ src tgt hs ht hf⟩
        | false =>
          left
          simp at h
          subst h
          obtain ⟨h1, h2⟩ := fillSoulGem_inv_false caster caster2 src tgt m hf
          exact ⟨rfl, h1, not_ownsGemOf_of_lookup config m _ _ src hs h2⟩

/-! ## Faults -/

theorem forFirst_inv_error {σ : Type} (body : Nat → Except Fault (Option σ)) (fault : Fault) :
    ∀ (count start : Nat), forFirst body start count = .error fault →
      ∃ j, start ≤ j ∧ j < start + count ∧ body j = .error fault := by
  intro count
  induction count with
  | zero => intro start h; simp [forFirst] at h
  | succ n ih =>
    intro start h
    unfold forFirst at h
    cases hb : body start with
    | error f =>
      rw [hb] at h
      simp at h
      subst h
      exact ⟨start, le_refl _, by omega, hb⟩
    | ok r =>
      cases r with
      | some v => rw [hb] at h; simp at h
      | none =>
        rw [hb] at h
        obtain ⟨j, h1, h2, h3⟩ := ih (start + 1) h
        exact ⟨j, by omega, by omega, h3⟩

theorem forFirstDown_inv_error {σ : Type} (body : Nat → Except Fault (Option σ))
    (fault : Fault) :
    ∀ (start : Nat), forFirstDown body start = .error fault →
      ∃ j, 1 ≤ j ∧ j ≤ start ∧ body j = .error fault := by
  intro start
  induction start with
  | zero => intro h; simp [forFirstDown] at h
  | succ n ih =>
    intro h
    unfold forFirstDown at h
    cases hb : body (n + 1) with
    | error f =>
      rw [hb] at h
      simp at h
      subst h
      exact ⟨n + 1, by omega, le_refl _, hb⟩
    | ok r =>
      cases r with
      | some v => rw [hb] at h; simp at h
      | none =>
        rw [hb] at h
        obtain ⟨j, h1, h2, h3⟩ := ih h
        exact ⟨j, h1, by omega, h3⟩

theorem isAligned_white (config : YASTMConfig) (h : config.isAligned = true) (i : Nat)
    (hi : i < 5) :
    ∃ variants, config._whiteSoulGems[i]? = some variants ∧ variants.length = i + 2 ∧
      ∀ gems ∈ variants, gems.length = (variants.headD []).length := by
  unfold YASTMConfig.isAligned at h
  simp only [Bool.and_eq_true, List.all_eq_true, List.mem_range] at h
  have hw := h.2 i hi
  cases hv : config._whiteSoulGems[i]? with
  | none => rw [hv] at hw; simp at hw
  | some variants =>
    rw [hv] at hw
    simp only [Bool.and_eq_true, List.all_eq_true, beq_iff_eq] at hw
    exact ⟨variants, rfl, hw.1, hw.2⟩

theorem isAligned_black (config : YASTMConfig) (h : config.isAligned = true) :
    config._blackSoulGemsEmpty.length = config._blackSoulGemsFilled.length := by
  unfold YASTMConfig.isAligned at h
  simp only [Bool.and_eq_true, beq_iff_eq] at h
  exact h.1

/-- In an aligned configuration a lookup succeeds exactly on the valid pairs, and the list it
returns has the length shared by the lists of that capacity. -/
theorem getSoulGemsWith_aligned (config : YASTMConfig) (h : config.isAligned = true)
    (c k : Nat) :
    (config.getSoulGemsWith c k = .error Fault.rangeError ∧
      ¬ (isValidSoulCapacity c = true ∧ isValidContainedSoulSize c k = true)) ∨
    (∃ gems, config.getSoulGemsWith c k = .ok gems ∧
      isValidSoulCapacity c = true ∧ isValidContainedSoulSize c k = true ∧
      gems.length = (if c = SoulSize.Black then config._blackSoulGemsEmpty.length
        else (((config._whiteSoulGems[c - 1]?).getD []).headD []).length)) := by
  unfold YASTMConfig.getSoulGemsWith
  by_cases hc : isValidSoulCapacity c = true
  · by_cases hk : isValidContainedSoulSize c k = true
    · right
      simp only [hc, hk, Bool.not_true, Bool.false_eq_true, if_false]
      by_cases hb : c = SoulSize.Black
      · subst hb
        simp only [if_true]
        simp [isValidContainedSoulSize] at hk
        rcases hk with hk | hk
        · subst hk; simp
        · subst hk; simp [isAligned_black config h]
      · simp only [hb, if_false]
        simp [isValidSoulCapacity, SoulSize.Petty, SoulSize.Black] at hc
        simp [isValidContainedSoulSize, hb] at hk
        have hb2 : c ≠ 6 := hb
        obtain ⟨variants, hv1, hv2, hv3⟩ := isAligned_white config h (c - 1) (by omega)
        rw [hv1]
        dsimp only
        have hklt : k < variants.length := by omega
        rw [List.getElem?_eq_getElem hklt]
        refine ⟨_, rfl, trivial, trivial, ?_⟩
        simp only [Option.getD_some]
        exact hv3 _ (List.getElem_mem _)
    · left
      simp [hc, hk]
  · left
    simp [hc]

theorem getSoulGemsWith_length_aligned (config : YASTMConfig) (h : config.isAligned = true)
    (c k t : Nat) (src tgt : List Gem) (hs : config.getSoulGemsWith c k = .ok src)
    (ht : config.getSoulGemsWith c t = .ok tgt) : src.length = tgt.length := by
  rcases getSoulGemsWith_aligned config h c k with ⟨h1, _⟩ | ⟨g1, h1, _, _, h4⟩
  · rw [hs] at h1; simp at h1
  · rcases getSoulGemsWith_aligned config h c t with ⟨h5, _⟩ | ⟨g2, h5, _, _, h8⟩
    · rw [ht] at h5; simp at h5
    · rw [hs] at h1; rw [ht] at h5
      injection h1 with h1; injection h5 with h5
      subst h1; subst h5
      rw [h4, h8]

theorem getSoulGemsWith_error_aligned (config : YASTMConfig) (h : config.isAligned = true)
    (c k : Nat) (fault : Fault) (he : config.getSoulGemsWith c k = .error fault) :
    fault = Fault.rangeError ∧
      ¬ (isValidSoulCapacity c = true ∧ isValidContainedSoulSize c k = true) := by
  rcases getSoulGemsWith_aligned config h c k with ⟨h1, h2⟩ | ⟨g1, h1, _⟩
  · rw [he] at h1
    injection h1 with h1
    exact ⟨h1, h2⟩
  · rw [he] at h1; simp at h1

theorem fillSoulGem_ok_aligned (config : YASTMConfig) (h : config.isAligned = true)
    (caster : Actor) (m : InventoryCountMap) (c k t : Nat) (src tgt : List Gem)
    (hs : config.getSoulGemsWith c k = .ok src) (ht : config.getSoulGemsWith c t = .ok tgt) :
    ∃ r, _fillSoulGem caster src tgt m = .ok r :=
  fillSoulGem_total caster src tgt m
    (le_of_eq (getSoulGemsWith_length_aligned config h c k t src tgt hs ht))

theorem probe_error_aligned (config : YASTMConfig) (halign : config.isAligned = true)
    (caster : Actor) (m : InventoryCountMap) (c k t : Nat) (tgt : List Gem)
    (ht : config.getSoulGemsWith c t = .ok tgt)
    (after : Actor → Except Fault (Option (Actor × VictimQueue))) (fault : Fault)
    (h : (match config.getSoulGemsWith c k with
          | .error fault => (.error fault : Except Fault (Option (Actor × VictimQueue)))
          | .ok sourceSoulGems =>
            match _fillSoulGem caster sourceSoulGems tgt m with
            | .error fault => .error fault
            | .ok (result, caster) =>
              if result then after caster else .ok none) = .error fault)
    (hafter : ∀ a, after a ≠ .error fault) :
    fault = Fault.rangeError ∧
      ¬ (isValidSoulCapacity c = true ∧ isValidContainedSoulSize c k = true) := by
  cases hs : config.getSoulGemsWith c k with
  | error f =>
    rw [hs] at h
    simp at h
    subst h
    exact getSoulGemsWith_error_aligned config halign c k f hs
  | ok src =>
    rw [hs] at h
    dsimp only at h
    obtain ⟨r, hr⟩ := fillSoulGem_ok_aligned config halign caster m c k t src tgt hs ht
    rw [hr] at h
    obtain ⟨b, a⟩ := r
    cases b with
    | true => simp at h; exact absurd h (hafter a)
    | false => simp at h

theorem probeWith_error_aligned (config : YASTMConfig) (halign : config.isAligned = true)
    (caster : Actor) (m : InventoryCountMap) (c k t : Nat)
    (after : Actor → Actor × VictimQueue) (fault : Fault)
    (h : (match _fillSoulGemWith config caster c k t m with
          | .error fault => (.error fault : Except Fault (Option (Actor × VictimQueue)))
          | .ok (result, caster) =>
            if result then .ok (some (after caster)) else .ok none) = .error fault) :
    fault = Fault.rangeError ∧
      (¬ (isValidSoulCapacity c = true ∧ isValidContainedSoulSize c k = true) ∨
       ¬ (isValidSoulCapacity c = true ∧ isValidContainedSoulSize c t = true)) := by
  unfold _fillSoulGemWith at h
  cases hs : config.getSoulGemsWith c k with
  | error f =>
    rw [hs] at h
    simp at h
    subst h
    have := getSoulGemsWith_error_aligned config halign c k f hs
    exact ⟨this.1, Or.inl this.2⟩
  | ok src =>
    cases ht : config.getSoulGemsWith c t with
    | error f =>
      rw [hs, ht] at h
      simp at h
      subst h
      have := getSoulGemsWith_error_aligned config halign c t f ht
      exact ⟨this.1, Or.inr this.2⟩
    | ok tgt =>
      rw [hs, ht] at h
      dsimp only at h
      obtain ⟨r, hr⟩ := fillSoulGem_ok_aligned config halign caster m c k t src tgt hs ht
      rw [hr] at h
      obtain ⟨b, a⟩ := r
      cases b <;> simp at h

/-- In an aligned configuration `_trapFullSoul` can only fail with `std::range_error`, and only
on a lookup of an invalid pair. -/
theorem trapFullSoul_error_aligned (config : YASTMConfig) (halign : config.isAligned = true)
    (caster : Actor) (victim : Victim) (p d r : Bool) (victims : VictimQueue)
    (m : InventoryCountMap) (fault : Fault)
    (h : _trapFullSoul config caster victim p d r victims m = .error fault) :
    fault = Fault.rangeError ∧ ∃ c k, victim.soulSize ≤ c ∧
      c ≤ (if p then SoulSize.Grand else victim.soulSize) ∧
      (k = victim.soulSize ∨ k < (if d then victim.soulSize else SoulSize.Petty)) ∧
      ¬ (isValidSoulCapacity c = true ∧ isValidContainedSoulSize c k = true) := by
  unfold _trapFullSoul at h
  dsimp only at h
  split at h
  · rename_i f hfound
    injection h with h
    subst h
    cases r with
    | true =>
      simp only [if_true] at hfound
      obtain ⟨c, hc1, hc2, hbody⟩ := forFirst_inv_error _ _ _ _ hfound
      try dsimp only at hbody
      have hcmax : c ≤ (if p then SoulSize.Grand else victim.soulSize) := by omega
      cases ht : config.getSoulGemsWith (toSoulSize c) victim.soulSize with
      | error f2 =>
        rw [ht] at hbody
        simp at hbody
        subst hbody
        have := getSoulGemsWith_error_aligned config halign c victim.soulSize f2 ht
        exact ⟨this.1, c, victim.soulSize, hc1, hcmax, Or.inl rfl, this.2⟩
      | ok tgt =>
        rw [ht] at hbody
        try dsimp only at hbody
        obtain ⟨k, hk1, hk2, hkbody⟩ := forFirst_inv_error _ _ _ _ hbody
        have := probe_error_aligned config halign caster m (toSoulSize c) (toSoulSize k)
          victim.soulSize tgt ht
          (fun cst => .ok (some (afterFullFill true k cst victims))) f hkbody
          (fun a => by simp)
        exact ⟨this.1, c, k, hc1, hcmax, Or.inr (by simpa using hk2), this.2⟩
    | false =>
      simp only [Bool.false_eq_true, if_false] at hfound
      obtain ⟨k, hk1, hk2, hbody⟩ := forFirst_inv_error _ _ _ _ hfound
      try dsimp only at hbody
      obtain ⟨c, hc1, hc2, hcbody⟩ := forFirst_inv_error _ _ _ _ hbody
      have hcmax : c ≤ (if p then SoulSize.Grand else victim.soulSize) := by omega
      have := probeWith_error_aligned config halign caster m (toSoulSize c) (toSoulSize k)
        victim.soulSize (fun cst => afterFullFill false k cst victims) f hcbody
      refine ⟨this.1, ?_⟩
      rcases this.2 with h1 | h1
      · exact ⟨c, k, hc1, hcmax, Or.inr (by simpa using hk2), h1⟩
      · exact ⟨c, victim.soulSize, hc1, hcmax, Or.inl rfl, h1⟩
  · exact absurd h (by simp)
  · exact absurd h (by simp)

/-- In an aligned configuration `_trapShrunkSoul` can only fail with `std::range_error`, and only
on a lookup of an invalid pair. -/
theorem trapShrunkSoul_error_aligned (config : YASTMConfig) (halign : config.isAligned = true)
    (caster : Actor) (victim : Victim) (d : Bool) (m : InventoryCountMap)
    (victims : VictimQueue) (fault : Fault)
    (h : _trapShrunkSoul config caster victim d m victims = .error fault) :
    fault = Fault.rangeError ∧ ∃ c k, 1 ≤ c ∧ c ≤ victim.soulSize - 1 ∧
      (k = c ∨ k < (if d then victim.soulSize else SoulSize.Petty)) ∧
      ¬ (isValidSoulCapacity c = true ∧ isValidContainedSoulSize c k = true) := by
  unfold _trapShrunkSoul at h
  dsimp only at h
  split at h
  · rename_i f hfound
    injection h with h
    subst h
    obtain ⟨c, hc1, hc2, hbody⟩ := forFirstDown_inv_error _ _ _ hfound
    try dsimp only at hbody
    cases ht : config.getSoulGemsWith (toSoulSize c) (toSoulSize c) with
    | error f2 =>
      rw [ht] at hbody
      simp at hbody
      subst hbody
      have := getSoulGemsWith_error_aligned config halign c c f2 ht
      exact ⟨this.1, c, c, hc1, hc2, Or.inl rfl, this.2⟩
    | ok tgt =>
      rw [ht] at hbody
      try dsimp only at hbody
      obtain ⟨k, hk1, hk2, hkbody⟩ := forFirst_inv_error _ _ _ _ hbody
      have := probe_error_aligned config halign caster m (toSoulSize c) (toSoulSize k)
        (toSoulSize c) tgt ht
        (fun cst => if SoulSize.None < k then
            .ok (some (cst, victims.emplace (Victim.ofSoulSize (toSoulSize k))))
          else .ok (some (cst, victims))) f hkbody
        (fun a => by split <;> simp)
      exact ⟨this.1, c, k, hc1, hc2, Or.inr (by simpa using hk2), this.2⟩
  · exact absurd h (by simp)
  · exact absurd h (by simp)

theorem trapBlackSoul_error_aligned (config : YASTMConfig) (halign : config.isAligned = true)
    (caster : Actor) (victim : Victim) (m : InventoryCountMap) (fault : Fault)
    (h : _trapBlackSoul config caster victim m = .error fault) :
    fault = Fault.rangeError := by
  unfold _trapBlackSoul at h
  cases hw : _fillSoulGemWith config caster victim.soulSize SoulSize.None victim.soulSize m with
  | error f =>
    rw [hw] at h
    simp at h
    subst h
    have := probeWith_error_aligned config halign caster m victim.soulSize SoulSize.None
      victim.soulSize (fun cst => (cst, [])) f (by rw [hw])
    exact this.1
  | ok r =>
    rw [hw] at h
    obtain ⟨b, a⟩ := r
    cases b <;> simp at h

/-- For a white victim in an aligned configuration `_trapFullSoul` returns normally. -/
theorem trapFullSoul_total (config : YASTMConfig) (halign : config.isAligned = true)
    (caster : Actor) (victim : Victim) (p d r : Bool) (victims : VictimQueue)
    (m : InventoryCountMap) (hs1 : SoulSize.Petty ≤ victim.soulSize)
    (hs5 : victim.soulSize ≤ SoulSize.Grand) :
    ∃ res, _trapFullSoul config caster victim p d r victims m = .ok res := by
  cases h : _trapFullSoul config caster victim p d r victims m with
  | ok res => exact ⟨res, rfl⟩
  | error f =>
    exfalso
    obtain ⟨_, c, k, h1, h2, h3, h4⟩ :=
      trapFullSoul_error_aligned config halign caster victim p d r victims m f h
    apply h4
    simp only [SoulSize.Petty, SoulSize.Grand] at hs1 hs5 h2 h3
    have hc5 : c ≤ 5 := by
      cases p <;> simp at h2 <;> omega
    have hk : k ≤ c := by
      rcases h3 with h3 | h3
      · omega
      · cases d <;> simp at h3 <;> omega
    have hc6 : c ≠ 6 := by omega
    simp [isValidSoulCapacity, isValidContainedSoulSize, SoulSize.Petty, SoulSize.Black, hc6]
    omega

theorem ownsGemOf_of_replacedGem (config : YASTMConfig) (m : InventoryCountMap)
    (before after : Actor) (c k t : Nat) (removed added : Gem)
    (h : replacedGem config m before after c k t removed added) : ownsGemOf config m c k := by
  obtain ⟨src, tgt, i, hs, _, hr, _, hown, _, _⟩ := h
  exact ⟨src, hs, removed, List.getElem?_mem hr, hown⟩

theorem isOwned_iff (m : InventoryCountMap) (gem : Gem) :
    isOwned m gem = true ↔ ∃ count, m gem = some count ∧ 0 < count := by
  unfold isOwned
  cases h : m gem with
  | none => simp
  | some n => simp

/-! ## What `_trapFullSoul` fills -/

/-- C5: whenever `_trapFullSoul` returns true for a white victim of soul size `s`, the gem removed
was owned with a positive count, it is a gem of a capacity `c` with `s ≤ c ≤ Grand` that held a
soul of a size `k < s`, and the gem added is the gem at the same index of the list of capacity
`c` holding a soul of size exactly `s`. -/
theorem C5_trapFullSoul_stores_soul_at_full_size (config : YASTMConfig) (caster : Actor)
    (victim : Victim) (allowPartial allowDisplacement allowRelocation : Bool)
    (victims : VictimQueue) (soulGemCountMap : InventoryCountMap)
    (caster2 : Actor) (victims2 : VictimQueue)
    (hs1 : SoulSize.Petty ≤ victim.soulSize) (hs5 : victim.soulSize ≤ SoulSize.Grand)
    (h : _trapFullSoul config caster victim allowPartial allowDisplacement allowRelocation
      victims soulGemCountMap = .ok (true, caster2, victims2)) :
    ∃ c k removed added,
      victim.soulSize ≤ c ∧ c ≤ SoulSize.Grand ∧ k < victim.soulSize ∧
      (∃ count, soulGemCountMap removed = some count ∧ 0 < count) ∧
      replacedGem config soulGemCountMap caster caster2 c k victim.soulSize removed added := by
  rcases trapFullSoul_found config caster victim allowPartial allowDisplacement allowRelocation
    victims soulGemCountMap _ h with ⟨hf, _⟩ | ⟨_, c, k, removed, added, h1, h2, h3, h4, _, _⟩
  · exact absurd hf (by simp)
  · refine ⟨c, k, removed, added, h1, ?_, ?_, ?_, h4⟩
    · simp only [SoulSize.Grand] at hs5 h2 ⊢
      cases allowPartial <;> simp at h2 <;> omega
    · simp only [SoulSize.Petty] at hs1 h3
      cases allowDisplacement <;> simp at h3 <;> omega
    · obtain ⟨_, _, _, _, _, _, _, hown, _, _⟩ := h4
      exact (isOwned_iff soulGemCountMap removed).mp hown

/-- C7: with relocation allowed, for a white victim in an aligned configuration: when no pair is
eligible `_trapFullSoul` returns false and changes neither the caster nor the queue; otherwise it
returns true and fills a gem of the eligible pair that is least in the lexicographic order on
`(capacity, contained)`. -/
theorem C7_trapFullSoul_relocation_prefers_capacity (config : YASTMConfig) (caster : Actor)
    (victim : Victim) (allowPartial allowDisplacement : Bool)
    (victims : VictimQueue) (soulGemCountMap : InventoryCountMap)
    (halign : config.isAligned = true)
    (hs1 : SoulSize.Petty ≤ victim.soulSize) (hs5 : victim.soulSize ≤ SoulSize.Grand) :
    ((∀ c k, ¬ eligiblePair config soulGemCountMap victim.soulSize allowPartial
        allowDisplacement c k) →
      _trapFullSoul config caster victim allowPartial allowDisplacement true victims
        soulGemCountMap = .ok (false, caster, victims)) ∧
    ((∃ c k, eligiblePair config soulGemCountMap victim.soulSize allowPartial
        allowDisplacement c k) →
      ∃ c k removed added caster2 victims2,
        eligiblePair config soulGemCountMap victim.soulSize allowPartial allowDisplacement c k ∧
        (∀ c2 k2, eligiblePair config soulGemCountMap victim.soulSize allowPartial
          allowDisplacement c2 k2 → c < c2 ∨ (c = c2 ∧ k ≤ k2)) ∧
        replacedGem config soulGemCountMap caster caster2 c k victim.soulSize removed added ∧
        _trapFullSoul config caster victim allowPartial allowDisplacement true victims
          soulGemCountMap = .ok (true, caster2, victims2)) := by
  obtain ⟨res, hres⟩ := trapFullSoul_total config halign caster victim allowPartial
    allowDisplacement true victims soulGemCountMap hs1 hs5
  obtain ⟨b, caster2, victims2⟩ := res
  rcases trapFullSoul_found config caster victim allowPartial allowDisplacement true
    victims soulGemCountMap _ hres with
    ⟨hb, hc, hno⟩ | ⟨hb, c, k, removed, added, h1, h2, h3, h4, _, hmin⟩
  · simp only at hb hc
    subst hb
    injection hc with hc1 hc2
    subst hc1; subst hc2
    refine ⟨fun _ => hres, ?_⟩
    rintro ⟨c, k, e1, e2, e3, e4⟩
    exact absurd e4 (hno c k e1 e2 e3)
  · simp only at hb h4 hmin
    subst hb
    have helig : eligiblePair config soulGemCountMap victim.soulSize allowPartial
        allowDisplacement c k :=
      ⟨h1, h2, h3, ownsGemOf_of_replacedGem config soulGemCountMap caster caster2 c k _ _ _ h4⟩
    refine ⟨fun hnone => absurd helig (hnone c k), fun _ => ?_⟩
    refine ⟨c, k, removed, added, caster2, victims2, helig, ?_, h4, hres⟩
    rintro c2 k2 ⟨e1, e2, e3, e4⟩
    by_contra hcon
    have hlt : c2 < c ∨ (c2 = c ∧ k2 < k) := by omega
    exact hmin c2 k2 e1 e2 e3 (by simpa using hlt) e4

/-- C8: with relocation disabled, for a white victim in an aligned configuration: when no pair is
eligible `_trapFullSoul` returns false and changes nothing; otherwise it returns true and fills a
gem of the eligible pair that is least in the lexicographic order on `(contained, capacity)`, so
that an empty gem is the one filled whenever an empty gem of a permitted capacity is owned. -/
theorem C8_trapFullSoul_no_relocation_displaces_smallest (config : YASTMConfig)
    (caster : Actor) (victim : Victim) (allowPartial allowDisplacement : Bool)
    (victims : VictimQueue) (soulGemCountMap : InventoryCountMap)
    (halign : config.isAligned = true)
    (hs1 : SoulSize.Petty ≤ victim.soulSize) (hs5 : victim.soulSize ≤ SoulSize.Grand) :
    ((∀ c k, ¬ eligiblePair config soulGemCountMap victim.soulSize allowPartial
        allowDisplacement c k) →
      _trapFullSoul config caster victim allowPartial allowDisplacement false victims
        soulGemCountMap = .ok (false, caster, victims)) ∧
    ((∃ c k, eligiblePair config soulGemCountMap victim.soulSize allowPartial
        allowDisplacement c k) →
      ∃ c k removed added caster2,
        eligiblePair config soulGemCountMap victim.soulSize allowPartial allowDisplacement c k ∧
        (∀ c2 k2, eligiblePair config soulGemCountMap victim.soulSize allowPartial
          allowDisplacement c2 k2 → k < k2 ∨ (k = k2 ∧ c ≤ c2)) ∧
        ((∃ c0, eligiblePair config soulGemCountMap victim.soulSize allowPartial
          allowDisplacement c0 SoulSize.None) → k = SoulSize.None) ∧
        replacedGem config soulGemCountMap caster caster2 c k victim.soulSize removed added ∧
        _trapFullSoul config caster victim allowPartial allowDisplacement false victims
          soulGemCountMap = .ok (true, caster2, victims)) := by
  obtain ⟨res, hres⟩ := trapFullSoul_total config halign caster victim allowPartial
    allowDisplacement false victims soulGemCountMap hs1 hs5
  obtain ⟨b, caster2, victims2⟩ := res
  rcases trapFullSoul_found config caster victim allowPartial allowDisplacement false
    victims soulGemCountMap _ hres with
    ⟨hb, hc, hno⟩ | ⟨hb, c, k, removed, added, h1, h2, h3, h4, hq, hmin⟩
  · simp only at hb hc
    subst hb
    injection hc with hc1 hc2
    subst hc1; subst hc2
    refine ⟨fun _ => hres, ?_⟩
    rintro ⟨c, k, e1, e2, e3, e4⟩
    exact absurd e4 (hno c k e1 e2 e3)
  · simp only at hb h4 hmin hq
    subst hb
    have hq2 : victims2 = victims := by
      rw [hq]; simp [afterFullFill]
    subst hq2
    have helig : eligiblePair config soulGemCountMap victim.soulSize allowPartial
        allowDisplacement c k :=
      ⟨h1, h2, h3, ownsGemOf_of_replacedGem config soulGemCountMap caster caster2 c k _ _ _ h4⟩
    refine ⟨fun hnone => absurd helig (hnone c k), fun _ => ?_⟩
    have hleast : ∀ c2 k2, eligiblePair config soulGemCountMap victim.soulSize allowPartial
        allowDisplacement c2 k2 → k < k2 ∨ (k = k2 ∧ c ≤ c2) := by
      rintro c2 k2 ⟨e1, e2, e3, e4⟩
      by_contra hcon
      have hlt : k2 < k ∨ (k2 = k ∧ c2 < c) := by omega
      exact hmin c2 k2 e1 e2 e3 (by simpa using hlt) e4
    refine ⟨c, k, removed, added, caster2, helig, hleast, ?_, h4, hres⟩
    rintro ⟨c0, h0⟩
    have := hleast c0 SoulSize.None h0
    simp only [SoulSize.None] at this ⊢
    omega

/-- C9: for a white victim in an aligned configuration, with partial fills disabled
`_trapFullSoul` only fills a gem whose capacity is the victim's soul size, and returns false
leaving caster and queue unchanged when no fillable gem of that capacity is owned; with partial
fills allowed an owned fillable gem of any capacity from the soul size up to Grand makes it
return true, and that gem's pair is the one filled when it is the only eligible pair. -/
theorem C9_trapFullSoul_partial_fill_toggle (config : YASTMConfig) (caster : Actor)
    (victim : Victim) (allowDisplacement allowRelocation : Bool)
    (victims : VictimQueue) (soulGemCountMap : InventoryCountMap)
    (halign : config.isAligned = true)
    (hs1 : SoulSize.Petty ≤ victim.soulSize) (hs5 : victim.soulSize ≤ SoulSize.Grand) :
    (∀ caster2 victims2,
      _trapFullSoul config caster victim false allowDisplacement allowRelocation victims
        soulGemCountMap = .ok (true, caster2, victims2) →
      ∃ k removed added, replacedGem config soulGemCountMap caster caster2 victim.soulSize k
        victim.soulSize removed added) ∧
    ((∀ k, k < (if allowDisplacement then victim.soulSize else SoulSize.Petty) →
        ¬ ownsGemOf config soulGemCountMap victim.soulSize k) →
      _trapFullSoul config caster victim false allowDisplacement allowRelocation victims
        soulGemCountMap = .ok (false, caster, victims)) ∧
    (∀ c k, victim.soulSize ≤ c → c ≤ SoulSize.Grand →
      k < (if allowDisplacement then victim.soulSize else SoulSize.Petty) →
      ownsGemOf config soulGemCountMap c k →
      ∃ caster2 victims2 c2 k2 removed added,
        _trapFullSoul config caster victim true allowDisplacement allowRelocation victims
          soulGemCountMap = .ok (true, caster2, victims2) ∧
        replacedGem config soulGemCountMap caster caster2 c2 k2 victim.soulSize removed added ∧
        ((∀ c3 k3, eligiblePair config soulGemCountMap victim.soulSize true allowDisplacement
            c3 k3 → c3 = c ∧ k3 = k) → c2 = c ∧ k2 = k)) := by
  refine ⟨?_, ?_, ?_⟩
  · intro caster2 victims2 h
    rcases trapFullSoul_found config caster victim false allowDisplacement allowRelocation
      victims soulGemCountMap _ h with ⟨hf, _⟩ | ⟨_, c, k, removed, added, h1, h2, _, h4, _, _⟩
    · exact absurd hf (by simp)
    · simp only [Bool.false_eq_true, if_false] at h2
      have hc : c = victim.soulSize := by omega
      subst hc
      exact ⟨k, removed, added, h4⟩
  · intro hno
    obtain ⟨res, hres⟩ := trapFullSoul_total config halign caster victim false
      allowDisplacement allowRelocation victims soulGemCountMap hs1 hs5
    obtain ⟨b, caster2, victims2⟩ := res
    rcases trapFullSoul_found config caster victim false allowDisplacement allowRelocation
      victims soulGemCountMap _ hres with
      ⟨hb, hc, _⟩ | ⟨_, c, k, removed, added, h1, h2, h3, h4, _, _⟩
    · simp only at hb hc
      subst hb
      injection hc with hc1 hc2
      subst hc1; subst hc2
      exact hres
    · simp only [Bool.false_eq_true, if_false] at h2
      have hc : c = victim.soulSize := by omega
      subst hc
      exact absurd (ownsGemOf_of_replacedGem config soulGemCountMap caster _ _ k _ _ _ h4)
        (hno k h3)
  · intro c k h1 h2 h3 hown
    obtain ⟨res, hres⟩ := trapFullSoul_total config halign caster victim true
      allowDisplacement allowRelocation victims soulGemCountMap hs1 hs5
    obtain ⟨b, caster2, victims2⟩ := res
    rcases trapFullSoul_found config caster victim true allowDisplacement allowRelocation
      victims soulGemCountMap _ hres with
      ⟨_, _, hno⟩ | ⟨hb, c2, k2, removed, added, g1, g2, g3, g4, _, _⟩
    · exact absurd hown (hno c k h1 (by simpa using h2) h3)
    · simp only at hb g4
      subst hb
      exact ⟨caster2, victims2, c2, k2, removed, added, hres, g4, fun honly =>
        honly c2 k2 ⟨g1, g2, g3,
          ownsGemOf_of_replacedGem config soulGemCountMap caster caster2 c2 k2 _ _ _ g4⟩⟩

/-! ## The loop of `trapSoul` -/

theorem trapSoulLoop_single_ok (config : YASTMConfig) (p d r s : Bool) (n : Nat)
    (caster : Actor) (victim : Victim) (next : LoopState)
    (hp : processVictim config p d r s
      { caster := caster, victims := [], isSoulTrapSuccessful := false, processed := [] }
      victim = .ok next)
    (hq : next.victims = []) :
    trapSoulLoop config p d r s (n + 2)
      { caster := caster, victims := [victim], isSoulTrapSuccessful := false,
        processed := [] } = (next, none) := by
  simp only [trapSoulLoop, hp, hq]

theorem trapSoulLoop_single_error (config : YASTMConfig) (p d r s : Bool) (n : Nat)
    (caster : Actor) (victim : Victim) (fault : Fault)
    (hp : processVictim config p d r s
      { caster := caster, victims := [], isSoulTrapSuccessful := false, processed := [] }
      victim = .error fault) :
    trapSoulLoop config p d r s (n + 1)
      { caster := caster, victims := [victim], isSoulTrapSuccessful := false,
        processed := [] } =
      ({ caster := caster, victims := [], isSoulTrapSuccessful := false,
         processed := [victim] }, some fault) := by
  simp only [trapSoulLoop, hp, List.nil_append]

/-- Past the entry guards `trapSoul` is its loop followed by the final test. -/
theorem trapSoul_past_guards (fuel : Nat) (config : YASTMConfig) (caster victimActor : Actor)
    (hc : caster.isDead = false) (hv : victimActor.isDead = true)
    (hst : victimActor.soulTrapVictimStatus ≠ 0) :
    trapSoul fuel config (some caster) (some victimActor) =
      match trapSoulLoop config config.isPartialFillsAllowed config.isSoulDisplacementAllowed
          config.isSoulRelocationAllowed config.isSoulShrinkingAllowed fuel
          { caster := caster, victims := [Victim.ofActor victimActor],
            isSoulTrapSuccessful := false, processed := [] } with
      | (final, none) =>
        if final.isSoulTrapSuccessful then
          .ok { returned := true, caster := some final.caster,
                victimActor := some (if victimActor.hasMiddleHigh then
                  { victimActor with unk325 := true } else victimActor),
                processed := final.processed, caught := false }
        else
          .ok { returned := false, caster := some final.caster,
                victimActor := some victimActor,
                processed := final.processed, caught := false }
      | (final, some Fault.rangeError) =>
        .ok { returned := false, caster := some final.caster, victimActor := some victimActor,
              processed := final.processed, caught := true }
      | (_, some fault) => .error fault := by
  have hstat : (victimActor.soulTrapVictimStatus == 0) = false := by simpa using hst
  unfold trapSoul
  simp only [hc, hv, hstat, Bool.not_true, Bool.or_self, Bool.false_eq_true, if_false,
    VictimQueue.emplace]

theorem isOwned_GetInventoryCounts (actor : Actor) (gem : Gem) :
    isOwned actor.GetInventoryCounts gem = true ↔ 0 < actor.inventory gem := by
  unfold isOwned Actor.GetInventoryCounts
  by_cases h : actor.inventory gem = 0
  · simp [h]
  · simp [h]

theorem getSoulGemsWith_black_none (config : YASTMConfig) :
    config.getSoulGemsWith SoulSize.Black SoulSize.None = .ok config._blackSoulGemsEmpty := by
  simp [YASTMConfig.getSoulGemsWith, isValidSoulCapacity, isValidContainedSoulSize]

theorem getSoulGemsWith_black_black (config : YASTMConfig) :
    config.getSoulGemsWith SoulSize.Black SoulSize.Black = .ok config._blackSoulGemsFilled := by
  simp [YASTMConfig.getSoulGemsWith, isValidSoulCapacity, isValidContainedSoulSize]

/-- What `trapSoul` returns for a Black victim, from the result of the one `_fillSoulGem` call
on the two black lists. -/
theorem trapSoul_black_value (fuel : Nat) (config : YASTMConfig) (caster victimActor : Actor)
    (hfuel : 2 ≤ fuel) (hc : caster.isDead = false) (hv : victimActor.isDead = true)
    (hst : victimActor.soulTrapVictimStatus ≠ 0)
    (hblack : victimActor.soulSize = SoulSize.Black) (b : Bool) (caster2 : Actor)
    (hfill : _fillSoulGem caster config._blackSoulGemsEmpty config._blackSoulGemsFilled
      caster.GetInventoryCounts = .ok (b, caster2)) :
    trapSoul fuel config (some caster) (some victimActor) =
      .ok { returned := b, caster := some caster2,
            victimActor := some (if b && victimActor.hasMiddleHigh then
              { victimActor with unk325 := true } else victimActor),
            processed := [Victim.ofActor victimActor], caught := false } := by
  obtain ⟨n, rfl⟩ : ∃ n, fuel = n + 2 := ⟨fuel - 2, by omega⟩
  have hblack2 : (Victim.ofActor victimActor).soulSize = SoulSize.Black := hblack
  have htrap : _trapBlackSoul config caster (Victim.ofActor victimActor)
      caster.GetInventoryCounts = .ok (b, caster2) := by
    unfold _trapBlackSoul _fillSoulGemWith
    rw [hblack2, getSoulGemsWith_black_none, getSoulGemsWith_black_black]
    simp only [hfill]
    cases b <;> simp
  rw [trapSoul_past_guards (n + 2) config caster victimActor hc hv hst]
  cases b with
  | true =>
    have hp : processVictim config config.isPartialFillsAllowed
        config.isSoulDisplacementAllowed config.isSoulRelocationAllowed
        config.isSoulShrinkingAllowed
        { caster := caster, victims := [], isSoulTrapSuccessful := false, processed := [] }
        (Victim.ofActor victimActor) =
        .ok { caster := caster2, victims := [], isSoulTrapSuccessful := true,
              processed := [Victim.ofActor victimActor] } := by
      unfold processVictim
      simp only [hblack2, if_true, htrap, List.nil_append]
    rw [trapSoulLoop_single_ok config _ _ _ _ n caster _ _ hp rfl]
    simp
  | false =>
    have hcst : caster2 = caster :=
      (fillSoulGem_inv_false caster caster2 _ _ _ hfill).1
    subst hcst
    have hp : processVictim config config.isPartialFillsAllowed
        config.isSoulDisplacementAllowed config.isSoulRelocationAllowed
        config.isSoulShrinkingAllowed
        { caster := caster2, victims := [], isSoulTrapSuccessful := false, processed := [] }
        (Victim.ofActor victimActor) =
        .ok { caster := caster2, victims := [], isSoulTrapSuccessful := false,
              processed := [Victim.ofActor victimActor] } := by
      unfold processVictim
      simp only [hblack2, if_true, htrap, List.nil_append]
    rw [trapSoulLoop_single_ok config _ _ _ _ n caster2 _ _ hp rfl]
    simp

/-- C6: for a Black victim past the entry guards, `trapSoul` returns true exactly when the caster
owns a gem of the empty-black list; then the first owned empty black gem is replaced by the
filled black gem at the same index, and otherwise the caster is unchanged; a configuration with
the same two black lists gives the same outcome, whatever its toggles are. -/
theorem C6_black_soul_all_or_none (fuel : Nat) (config : YASTMConfig)
    (caster victimActor : Actor) (hfuel : 2 ≤ fuel)
    (hc : caster.isDead = false) (hv : victimActor.isDead = true)
    (hst : victimActor.soulTrapVictimStatus ≠ 0)
    (hblack : victimActor.soulSize = SoulSize.Black)
    (hlen : config._blackSoulGemsEmpty.length ≤ config._blackSoulGemsFilled.length) :
    ∃ outcome, trapSoul fuel config (some caster) (some victimActor) = .ok outcome ∧
      (outcome.returned = true ↔
        ∃ gem ∈ config._blackSoulGemsEmpty, 0 < caster.inventory gem) ∧
      (outcome.returned = true →
        ∃ (index : Nat) (removed added : Gem),
          config._blackSoulGemsEmpty[index]? = some removed ∧
          config._blackSoulGemsFilled[index]? = some added ∧
          0 < caster.inventory removed ∧
          (∀ (j : Nat) (gem : Gem), j < index → config._blackSoulGemsEmpty[j]? = some gem →
            caster.inventory gem = 0) ∧
          outcome.caster = some (_replaceItem caster added removed)) ∧
      (outcome.returned = false → outcome.caster = some caster) ∧
      (∀ config2 : YASTMConfig,
        config2._blackSoulGemsEmpty = config._blackSoulGemsEmpty →
        config2._blackSoulGemsFilled = config._blackSoulGemsFilled →
        trapSoul fuel config2 (some caster) (some victimActor) = .ok outcome) := by
  obtain ⟨⟨b, caster2⟩, hfill⟩ := fillSoulGem_total caster config._blackSoulGemsEmpty
    config._blackSoulGemsFilled caster.GetInventoryCounts hlen
  refine ⟨_, trapSoul_black_value fuel config caster victimActor hfuel hc hv hst hblack b
    caster2 hfill, ?_, ?_, ?_, ?_⟩
  · cases b with
    | true =>
      obtain ⟨i, removed, added, h1, _, h3, _, _⟩ := fillSoulGem_inv_true _ _ _ _ _ hfill
      simp only [true_iff]
      exact ⟨removed, List.getElem?_mem h1, (isOwned_GetInventoryCounts caster removed).mp h3⟩
    | false =>
      obtain ⟨_, hno⟩ := fillSoulGem_inv_false _ _ _ _ _ hfill
      simp only [Bool.false_eq_true, false_iff]
      rintro ⟨gem, hmem, hpos⟩
      have := (isOwned_GetInventoryCounts caster gem).mpr hpos
      rw [hno gem hmem] at this
      exact Bool.noConfusion this
  · intro hb
    simp only at hb
    subst hb
    obtain ⟨i, removed, added, h1, h2, h3, h4, h5⟩ := fillSoulGem_inv_true _ _ _ _ _ hfill
    refine ⟨i, removed, added, h1, h2, (isOwned_GetInventoryCounts caster removed).mp h3, ?_,
      by rw [h5]⟩
    intro j gem hj hg
    have h := h4 j gem hj hg
    by_contra hne
    have := (isOwned_GetInventoryCounts caster gem).mpr (by omega)
    rw [h] at this
    exact Bool.noConfusion this
  · intro hb
    simp only at hb
    subst hb
    rw [(fillSoulGem_inv_false _ _ _ _ _ hfill).1]
  · intro config2 he hf
    exact trapSoul_black_value fuel config2 caster victimActor hfuel hc hv hst hblack b caster2
      (by rw [he, hf]; exact hfill)

/-- One turn of the loop with displacement disabled, for the only victim in the queue: it can
only fail with `std::range_error`; otherwise the queue stays empty and either nothing changed or
one empty gem was replaced. -/
theorem processVictim_no_displacement (config : YASTMConfig)
    (halign : config.isAligned = true) (p r s : Bool) (caster : Actor) (victim : Victim) :
    (∃ next, processVictim config p false r s
        { caster := caster, victims := [], isSoulTrapSuccessful := false, processed := [] }
        victim = .ok next ∧
      next.victims = [] ∧ next.processed = [victim] ∧
      ((next.caster = caster ∧ next.isSoulTrapSuccessful = false) ∨
       (next.isSoulTrapSuccessful = true ∧ ∃ c t removed added,
          replacedGem config caster.GetInventoryCounts caster next.caster c SoulSize.None t
            removed added))) ∨
    processVictim config p false r s
        { caster := caster, victims := [], isSoulTrapSuccessful := false, processed := [] }
        victim = .error Fault.rangeError := by
  unfold processVictim
  simp only [List.nil_append]
  by_cases hb : victim.soulSize = SoulSize.Black
  · simp only [hb, if_true]
    cases h : _trapBlackSoul config caster victim caster.GetInventoryCounts with
    | error f =>
      right
      rw [trapBlackSoul_error_aligned config halign caster victim _ f h]
    | ok res =>
      left
      obtain ⟨b, caster2⟩ := res
      rcases trapBlackSoul_found config caster victim _ _ h with
        ⟨h1, h2, _⟩ | ⟨h1, removed, added, h2⟩
      · simp only at h1 h2
        subst h1
        exact ⟨_, rfl, rfl, rfl, Or.inl ⟨rfl, rfl⟩⟩
      · simp only at h1 h2
        subst h1
        exact ⟨_, rfl, rfl, rfl, Or.inr ⟨rfl, _, _, removed, added, h2⟩⟩
  · simp only [hb, if_false]
    cases h : _trapFullSoul config caster victim p false r [] caster.GetInventoryCounts with
    | error f =>
      right
      rw [(trapFullSoul_error_aligned config halign caster victim p false r [] _ f h).1]
    | ok res =>
      obtain ⟨b, caster2, victims2⟩ := res
      rcases trapFullSoul_found config caster victim p false r [] _ _ h with
        ⟨h1, _, _⟩ | ⟨h1, c, k, removed, added, _, _, h4, h5, h6, _⟩
      · simp only at h1
        subst h1
        simp only
        cases s with
        | false =>
          left
          exact ⟨_, rfl, rfl, rfl, Or.inl ⟨rfl, rfl⟩⟩
        | true =>
          simp only [if_true]
          cases h2 : _trapShrunkSoul config caster victim false caster.GetInventoryCounts []
            with
          | error f =>
            right
            rw [(trapShrunkSoul_error_aligned config halign caster victim false _ [] f h2).1]
          | ok res2 =>
            left
            obtain ⟨b2, caster3, victims3⟩ := res2
            rcases trapShrunkSoul_found config caster victim false _ [] _ h2 with
              ⟨g1, _, _⟩ | ⟨g1, c, k, removed, added, _, _, g4, g5, g6, _⟩
            · simp only at g1
              subst g1
              exact ⟨_, rfl, rfl, rfl, Or.inl ⟨rfl, rfl⟩⟩
            · simp only [Bool.false_eq_true, if_false, SoulSize.Petty] at g1 g4 g5 g6
              subst g1
              have hk : k = 0 := by omega
              subst hk
              simp only [Nat.lt_irrefl, if_false] at g6
              subst g6
              exact ⟨_, rfl, rfl, rfl, Or.inr ⟨rfl, c, c, removed, added, g5⟩⟩
      · left
        simp only [Bool.false_eq_true, if_false, SoulSize.Petty] at h1 h4 h5 h6
        subst h1
        have hk : k = 0 := by omega
        subst hk
        have hq : victims2 = [] := by
          rw [h6]; simp [afterFullFill, SoulSize.None]
        subst hq
        exact ⟨_, rfl, rfl, rfl, Or.inr ⟨rfl, c, victim.soulSize, removed, added, h5⟩⟩

/-- C10: with soul displacement disabled, in an aligned configuration and past the entry guards,
`trapSoul` processes the victim alone (no displaced soul is queued), the caster is left either
unchanged or with one gem of an empty-gem list replaced, and a caster who owns no empty gem gets
the result false with the caster unchanged. -/
theorem C10_no_displacement_only_empty_gems (fuel : Nat) (config : YASTMConfig)
    (caster victimActor : Actor) (hfuel : 2 ≤ fuel)
    (halign : config.isAligned = true)
    (hc : caster.isDead = false) (hv : victimActor.isDead = true)
    (hst : victimActor.soulTrapVictimStatus ≠ 0)
    (hd : config.isSoulDisplacementAllowed = false) :
    ∃ outcome after, trapSoul fuel config (some caster) (some victimActor) = .ok outcome ∧
      outcome.processed = [Victim.ofActor victimActor] ∧
      outcome.caster = some after ∧
      ((after = caster ∧ outcome.returned = false) ∨
       (outcome.returned = true ∧ ∃ c t removed added,
         replacedGem config caster.GetInventoryCounts caster after c SoulSize.None t
           removed added)) ∧
      ((∀ c, ¬ ownsGemOf config caster.GetInventoryCounts c SoulSize.None) →
        outcome.returned = false ∧ after = caster) := by
  obtain ⟨n, rfl⟩ : ∃ n, fuel = n + 2 := ⟨fuel - 2, by omega⟩
  rw [trapSoul_past_guards (n + 2) config caster victimActor hc hv hst, hd]
  rcases processVictim_no_displacement config halign config.isPartialFillsAllowed
    config.isSoulRelocationAllowed config.isSoulShrinkingAllowed caster
    (Victim.ofActor victimActor) with ⟨next, hp, hq, hpr, hcase⟩ | hp
  · rw [trapSoulLoop_single_ok config _ _ _ _ n caster _ next hp hq]
    rcases hcase with ⟨h1, h2⟩ | ⟨h1, c, t, removed, added, h2⟩
    · simp only [h2, Bool.false_eq_true, if_false]
      exact ⟨_, caster, rfl, hpr, by simp only [h1], Or.inl ⟨rfl, rfl⟩, fun _ => ⟨rfl, rfl⟩⟩
    · simp only [h1, if_true]
      exact ⟨_, next.caster, rfl, hpr, rfl, Or.inr ⟨rfl, c, t, removed, added, h2⟩,
        fun hno => absurd
          (ownsGemOf_of_replacedGem config _ caster next.caster c _ t _ _ h2) (hno c)⟩
  · rw [trapSoulLoop_single_error config _ _ _ _ (n + 1) caster _ _ hp]
    exact ⟨_, caster, rfl, rfl, rfl, Or.inl ⟨rfl, rfl⟩, fun _ => ⟨rfl, rfl⟩⟩

/-- With displacement disabled the shrink search never leaves the valid pairs: for a white victim
in an aligned configuration `_trapShrunkSoul` returns normally. -/
theorem trapShrunkSoul_total_no_displacement (config : YASTMConfig)
    (halign : config.isAligned = true) (caster : Actor) (victim : Victim)
    (m : InventoryCountMap) (victims : VictimQueue)
    (hs5 : victim.soulSize ≤ SoulSize.Black) :
    ∃ res, _trapShrunkSoul config caster victim false m victims = .ok res := by
  cases h : _trapShrunkSoul config caster victim false m victims with
  | ok res => exact ⟨res, rfl⟩
  | error f =>
    exfalso
    obtain ⟨_, c, k, h1, h2, h3, h4⟩ :=
      trapShrunkSoul_error_aligned config halign caster victim false m victims f h
    apply h4
    simp only [SoulSize.Petty, SoulSize.Black, Bool.false_eq_true, if_false] at hs5 h3
    have hc6 : c ≠ 6 := by omega
    have hk : k ≤ c := by omega
    simp [isValidSoulCapacity, isValidContainedSoulSize, SoulSize.Petty, SoulSize.Black, hc6]
    omega

/-- The behaviour that C1 describes, where the code has it: with displacement disabled and
shrinking allowed, a white victim that `_trapFullSoul` cannot place is shrunk into an owned empty
gem of a smaller capacity, and `trapSoul` returns true. -/
theorem shrinking_without_displacement_fits_smaller_gem (fuel : Nat) (config : YASTMConfig)
    (caster victimActor : Actor) (smaller : Nat) (hfuel : 2 ≤ fuel)
    (halign : config.isAligned = true)
    (hc : caster.isDead = false) (hv : victimActor.isDead = true)
    (hst : victimActor.soulTrapVictimStatus ≠ 0)
    (hd : config.isSoulDisplacementAllowed = false)
    (hshrink : config.isSoulShrinkingAllowed = true)
    (hs1 : SoulSize.Petty ≤ victimActor.soulSize) (hs5 : victimActor.soulSize ≤ SoulSize.Grand)
    (hfull : ∀ c k, ¬ eligiblePair config caster.GetInventoryCounts victimActor.soulSize
      config.isPartialFillsAllowed false c k)
    (hsmall1 : SoulSize.Petty ≤ smaller) (hsmall2 : smaller < victimActor.soulSize)
    (hown : ownsGemOf config caster.GetInventoryCounts smaller SoulSize.None) :
    ∃ outcome after c removed added,
      trapSoul fuel config (some caster) (some victimActor) = .ok outcome ∧
      outcome.returned = true ∧ outcome.caster = some after ∧
      SoulSize.Petty ≤ c ∧ c < victimActor.soulSize ∧
      replacedGem config caster.GetInventoryCounts caster after c SoulSize.None c
        removed added := by
  obtain ⟨n, rfl⟩ : ∃ n, fuel = n + 2 := ⟨fuel - 2, by omega⟩
  rw [trapSoul_past_guards (n + 2) config caster victimActor hc hv hst, hd, hshrink]
  have hnb : ¬ (Victim.ofActor victimActor).soulSize = SoulSize.Black := by
    show ¬ victimActor.soulSize = SoulSize.Black
    simp only [SoulSize.Grand, SoulSize.Black] at hs5 ⊢
    omega
  obtain ⟨res, hres⟩ := trapFullSoul_total config halign caster (Victim.ofActor victimActor)
    config.isPartialFillsAllowed false config.isSoulRelocationAllowed [] caster.GetInventoryCounts
    hs1 hs5
  obtain ⟨b, caster2, victims2⟩ := res
  rcases trapFullSoul_found config caster (Victim.ofActor victimActor) _ false _ [] _ _ hres with
    ⟨hb, _, _⟩ | ⟨_, c, k, removed, added, h1, h2, h3, h4, _, _⟩
  · simp only at hb
    subst hb
    obtain ⟨res2, hres2⟩ := trapShrunkSoul_total_no_displacement config halign caster
      (Victim.ofActor victimActor) caster.GetInventoryCounts []
      (by show victimActor.soulSize ≤ SoulSize.Black
          simp only [SoulSize.Grand, SoulSize.Black] at hs5 ⊢
          omega)
    obtain ⟨b2, caster3, victims3⟩ := res2
    rcases trapShrunkSoul_found config caster (Victim.ofActor victimActor) false _ [] _ hres2
      with ⟨_, _, hno⟩ | ⟨g1, c, k, removed, added, g2, g3, g4, g5, g6, _⟩
    · exfalso
      refine hno smaller SoulSize.None hsmall1 ?_ (by simp [SoulSize.Petty, SoulSize.None]) hown
      show smaller ≤ victimActor.soulSize - 1
      omega
    · simp only [Bool.false_eq_true, if_false, SoulSize.Petty] at g1 g4 g5 g6
      subst g1
      have hk : k = 0 := by omega
      subst hk
      simp only [Nat.lt_irrefl, if_false] at g6
      subst g6
      have hp : processVictim config config.isPartialFillsAllowed false
          config.isSoulRelocationAllowed true
          { caster := caster, victims := [], isSoulTrapSuccessful := false, processed := [] }
          (Victim.ofActor victimActor) =
          .ok { caster := caster3, victims := [], isSoulTrapSuccessful := true,
                processed := [Victim.ofActor victimActor] } := by
        unfold processVictim
        simp only [hnb, if_false, hres, hres2, List.nil_append, if_true]
      rw [trapSoulLoop_single_ok config _ _ _ _ n caster _ _ hp rfl]
      simp only [if_true]
      refine ⟨_, caster3, c, removed, added, rfl, rfl, rfl, g2, ?_, g5⟩
      have : c ≤ victimActor.soulSize - 1 := g3
      simp only [SoulSize.Petty] at hs1
      omega
  · exact absurd ⟨h1, h2, h3, ownsGemOf_of_replacedGem config _ caster _ c k _ _ _ h4⟩
      (hfull c k)

theorem shrinking_without_displacement_fits_smaller_gem_example :
    ∃ outcome after c removed added,
      trapSoul 2 (sampleConfig true false true true) (some (sampleCaster [10]))
        (some (sampleVictim SoulSize.Grand)) = .ok outcome ∧
      outcome.returned = true ∧ outcome.caster = some after ∧
      SoulSize.Petty ≤ c ∧ c < SoulSize.Grand ∧
      replacedGem (sampleConfig true false true true) (sampleCaster [10]).GetInventoryCounts
        (sampleCaster [10]) after c SoulSize.None c removed added :=
  shrinking_without_displacement_fits_smaller_gem 2 (sampleConfig true false true true)
    (sampleCaster [10]) (sampleVictim SoulSize.Grand) SoulSize.Petty (by decide) (by decide)
    rfl rfl (by decide) rfl rfl (by decide) (by decide)
    (by
      rintro c k ⟨h1, h2, h3, gems, hg, gem, hmem, hown⟩
      have h1b : 5 ≤ c := h1
      have h2b : c ≤ 5 := h2
      have h3b : k < 1 := h3
      have hc : c = 5 := by omega
      have hk : k = 0 := by omega
      subst hc
      subst hk
      have hlist : YASTMConfig.getSoulGemsWith (sampleConfig true false true true) 5 0 =
          .ok [50] := rfl
      rw [hlist] at hg
      injection hg with hg
      subst hg
      have hgem : gem = 50 := by simpa using hmem
      subst hgem
      exact absurd hown (by decide))
    (by decide) (by decide) ⟨[10], rfl, 10, by simp, rfl⟩

/-! ## The shrink search at concrete inputs -/

/-- C1 at its failing input: a Grand victim, displacement and shrinking allowed, and a caster whose
only gem is the empty Petty gem `10`. The shrink search reaches capacity Common with contained
size Greater, the lookup throws, and `trapSoul` returns false with the Petty gem still empty. -/
theorem C1_shrinking_throws_before_smaller_gem :
    ∃ outcome, trapSoul 8 (sampleConfig true true true true) (some (sampleCaster [10]))
        (some (sampleVictim SoulSize.Grand)) = .ok outcome ∧
      outcome.returned = false ∧ outcome.caught = true ∧
      ∃ after, outcome.caster = some after ∧ after.replaced = [] ∧
        after.inventory 10 = 1 ∧ after.inventory 11 = 0 ∧
        YASTMConfig.getSoulGemsWith (sampleConfig true true true true) SoulSize.Common
          SoulSize.Greater = .error Fault.rangeError :=
  ⟨_, rfl, rfl, rfl, _, rfl, rfl, rfl, rfl, rfl⟩

/-- C2 at its failing input: a Grand victim, every toggle on, and a caster whose only gem is the
Grand gem `53` holding a Common soul. The gem is filled (`55` replaces `53`), the displaced Common
soul finds no gem, its shrink search throws, and `trapSoul` returns false although the inventory
changed. -/
theorem C2_false_returned_after_inventory_changed :
    ∃ outcome, trapSoul 8 (sampleConfig true true true true) (some (sampleCaster [53]))
        (some (sampleVictim SoulSize.Grand)) = .ok outcome ∧
      outcome.returned = false ∧ outcome.caught = true ∧
      (sampleCaster [53]).inventory 53 = 1 ∧ (sampleCaster [53]).inventory 55 = 0 ∧
      ∃ after, outcome.caster = some after ∧ after.replaced = [(55, 53)] ∧
        after.inventory 53 = 0 ∧ after.inventory 55 = 1 :=
  ⟨_, rfl, rfl, rfl, rfl, rfl, _, rfl, rfl, rfl, rfl⟩

/-- C3 at its failing input: a Grand victim, every toggle on, and a caster whose only gem is the
full Greater gem `44`. `_trapShrunkSoul` takes the list of capacity Greater holding a Greater soul
both as source and as target: the gem removed is the gem added, and the soul it evicts is as
large as the soul it stores. -/
theorem C3_shrink_evicts_soul_of_equal_size :
    ∃ outcome, trapSoul 8 (sampleConfig true true true true) (some (sampleCaster [44]))
        (some (sampleVictim SoulSize.Grand)) = .ok outcome ∧
      YASTMConfig.getSoulGemsWith (sampleConfig true true true true) SoulSize.Greater
        SoulSize.Greater = .ok [44] ∧
      ∃ after, outcome.caster = some after ∧ after.replaced = [(44, 44)] ∧
        outcome.processed = [Victim.ofActor (sampleVictim SoulSize.Grand),
          Victim.ofSoulSize SoulSize.Greater] :=
  ⟨_, rfl, rfl, _, rfl, rfl, rfl⟩

/-- C4 at its failing input: a Grand victim, relocation disabled and the other toggles on, and a
caster who owns the Greater gem `41` holding a Petty soul and the empty Petty gem `10`.
`_trapShrunkSoul` queues the displaced Petty soul without reading the toggle: two victims are
processed and two gems are replaced. -/
theorem C4_shrink_relocates_with_relocation_disabled :
    YASTMConfig.isSoulRelocationAllowed (sampleConfig true true false true) = false ∧
    ∃ outcome, trapSoul 8 (sampleConfig true true false true) (some (sampleCaster [41, 10]))
        (some (sampleVictim SoulSize.Grand)) = .ok outcome ∧
      outcome.returned = true ∧
      outcome.processed = [Victim.ofActor (sampleVictim SoulSize.Grand),
        Victim.ofSoulSize SoulSize.Petty] ∧
      ∃ after, outcome.caster = some after ∧ after.replaced = [(44, 41), (11, 10)] :=
  ⟨rfl, _, rfl, rfl, rfl, _, rfl, rfl⟩

/-! ## The theorems above at sample inputs -/

theorem C5_trapFullSoul_stores_soul_at_full_size_witness :
    _trapFullSoul (sampleConfig true true true true) (sampleCaster [52])
        { soulSize := SoulSize.Common, isDisplacedSoul := false } true true true []
        (sampleCaster [52]).GetInventoryCounts =
      .ok (true, _replaceItem (sampleCaster [52]) 53 52,
        [Victim.ofSoulSize SoulSize.Lesser]) ∧
    ∃ c k removed added,
      SoulSize.Common ≤ c ∧ c ≤ SoulSize.Grand ∧ k < SoulSize.Common ∧
      (∃ count, (sampleCaster [52]).GetInventoryCounts removed = some count ∧ 0 < count) ∧
      replacedGem (sampleConfig true true true true) (sampleCaster [52]).GetInventoryCounts
        (sampleCaster [52]) (_replaceItem (sampleCaster [52]) 53 52) c k SoulSize.Common
        removed added :=
  ⟨rfl, C5_trapFullSoul_stores_soul_at_full_size (sampleConfig true true true true)
    (sampleCaster [52]) { soulSize := SoulSize.Common, isDisplacedSoul := false }
    true true true [] (sampleCaster [52]).GetInventoryCounts
    (_replaceItem (sampleCaster [52]) 53 52) [Victim.ofSoulSize SoulSize.Lesser]
    (by decide) (by decide) rfl⟩

theorem C6_black_soul_all_or_none_witness :
    ∃ outcome, trapSoul 2 (sampleConfig false false false false) (some (sampleCaster [60]))
        (some (sampleVictim SoulSize.Black)) = .ok outcome ∧
      (outcome.returned = true ↔ ∃ gem ∈ [60], 0 < (sampleCaster [60]).inventory gem) ∧
      (outcome.returned = false → outcome.caster = some (sampleCaster [60])) :=
  let ⟨outcome, h1, h2, _, h4, _⟩ :=
    C6_black_soul_all_or_none 2 (sampleConfig false false false false) (sampleCaster [60])
      (sampleVictim SoulSize.Black) (by decide) rfl rfl (by decide) rfl (by decide)
  ⟨outcome, h1, h2, h4⟩

theorem C7_trapFullSoul_relocation_prefers_capacity_witness :
    ∃ c k removed added caster2 victims2,
      eligiblePair (sampleConfig true true true true) (sampleCaster [52, 40]).GetInventoryCounts
        SoulSize.Common true true c k ∧
      (∀ c2 k2, eligiblePair (sampleConfig true true true true)
        (sampleCaster [52, 40]).GetInventoryCounts SoulSize.Common true true c2 k2 →
        c < c2 ∨ (c = c2 ∧ k ≤ k2)) ∧
      replacedGem (sampleConfig true true true true) (sampleCaster [52, 40]).GetInventoryCounts
        (sampleCaster [52, 40]) caster2 c k SoulSize.Common removed added ∧
      _trapFullSoul (sampleConfig true true true true) (sampleCaster [52, 40])
        { soulSize := SoulSize.Common, isDisplacedSoul := false } true true true []
        (sampleCaster [52, 40]).GetInventoryCounts = .ok (true, caster2, victims2) :=
  (C7_trapFullSoul_relocation_prefers_capacity (sampleConfig true true true true)
    (sampleCaster [52, 40]) { soulSize := SoulSize.Common, isDisplacedSoul := false }
    true true [] (sampleCaster [52, 40]).GetInventoryCounts (by decide) (by decide)
    (by decide)).2
    ⟨5, 2, by decide, by decide, by decide, [52], rfl, 52, by simp, rfl⟩

theorem C8_trapFullSoul_no_relocation_displaces_smallest_witness :
    ∃ c k removed added caster2,
      eligiblePair (sampleConfig true true false true)
        (sampleCaster [32, 50]).GetInventoryCounts SoulSize.Common true true c k ∧
      (∀ c2 k2, eligiblePair (sampleConfig true true false true)
        (sampleCaster [32, 50]).GetInventoryCounts SoulSize.Common true true c2 k2 →
        k < k2 ∨ (k = k2 ∧ c ≤ c2)) ∧
      ((∃ c0, eligiblePair (sampleConfig true true false true)
        (sampleCaster [32, 50]).GetInventoryCounts SoulSize.Common true true c0
        SoulSize.None) → k = SoulSize.None) ∧
      replacedGem (sampleConfig true true false true) (sampleCaster [32, 50]).GetInventoryCounts
        (sampleCaster [32, 50]) caster2 c k SoulSize.Common removed added ∧
      _trapFullSoul (sampleConfig true true false true) (sampleCaster [32, 50])
        { soulSize := SoulSize.Common, isDisplacedSoul := false } true true false []
        (sampleCaster [32, 50]).GetInventoryCounts = .ok (true, caster2, []) :=
  (C8_trapFullSoul_no_relocation_displaces_smallest (sampleConfig true true false true)
    (sampleCaster [32, 50]) { soulSize := SoulSize.Common, isDisplacedSoul := false }
    true true [] (sampleCaster [32, 50]).GetInventoryCounts (by decide) (by decide)
    (by decide)).2
    ⟨3, 2, by decide, by decide, by decide, [32], rfl, 32, by simp, rfl⟩

theorem C9_trapFullSoul_partial_fill_toggle_witness :
    _trapFullSoul (sampleConfig false true true true) (sampleCaster [40, 50])
        { soulSize := SoulSize.Common, isDisplacedSoul := false } false true true []
        (sampleCaster [40, 50]).GetInventoryCounts = .ok (false, sampleCaster [40, 50], []) ∧
    ∃ caster2 victims2 c2 k2 removed added,
      _trapFullSoul (sampleConfig false true true true) (sampleCaster [40, 50])
        { soulSize := SoulSize.Common, isDisplacedSoul := false } true true true []
        (sampleCaster [40, 50]).GetInventoryCounts = .ok (true, caster2, victims2) ∧
      replacedGem (sampleConfig false true true true) (sampleCaster [40, 50]).GetInventoryCounts
        (sampleCaster [40, 50]) caster2 c2 k2 SoulSize.Common removed added ∧
      ((∀ c3 k3, eligiblePair (sampleConfig false true true true)
          (sampleCaster [40, 50]).GetInventoryCounts SoulSize.Common true true c3 k3 →
          c3 = 4 ∧ k3 = 0) → c2 = 4 ∧ k2 = 0) :=
  have h := C9_trapFullSoul_partial_fill_toggle (sampleConfig false true true true)
    (sampleCaster [40, 50]) { soulSize := SoulSize.Common, isDisplacedSoul := false }
    true true [] (sampleCaster [40, 50]).GetInventoryCounts (by decide) (by decide)
    (by decide)
  ⟨rfl,
    h.2.2 4 0 (by decide) (by decide) (by decide) ⟨[40], rfl, 40, by simp, rfl⟩⟩

theorem C10_no_displacement_only_empty_gems_witness :
    (sampleConfig true false true true).isAligned = true ∧
    YASTMConfig.isSoulDisplacementAllowed (sampleConfig true false true true) = false ∧
    ∃ outcome after, trapSoul 2 (sampleConfig true false true true) (some (sampleCaster [51]))
        (some (sampleVictim SoulSize.Common)) = .ok outcome ∧
      outcome.processed = [Victim.ofActor (sampleVictim SoulSize.Common)] ∧
      outcome.caster = some after ∧
      ((after = sampleCaster [51] ∧ outcome.returned = false) ∨
       (outcome.returned = true ∧ ∃ c t removed added,
         replacedGem (sampleConfig true false true true) (sampleCaster [51]).GetInventoryCounts
           (sampleCaster [51]) after c SoulSize.None t removed added)) ∧
      ((∀ c, ¬ ownsGemOf (sampleConfig true false true true)
          (sampleCaster [51]).GetInventoryCounts c SoulSize.None) →
        outcome.returned = false ∧ after = sampleCaster [51]) :=
  ⟨by decide, rfl,
    C10_no_displacement_only_empty_gems 2 (sampleConfig true false true true)
      (sampleCaster [51]) (sampleVictim SoulSize.Common) (by decide) (by decide)
      rfl rfl (by decide) rfl⟩

/-! ## Lookups, guards, conversions and toggles -/

/-- C14: `getSoulGemsWith` raises `range_error` exactly when the capacity is outside Petty..Black
or the contained size is not valid for the capacity; when both checks pass and the capacity is
Black the contained size is None or Black, so the throw after the branches is never reached; it
returns the empty-black list for (Black, None), the filled-black list for (Black, Black) and the
white list stored at `[capacity - 1][contained]` for a white capacity. -/
theorem C14_getSoulGemsWith_contract (config : YASTMConfig) (capacity contained : Nat) :
    (config.getSoulGemsWith capacity contained = .error Fault.rangeError ↔
      (¬ (SoulSize.Petty ≤ capacity ∧ capacity ≤ SoulSize.Black) ∨
        isValidContainedSoulSize capacity contained = false)) ∧
    (isValidSoulCapacity capacity = true → isValidContainedSoulSize capacity contained = true →
      capacity = SoulSize.Black → contained = SoulSize.None ∨ contained = SoulSize.Black) ∧
    config.getSoulGemsWith SoulSize.Black SoulSize.None = .ok config._blackSoulGemsEmpty ∧
    config.getSoulGemsWith SoulSize.Black SoulSize.Black = .ok config._blackSoulGemsFilled ∧
    (SoulSize.Petty ≤ capacity → capacity ≤ SoulSize.Grand → contained ≤ capacity →
      ∀ variants gems, config._whiteSoulGems[capacity - 1]? = some variants →
        variants[contained]? = some gems →
        config.getSoulGemsWith capacity contained = .ok gems) := by
  refine ⟨?_, ?_, getSoulGemsWith_black_none config, getSoulGemsWith_black_black config, ?_⟩
  · unfold YASTMConfig.getSoulGemsWith
    by_cases hc : isValidSoulCapacity capacity = true
    · have hc2 : SoulSize.Petty ≤ capacity ∧ capacity ≤ SoulSize.Black := by
        simpa [isValidSoulCapacity] using hc
      by_cases hk : isValidContainedSoulSize capacity contained = true
      · simp only [hc, hk, Bool.not_true, Bool.false_eq_true, if_false]
        have hrhs : ¬ (¬ (SoulSize.Petty ≤ capacity ∧ capacity ≤ SoulSize.Black) ∨
            true = false) := by simp [hc2]
        simp only [hrhs, iff_false]
        by_cases hb : capacity = SoulSize.Black
        · subst hb
          simp [isValidContainedSoulSize] at hk
          rcases hk with hk | hk <;> subst hk <;> simp
        · simp only [hb, if_false]
          split
          · simp
          · split <;> simp
      · have hk2 : isValidContainedSoulSize capacity contained = false := by simpa using hk
        simp [hc, hk2]
    · have hc3 : ¬ (SoulSize.Petty ≤ capacity ∧ capacity ≤ SoulSize.Black) := by
        simpa [isValidSoulCapacity] using hc
      have hc4 : isValidSoulCapacity capacity = false := by simpa using hc
      simp [hc4, hc3]
  · intro _ hk hb
    subst hb
    simpa [isValidContainedSoulSize] using hk
  · intro h1 h5 hk variants gems hv hg
    unfold YASTMConfig.getSoulGemsWith
    simp only [SoulSize.Petty, SoulSize.Grand] at h1 h5
    have hb : capacity ≠ SoulSize.Black := by simp only [SoulSize.Black]; omega
    have hc : isValidSoulCapacity capacity = true := by
      simp [isValidSoulCapacity, SoulSize.Petty, SoulSize.Black]; omega
    have hkv : isValidContainedSoulSize capacity contained = true := by
      simp [isValidContainedSoulSize, hb, hk]
    simp [hc, hkv, hb, hv, hg]

/-- C15: when the caster is null, the victim is null, the caster is dead, the victim is not dead
or the victim's soul-trap status is 0, `trapSoul` returns false with the caster (and so the
inventory) and the victim (and so its flag) as they were, and the same holds for every other
configuration: the configuration is not read. -/
theorem C15_trapSoul_entry_guards (fuel : Nat) (config : YASTMConfig)
    (caster victimActor : Option Actor)
    (hguard : caster = none ∨ victimActor = none ∨
      (∃ actor, caster = some actor ∧ actor.isDead = true) ∨
      (∃ actor, victimActor = some actor ∧
        (actor.isDead = false ∨ actor.soulTrapVictimStatus = 0))) :
    trapSoul fuel config caster victimActor =
      .ok { returned := false, caster := caster, victimActor := victimActor,
            processed := [], caught := false } ∧
    ∀ (fuel2 : Nat) (config2 : YASTMConfig),
      trapSoul fuel2 config2 caster victimActor = trapSoul fuel config caster victimActor := by
  have key : ∀ (f : Nat) (cfg : YASTMConfig), trapSoul f cfg caster victimActor =
      .ok { returned := false, caster := caster, victimActor := victimActor,
            processed := [], caught := false } := by
    intro f cfg
    unfold trapSoul
    cases caster with
    | none => rfl
    | some c =>
      cases victimActor with
      | none => rfl
      | some v =>
        have hcond : (c.isDead || !v.isDead || v.soulTrapVictimStatus == 0) = true := by
          rcases hguard with h | h | ⟨a, h1, h2⟩ | ⟨a, h1, h2⟩
          · exact absurd h (by simp)
          · exact absurd h (by simp)
          · injection h1 with h1
            subst h1
            simp [h2]
          · injection h1 with h1
            subst h1
            rcases h2 with h2 | h2 <;> simp [h2]
        simp only [hcond, if_true]
  exact ⟨key fuel config, fun f2 c2 => by rw [key f2 c2, key fuel config]⟩

theorem C15_trapSoul_entry_guards_witness :
    trapSoul 8 (sampleConfig true true true true) (some (sampleCaster [50]))
        (some { sampleVictim SoulSize.Grand with soulTrapVictimStatus := 0 }) =
      .ok { returned := false, caster := some (sampleCaster [50]),
            victimActor := some { sampleVictim SoulSize.Grand with soulTrapVictimStatus := 0 },
            processed := [], caught := false } ∧
    ∀ (fuel2 : Nat) (config2 : YASTMConfig),
      trapSoul fuel2 config2 (some (sampleCaster [50]))
          (some { sampleVictim SoulSize.Grand with soulTrapVictimStatus := 0 }) =
        trapSoul 8 (sampleConfig true true true true) (some (sampleCaster [50]))
          (some { sampleVictim SoulSize.Grand with soulTrapVictimStatus := 0 }) :=
  C15_trapSoul_entry_guards 8 (sampleConfig true true true true) (some (sampleCaster [50]))
    (some { sampleVictim SoulSize.Grand with soulTrapVictimStatus := 0 })
    (Or.inr (Or.inr (Or.inr ⟨_, rfl, Or.inr rfl⟩)))

/-- C16: on the enumerators, `toRawSoulSize (toSoulSize r false) = r` for every raw soul size and
`toSoulSize (toRawSoulSize s) false = s` for every soul size other than Black; Black and Grand
both convert to `RawSoulSize::Grand`, so Black comes back as Grand; and `toSoulSize r true` is
Black for every `r`. -/
theorem C16_soul_size_round_trip :
    (∀ r ∈ RawSoulSize.enumerators, toRawSoulSize (RawSoulSize.toSoulSize r false) = r) ∧
    (∀ s ∈ SoulSize.enumerators, s ≠ SoulSize.Black →
      RawSoulSize.toSoulSize (toRawSoulSize s) false = s) ∧
    toRawSoulSize SoulSize.Black = RawSoulSize.Grand ∧
    toRawSoulSize SoulSize.Grand = RawSoulSize.Grand ∧
    RawSoulSize.toSoulSize (toRawSoulSize SoulSize.Black) false = SoulSize.Grand ∧
    (∀ r : Nat, RawSoulSize.toSoulSize r true = SoulSize.Black) := by
  refine ⟨by decide, by decide, rfl, rfl, rfl, fun r => rfl⟩

/-- C17: `getGlobalValue` returns the value of the global form when the key is in the
configuration and its form is loaded, and the default of the key when the key is absent or its
form is not loaded; each of the four toggles is true exactly when `getGlobalValue` of its key is
not 0. -/
theorem C17_toggles_from_configuration (config : YASTMConfig) (key : Key) :
    (∀ globalId value, config._globals key = some globalId → globalId.form = some value →
      config.getGlobalValue key = value) ∧
    (config._globals key = none → config.getGlobalValue key = config._globalsDefaults key) ∧
    (∀ globalId, config._globals key = some globalId → globalId.form = none →
      config.getGlobalValue key = config._globalsDefaults key) ∧
    (config.isPartialFillsAllowed = true ↔
      config.getGlobalValue Key.AllowPartiallyFillingSoulGems ≠ 0) ∧
    (config.isSoulDisplacementAllowed = true ↔
      config.getGlobalValue Key.AllowSoulDisplacement ≠ 0) ∧
    (config.isSoulRelocationAllowed = true ↔
      config.getGlobalValue Key.AllowSoulRelocation ≠ 0) ∧
    (config.isSoulShrinkingAllowed = true ↔
      config.getGlobalValue Key.AllowSoulShrinking ≠ 0) := by
  refine ⟨?_, ?_, ?_, ?_, ?_, ?_, ?_⟩
  · intro globalId value h1 h2
    simp [YASTMConfig.getGlobalValue, h1, h2]
  · intro h1
    simp [YASTMConfig.getGlobalValue, h1]
  · intro globalId h1 h2
    simp [YASTMConfig.getGlobalValue, h1, h2]
  · simp [YASTMConfig.isPartialFillsAllowed]
  · simp [YASTMConfig.isSoulDisplacementAllowed]
  · simp [YASTMConfig.isSoulRelocationAllowed]
  · simp [YASTMConfig.isSoulShrinkingAllowed]

/-- C18: `loadForm` returns without raising and leaves the object unchanged when no form id is
configured; raises `MissingFormError` and leaves `form_` unchanged when the lookup finds no form;
raises `UnexpectedFormTypeError` when the form found is not of type `T`; otherwise raises nothing,
stores the form, and `isFormLoaded` is true. After `clear`, `isConfigLoaded` and `isFormLoaded`
are both false. -/
theorem C18_loadForm_error_contract (self : Form)
    (dataHandler : Nat → String → Option TESForm) :
    (self.formId_ = none → self.loadForm dataHandler = (self, none)) ∧
    (∀ formId, self.formId_ = some formId →
      dataHandler formId.id_ formId.pluginName_ = none →
      (self.loadForm dataHandler).2 = some (FormError.MissingFormError formId) ∧
      (self.loadForm dataHandler).1.form_ = self.form_) ∧
    (∀ formId form, self.formId_ = some formId →
      dataHandler formId.id_ formId.pluginName_ = some form →
      form.formType ≠ self.FormType →
      (self.loadForm dataHandler).2 =
        some (FormError.UnexpectedFormTypeError self.FormType form.formType form.name)) ∧
    (∀ formId form, self.formId_ = some formId →
      dataHandler formId.id_ formId.pluginName_ = some form →
      form.formType = self.FormType →
      (self.loadForm dataHandler).2 = none ∧
      (self.loadForm dataHandler).1.form_ = some form ∧
      (self.loadForm dataHandler).1.isFormLoaded = true) ∧
    (self.clear.isConfigLoaded = false ∧ self.clear.isFormLoaded = false) := by
  refine ⟨?_, ?_, ?_, ?_, rfl, rfl⟩
  · intro h
    simp [Form.loadForm, h]
  · intro formId h1 h2
    simp [Form.loadForm, h1, h2]
  · intro formId form h1 h2 h3
    simp [Form.loadForm, h1, h2, Form.castAs, h3]
  · intro formId form h1 h2 h3
    simp [Form.loadForm, h1, h2, Form.castAs, h3, Form.isFormLoaded]

/-! ## What `_trapShrunkSoul` fills and what `_trapFullSoul` queues -/

theorem emplace_perm (victims : VictimQueue) (victim : Victim) :
    List.Perm (VictimQueue.emplace victims victim) (victim :: victims) := by
  induction victims with
  | nil => exact List.Perm.refl _
  | cons first rest ih =>
    unfold VictimQueue.emplace
    by_cases h : victim.soulSize < first.soulSize
    · simp only [h, if_true]
      exact List.Perm.refl _
    · simp only [h, if_false]
      exact (List.Perm.cons first ih).trans (List.Perm.swap victim first rest)

/-- C19: whenever `_trapShrunkSoul` returns true for a victim of soul size `s`, the gem added is
the gem of a list of a capacity `c` with `Petty ≤ c < s` that holds a soul of size exactly `c`,
the gem removed is the gem at the same index of a list of the same capacity `c`, and the caster
owns no gem of a searched pair of any capacity `c2` with `c < c2 < s`. -/
theorem C19_trapShrunkSoul_shrinks_least (config : YASTMConfig) (caster : Actor)
    (victim : Victim) (allowDisplacement : Bool) (soulGemCountMap : InventoryCountMap)
    (victims : VictimQueue) (caster2 : Actor) (victims2 : VictimQueue)
    (h : _trapShrunkSoul config caster victim allowDisplacement soulGemCountMap victims =
      .ok (true, caster2, victims2)) :
    ∃ c k removed added,
      SoulSize.Petty ≤ c ∧ c < victim.soulSize ∧
      replacedGem config soulGemCountMap caster caster2 c k c removed added ∧
      gemOfList config c c added ∧ gemOfList config c k removed ∧
      ∀ c2 k2, c < c2 → c2 < victim.soulSize →
        k2 < (if allowDisplacement then victim.soulSize else SoulSize.Petty) →
        ¬ ownsGemOf config soulGemCountMap c2 k2 := by
  rcases trapShrunkSoul_found config caster victim allowDisplacement soulGemCountMap victims _ h
    with ⟨hf, _⟩ | ⟨_, c, k, removed, added, h1, h2, _, h4, _, hmin⟩
  · exact absurd hf (by simp)
  · simp only at h4
    refine ⟨c, k, removed, added, h1, by omega, h4, ?_, ?_, ?_⟩
    · obtain ⟨src, tgt, i, _, ht, _, ha, _⟩ := h4
      exact ⟨tgt, ht, List.getElem?_mem ha⟩
    · obtain ⟨src, tgt, i, hs, _, hr, _⟩ := h4
      exact ⟨src, hs, List.getElem?_mem hr⟩
    · intro c2 k2 g1 g2 g3
      exact hmin c2 k2 (by omega) g3 (Or.inl g1)

theorem C19_trapShrunkSoul_shrinks_least_witness :
    ∃ c k removed added,
      SoulSize.Petty ≤ c ∧ c < SoulSize.Grand ∧
      replacedGem (sampleConfig true false true true)
        (sampleCaster [30, 10]).GetInventoryCounts (sampleCaster [30, 10])
        (_replaceItem (sampleCaster [30, 10]) 33 30) c k c removed added ∧
      gemOfList (sampleConfig true false true true) c c added ∧
      gemOfList (sampleConfig true false true true) c k removed ∧
      ∀ c2 k2, c < c2 → c2 < SoulSize.Grand →
        k2 < (if false then SoulSize.Grand else SoulSize.Petty) →
        ¬ ownsGemOf (sampleConfig true false true true)
          (sampleCaster [30, 10]).GetInventoryCounts c2 k2 :=
  C19_trapShrunkSoul_shrinks_least (sampleConfig true false true true) (sampleCaster [30, 10])
    { soulSize := SoulSize.Grand, isDisplacedSoul := false } false
    (sampleCaster [30, 10]).GetInventoryCounts []
    (_replaceItem (sampleCaster [30, 10]) 33 30) [] rfl

/-- C20: with relocation allowed, when `_trapFullSoul` fails the queue is unchanged; when it
succeeds it filled a gem of a list holding a soul of some size `k`, and the queue is unchanged if
that gem was empty, and is the queue with exactly one new victim, the displaced soul of size `k`,
put in if `k > None`. -/
theorem C20_trapFullSoul_queues_displaced_soul (config : YASTMConfig) (caster : Actor)
    (victim : Victim) (allowPartial allowDisplacement : Bool) (victims : VictimQueue)
    (soulGemCountMap : InventoryCountMap) (result : Bool) (caster2 : Actor)
    (victims2 : VictimQueue)
    (h : _trapFullSoul config caster victim allowPartial allowDisplacement true victims
      soulGemCountMap = .ok (result, caster2, victims2)) :
    (result = false → victims2 = victims) ∧
    (result = true → ∃ c k removed added,
      replacedGem config soulGemCountMap caster caster2 c k victim.soulSize removed added ∧
      (k = SoulSize.None → victims2 = victims) ∧
      (SoulSize.None < k →
        victims2 = VictimQueue.emplace victims (Victim.ofSoulSize k) ∧
        (Victim.ofSoulSize k).soulSize = k ∧
        List.Perm victims2 (Victim.ofSoulSize k :: victims))) := by
  rcases trapFullSoul_found config caster victim allowPartial allowDisplacement true victims
    soulGemCountMap _ h with ⟨hf, hc, _⟩ | ⟨ht, c, k, removed, added, _, _, _, h4, h5, _⟩
  · simp only at hf hc
    subst hf
    injection hc with hc1 hc2
    exact ⟨fun _ => hc2, fun h => absurd h (by simp)⟩
  · simp only at ht h4 h5
    subst ht
    refine ⟨fun h => absurd h (by simp), fun _ => ⟨c, k, removed, added, h4, ?_, ?_⟩⟩
    · intro hk
      subst hk
      rw [h5]
      simp [afterFullFill]
    · intro hk
      have hq : victims2 = VictimQueue.emplace victims (Victim.ofSoulSize k) := by
        rw [h5]
        simp [afterFullFill, hk, toSoulSize]
      exact ⟨hq, rfl, hq ▸ emplace_perm victims (Victim.ofSoulSize k)⟩

theorem C20_trapFullSoul_queues_displaced_soul_witness :
    (true = false → [Victim.ofSoulSize SoulSize.Lesser] = ([] : VictimQueue)) ∧
    (true = true → ∃ c k removed added,
      replacedGem (sampleConfig true true true true) (sampleCaster [52]).GetInventoryCounts
        (sampleCaster [52]) (_replaceItem (sampleCaster [52]) 53 52) c k SoulSize.Common
        removed added ∧
      (k = SoulSize.None → [Victim.ofSoulSize SoulSize.Lesser] = ([] : VictimQueue)) ∧
      (SoulSize.None < k →
        [Victim.ofSoulSize SoulSize.Lesser] = VictimQueue.emplace [] (Victim.ofSoulSize k) ∧
        (Victim.ofSoulSize k).soulSize = k ∧
        List.Perm [Victim.ofSoulSize SoulSize.Lesser] (Victim.ofSoulSize k :: []))) :=
  C20_trapFullSoul_queues_displaced_soul (sampleConfig true true true true) (sampleCaster [52])
    { soulSize := SoulSize.Common, isDisplacedSoul := false } true true []
    (sampleCaster [52]).GetInventoryCounts true (_replaceItem (sampleCaster [52]) 53 52)
    [Victim.ofSoulSize SoulSize.Lesser] rfl

/-! ## One turn of the loop, and the whole loop -/

/-- What one turn of the loop does for the only victim of the queue, when it does not throw:
either nothing changes and the queue stays empty, or one gem is replaced, the success flag is
set, and the queue is empty or holds the displaced soul, which was in the gem removed. -/
theorem processVictim_step (config : YASTMConfig) (p d r s : Bool) (caster : Actor)
    (success : Bool) (processed : List Victim) (victim : Victim) (next : LoopState)
    (h : processVictim config p d r s
      { caster := caster, victims := [], isSoulTrapSuccessful := success,
        processed := processed } victim = .ok next) :
    next.processed = processed ++ [victim] ∧
    ((next.caster = caster ∧ next.victims = [] ∧ next.isSoulTrapSuccessful = success) ∨
     (next.isSoulTrapSuccessful = true ∧ ∃ c k t removed added,
        fillOfTurn p d s victim c k t ∧
        replacedGem config caster.GetInventoryCounts caster next.caster c k t removed added ∧
        (next.victims = [] ∨
          (SoulSize.None < k ∧ next.victims = [Victim.ofSoulSize k])))) := by
  unfold processVictim at h
  simp only at h
  by_cases hb : victim.soulSize = SoulSize.Black
  · simp only [hb, if_true] at h
    cases hres : _trapBlackSoul config caster victim caster.GetInventoryCounts with
    | error f => rw [hres] at h; simp at h
    | ok res =>
      obtain ⟨b, caster2⟩ := res
      rw [hres] at h
      rcases trapBlackSoul_found config caster victim _ _ hres with
        ⟨h1, h2, _⟩ | ⟨h1, removed, added, h2⟩
      · simp only at h1 h2
        subst h1
        simp only [Except.ok.injEq] at h
        subst h
        exact ⟨rfl, Or.inl ⟨rfl, rfl, rfl⟩⟩
      · simp only at h1 h2
        subst h1
        simp only [Except.ok.injEq] at h
        subst h
        refine ⟨rfl, Or.inr ⟨rfl, SoulSize.Black, SoulSize.None, SoulSize.Black, removed,
          added, Or.inl ⟨hb, rfl, rfl, rfl⟩, ?_, Or.inl rfl⟩⟩
        rw [hb] at h2
        exact h2
  · simp only [hb, if_false] at h
    cases hres : _trapFullSoul config caster victim p d r [] caster.GetInventoryCounts with
    | error f => rw [hres] at h; simp at h
    | ok res =>
      obtain ⟨b, caster2, victims2⟩ := res
      rw [hres] at h
      rcases trapFullSoul_found config caster victim p d r [] _ _ hres with
        ⟨h1, _, _⟩ | ⟨h1, c, k, removed, added, g1, g2, g3, g4, g5, _⟩
      · simp only at h1
        subst h1
        simp only at h
        cases s with
        | false =>
          simp only [Bool.false_eq_true, if_false, Except.ok.injEq] at h
          subst h
          exact ⟨rfl, Or.inl ⟨rfl, rfl, rfl⟩⟩
        | true =>
          simp only [if_true] at h
          cases hres2 : _trapShrunkSoul config caster victim d caster.GetInventoryCounts []
            with
          | error f => rw [hres2] at h; simp at h
          | ok res2 =>
            obtain ⟨b2, caster3, victims3⟩ := res2
            rw [hres2] at h
            rcases trapShrunkSoul_found config caster victim d _ [] _ hres2 with
              ⟨e1, _, _⟩ | ⟨e1, c, k, removed, added, e2, e3, e4, e5, e6, _⟩
            · simp only at e1
              subst e1
              simp only [Except.ok.injEq] at h
              subst h
              exact ⟨rfl, Or.inl ⟨rfl, rfl, rfl⟩⟩
            · simp only at e1 e5 e6
              subst e1
              simp only [Except.ok.injEq] at h
              subst h
              refine ⟨rfl, Or.inr ⟨rfl, c, k, c, removed, added,
                Or.inr (Or.inr ⟨hb, rfl, e2, e3, e4, rfl⟩), e5, ?_⟩⟩
              by_cases hk : 0 < k
              · right
                refine ⟨hk, ?_⟩
                show victims3 = _
                rw [e6]
                simp [hk, VictimQueue.emplace]
              · left
                show victims3 = _
                rw [e6]
                simp [hk]
      · simp only at h1 g4 g5
        subst h1
        simp only [Except.ok.injEq] at h
        subst h
        refine ⟨rfl, Or.inr ⟨rfl, c, k, victim.soulSize, removed, added,
          Or.inr (Or.inl ⟨hb, g1, g2, g3, rfl⟩), g4, ?_⟩⟩
        by_cases hk : r = true ∧ 0 < k
        · right
          refine ⟨hk.2, ?_⟩
          show victims2 = _
          rw [g5]
          simp [afterFullFill, hk.1, hk.2, VictimQueue.emplace, toSoulSize]
        · left
          show victims2 = _
          rw [g5]
          unfold afterFullFill
          have : (r && decide (SoulSize.None < k)) = false := by
            cases r <;> simp at hk ⊢
            omega
          simp [this]

theorem processVictim_error_aligned (config : YASTMConfig) (halign : config.isAligned = true)
    (p d r s : Bool) (state : LoopState) (victim : Victim) (fault : Fault)
    (h : processVictim config p d r s state victim = .error fault) :
    fault = Fault.rangeError := by
  unfold processVictim at h
  simp only at h
  by_cases hb : victim.soulSize = SoulSize.Black
  · simp only [hb, if_true] at h
    cases hres : _trapBlackSoul config state.caster victim state.caster.GetInventoryCounts with
    | error f =>
      rw [hres] at h
      simp only [Except.error.injEq] at h
      subst h
      exact trapBlackSoul_error_aligned config halign _ victim _ f hres
    | ok res =>
      obtain ⟨b, caster2⟩ := res
      rw [hres] at h
      cases b <;> simp at h
  · simp only [hb, if_false] at h
    cases hres : _trapFullSoul config state.caster victim p d r state.victims
        state.caster.GetInventoryCounts with
    | error f =>
      rw [hres] at h
      simp only [Except.error.injEq] at h
      subst h
      exact (trapFullSoul_error_aligned config halign _ victim p d r _ _ f hres).1
    | ok res =>
      obtain ⟨b, caster2, victims2⟩ := res
      rw [hres] at h
      cases b with
      | true => simp at h
      | false =>
        simp only at h
        cases s with
        | false => simp at h
        | true =>
          simp only [if_true] at h
          cases hres2 : _trapShrunkSoul config state.caster victim d
              state.caster.GetInventoryCounts state.victims with
          | error f =>
            rw [hres2] at h
            simp only [Except.error.injEq] at h
            subst h
            exact (trapShrunkSoul_error_aligned config halign _ victim d _ _ f hres2).1
          | ok res2 =>
            obtain ⟨b2, caster3, victims3⟩ := res2
            rw [hres2] at h
            cases b2 <;> simp at h

/-- A displaced soul is smaller than the victim whose turn displaced it. -/
theorem fillOfTurn_displaced_lt (p d s : Bool) (victim : Victim) (c k t : Nat)
    (h : fillOfTurn p d s victim c k t) (hk : SoulSize.None < k) : k < victim.soulSize := by
  simp only [SoulSize.None] at hk
  rcases h with ⟨_, _, h3, _⟩ | ⟨_, _, _, h4, _⟩ | ⟨_, _, _, _, h5, _⟩
  · simp only [SoulSize.None] at h3
    omega
  · cases d <;> simp [SoulSize.Petty] at h4 <;> omega
  · cases d <;> simp [SoulSize.Petty] at h5 <;> omega

/-- The loop of `trapSoul`, started on one victim with fuel above the victim's soul size, ends
in an aligned configuration: when the queue is empty or when `std::range_error` is thrown; a
property that every turn keeps holds in the state it ends in. -/
theorem trapSoulLoop_run (config : YASTMConfig) (halign : config.isAligned = true)
    (p d r s : Bool) (I : LoopState → Prop)
    (hok : ∀ caster success processed victim next,
      I { caster := caster, victims := [victim], isSoulTrapSuccessful := success,
          processed := processed } →
      processVictim config p d r s
        { caster := caster, victims := [], isSoulTrapSuccessful := success,
          processed := processed } victim = .ok next → I next)
    (herr : ∀ caster success processed victim,
      I { caster := caster, victims := [victim], isSoulTrapSuccessful := success,
          processed := processed } →
      processVictim config p d r s
        { caster := caster, victims := [], isSoulTrapSuccessful := success,
          processed := processed } victim = .error Fault.rangeError →
      I { caster := caster, victims := [], isSoulTrapSuccessful := success,
          processed := processed ++ [victim] }) :
    ∀ (fuel : Nat) (caster : Actor) (success : Bool) (processed : List Victim)
      (victim : Victim), victim.soulSize + 2 ≤ fuel →
      I { caster := caster, victims := [victim], isSoulTrapSuccessful := success,
          processed := processed } →
      ∃ final, final.victims = [] ∧ I final ∧
        (trapSoulLoop config p d r s fuel
            { caster := caster, victims := [victim], isSoulTrapSuccessful := success,
              processed := processed } = (final, none) ∨
         trapSoulLoop config p d r s fuel
            { caster := caster, victims := [victim], isSoulTrapSuccessful := success,
              processed := processed } = (final, some Fault.rangeError)) := by
  intro fuel
  induction fuel with
  | zero => intro _ _ _ victim hf _; omega
  | succ n ih =>
    intro caster success processed victim hf hI
    cases hp : processVictim config p d r s
        { caster := caster, victims := [], isSoulTrapSuccessful := success,
          processed := processed } victim with
    | error f =>
      have hf2 := processVictim_error_aligned config halign p d r s _ victim f hp
      subst hf2
      refine ⟨_, rfl, herr caster success processed victim hI hp, Or.inr ?_⟩
      simp only [trapSoulLoop, hp]
    | ok next =>
      have hInext := hok caster success processed victim next hI hp
      obtain ⟨_, hcase⟩ := processVictim_step config p d r s caster success processed victim
        next hp
      have hq : next.victims = [] ∨ ∃ k, SoulSize.None < k ∧ k < victim.soulSize ∧
          next.victims = [Victim.ofSoulSize k] := by
        rcases hcase with ⟨_, h2, _⟩ | ⟨_, c, k, t, removed, added, h1, _, h3⟩
        · exact Or.inl h2
        · rcases h3 with h3 | ⟨h3, h4⟩
          · exact Or.inl h3
          · exact Or.inr ⟨k, h3, fillOfTurn_displaced_lt p d s victim c k t h1 h3, h4⟩
      have hunfold : trapSoulLoop config p d r s (n + 1)
          { caster := caster, victims := [victim], isSoulTrapSuccessful := success,
            processed := processed } = trapSoulLoop config p d r s n next := by
        simp only [trapSoulLoop, hp]
      rw [hunfold]
      rcases hq with hq | ⟨k, hk0, hk, hq⟩
      · obtain ⟨m, rfl⟩ : ∃ m, n = m + 1 := ⟨n - 1, by omega⟩
        refine ⟨next, hq, hInext, Or.inl ?_⟩
        simp only [trapSoulLoop, hq]
      · obtain ⟨nc, nv, ns, np⟩ := next
        simp only at hq
        subst hq
        exact ih nc ns np (Victim.ofSoulSize k) (by show k + 2 ≤ n; omega) hInext

/-! ## The inventory under `_replaceItem` -/

theorem replaceItem_inventory (actor : Actor) (added removed gem : Gem) :
    (_replaceItem actor added removed).inventory gem =
      if gem = removed then (if gem = added then actor.inventory gem + 1
        else actor.inventory gem) - 1
      else (if gem = added then actor.inventory gem + 1 else actor.inventory gem) := rfl

theorem replaceItem_replaced (actor : Actor) (added removed : Gem) :
    (_replaceItem actor added removed).replaced = actor.replaced ++ [(added, removed)] := rfl

theorem replaceItem_inventory_other (actor : Actor) (added removed gem : Gem)
    (ha : gem ≠ added) (hr : gem ≠ removed) :
    (_replaceItem actor added removed).inventory gem = actor.inventory gem := by
  rw [replaceItem_inventory]
  simp [ha, hr]

/-- Replacing an owned gem keeps the number of gems of any finite set that holds both gems. -/
theorem sum_replaceItem (S : Finset Gem) (actor : Actor) (added removed : Gem)
    (ha : added ∈ S) (hr : removed ∈ S) (hpos : 0 < actor.inventory removed) :
    ∑ gem ∈ S, (_replaceItem actor added removed).inventory gem =
      ∑ gem ∈ S, actor.inventory gem := by
  have h1 : ∑ gem ∈ S, (if gem = added then actor.inventory gem + 1 else actor.inventory gem) =
      ∑ gem ∈ S, actor.inventory gem + 1 := by
    have : ∀ gem ∈ S, (if gem = added then actor.inventory gem + 1 else actor.inventory gem) =
        actor.inventory gem + (if gem = added then 1 else 0) := by
      intro gem _
      split <;> simp
    rw [Finset.sum_congr rfl this, Finset.sum_add_distrib, Finset.sum_ite_eq' S added]
    simp [ha]
  have h2 : ∑ gem ∈ S, (_replaceItem actor added removed).inventory gem + 1 =
      ∑ gem ∈ S, (if gem = added then actor.inventory gem + 1 else actor.inventory gem) := by
    have : ∀ gem ∈ S, (if gem = added then actor.inventory gem + 1 else actor.inventory gem) =
        (_replaceItem actor added removed).inventory gem + (if gem = removed then 1 else 0) := by
      intro gem _
      rw [replaceItem_inventory]
      by_cases hg : gem = removed
      · subst hg
        by_cases hg2 : gem = added
        · simp [hg2]
        · simp [hg2]; omega
      · simp [hg]
    rw [Finset.sum_congr rfl this, Finset.sum_add_distrib, Finset.sum_ite_eq' S removed]
    simp [hr]
  omega

theorem getSoulGemsWith_mem_allGems (config : YASTMConfig) (c k : Nat) (gems : List Gem)
    (h : config.getSoulGemsWith c k = .ok gems) (gem : Gem) (hg : gem ∈ gems) :
    gem ∈ config.allGems ∧ (c ≠ SoulSize.Black → gem ∈ config.whiteGems) ∧
      (c = SoulSize.Black →
        gem ∈ config._blackSoulGemsEmpty ∨ gem ∈ config._blackSoulGemsFilled) := by
  unfold YASTMConfig.getSoulGemsWith at h
  split at h
  · simp at h
  · split at h
    · simp at h
    · split at h
      · rename_i hb
        split at h
        · injection h with h
          subst h
          exact ⟨by simp [YASTMConfig.allGems, hg], fun hne => absurd hb hne,
            fun _ => Or.inl hg⟩
        · split at h
          · injection h with h
            subst h
            exact ⟨by simp [YASTMConfig.allGems, hg], fun hne => absurd hb hne,
              fun _ => Or.inr hg⟩
          · simp at h
      · rename_i hb
        split at h
        · simp at h
        · rename_i variants hv
          split at h
          · simp at h
          · rename_i gems2 hg2
            injection h with h
            subst h
            have hw : gem ∈ config.whiteGems := by
              unfold YASTMConfig.whiteGems
              rw [List.mem_flatten]
              refine ⟨gems2, ?_, hg⟩
              rw [List.mem_flatten]
              exact ⟨variants, List.getElem?_mem hv, List.getElem?_mem hg2⟩
            exact ⟨by simp [YASTMConfig.allGems, hw], fun _ => hw, fun hb2 => absurd hb2 hb⟩

/-- Past the entry guards, in an aligned configuration and with fuel above the victim's soul
size, `trapSoul` returns; a property that every turn of its loop keeps holds for the state the
loop ends in, and the value returned is true only if the success flag is set. -/
theorem trapSoul_run (fuel : Nat) (config : YASTMConfig) (caster victimActor : Actor)
    (hfuel : victimActor.soulSize + 2 ≤ fuel) (halign : config.isAligned = true)
    (hc : caster.isDead = false) (hv : victimActor.isDead = true)
    (hst : victimActor.soulTrapVictimStatus ≠ 0) (I : LoopState → Prop)
    (hstart : I { caster := caster, victims := [Victim.ofActor victimActor],
                  isSoulTrapSuccessful := false, processed := [] })
    (hok : ∀ actor success processed victim next,
      I { caster := actor, victims := [victim], isSoulTrapSuccessful := success,
          processed := processed } →
      processVictim config config.isPartialFillsAllowed config.isSoulDisplacementAllowed
        config.isSoulRelocationAllowed config.isSoulShrinkingAllowed
        { caster := actor, victims := [], isSoulTrapSuccessful := success,
          processed := processed } victim = .ok next → I next)
    (herr : ∀ actor success processed victim,
      I { caster := actor, victims := [victim], isSoulTrapSuccessful := success,
          processed := processed } →
      processVictim config config.isPartialFillsAllowed config.isSoulDisplacementAllowed
        config.isSoulRelocationAllowed config.isSoulShrinkingAllowed
        { caster := actor, victims := [], isSoulTrapSuccessful := success,
          processed := processed } victim = .error Fault.rangeError →
      I { caster := actor, victims := [], isSoulTrapSuccessful := success,
          processed := processed ++ [victim] }) :
    ∃ outcome final, trapSoul fuel config (some caster) (some victimActor) = .ok outcome ∧
      final.victims = [] ∧ I final ∧ outcome.caster = some final.caster ∧
      outcome.processed = final.processed ∧
      (outcome.returned = true → final.isSoulTrapSuccessful = true) := by
  rw [trapSoul_past_guards fuel config caster victimActor hc hv hst]
  obtain ⟨final, hq, hI, hrun⟩ := trapSoulLoop_run config halign _ _ _ _ I hok herr fuel caster
    false [] (Victim.ofActor victimActor) hfuel hstart
  rcases hrun with hrun | hrun
  · rw [hrun]
    by_cases hs : final.isSoulTrapSuccessful = true
    · simp only [hs, if_true]
      exact ⟨_, final, rfl, hq, hI, rfl, rfl, fun _ => hs⟩
    · simp only [hs, if_false]
      exact ⟨_, final, rfl, hq, hI, rfl, rfl, fun h => absurd h (by simp)⟩
  · rw [hrun]
    exact ⟨_, final, rfl, hq, hI, rfl, rfl, fun h => absurd h (by simp)⟩

theorem trapSoul_guard_value (fuel : Nat) (config : YASTMConfig) (caster victimActor : Actor)
    (h : ¬ (caster.isDead = false ∧ victimActor.isDead = true ∧
      victimActor.soulTrapVictimStatus ≠ 0)) :
    trapSoul fuel config (some caster) (some victimActor) =
      .ok { returned := false, caster := some caster, victimActor := some victimActor,
            processed := [], caught := false } := by
  unfold trapSoul
  have hcond : (caster.isDead || !victimActor.isDead ||
      victimActor.soulTrapVictimStatus == 0) = true := by
    by_contra hcon
    apply h
    simp only [Bool.or_eq_true, Bool.not_eq_true', beq_iff_eq, not_or, Bool.not_eq_true,
      Bool.not_eq_false] at hcon
    exact ⟨hcon.1.1, hcon.1.2, hcon.2⟩
  simp only [hcond, if_true]

/-- C13: for every caster, victim and toggle setting, in an aligned configuration and with fuel
above the victim's soul size, `trapSoul` returns, and the number of gems that the caster holds
out of any finite set containing the gems of the configuration is what it was before. -/
theorem C13_trapSoul_conserves_gem_count (fuel : Nat) (config : YASTMConfig)
    (caster victimActor : Actor) (S : Finset Gem)
    (hfuel : victimActor.soulSize + 2 ≤ fuel) (halign : config.isAligned = true)
    (hS : ∀ gem ∈ config.allGems, gem ∈ S) :
    ∃ outcome after, trapSoul fuel config (some caster) (some victimActor) = .ok outcome ∧
      outcome.caster = some after ∧
      ∑ gem ∈ S, after.inventory gem = ∑ gem ∈ S, caster.inventory gem := by
  by_cases hg : caster.isDead = false ∧ victimActor.isDead = true ∧
      victimActor.soulTrapVictimStatus ≠ 0
  · obtain ⟨hc, hv, hst⟩ := hg
    obtain ⟨outcome, final, h1, _, hI, h3, _, _⟩ := trapSoul_run fuel config caster victimActor
      hfuel halign hc hv hst
      (fun state => ∑ gem ∈ S, state.caster.inventory gem = ∑ gem ∈ S, caster.inventory gem)
      rfl
      (by
        intro actor success processed victim next hI hp
        obtain ⟨_, hcase⟩ := processVictim_step config _ _ _ _ actor success processed victim
          next hp
        rcases hcase with ⟨h1, _, _⟩ | ⟨_, c, k, t, removed, added, _, hrep, _⟩
        · show ∑ gem ∈ S, next.caster.inventory gem = _
          rw [h1]
          exact hI
        · obtain ⟨src, tgt, i, hs, ht, hr, ha, hown, _, hafter⟩ := hrep
          show ∑ gem ∈ S, next.caster.inventory gem = _
          rw [hafter, sum_replaceItem S actor added removed
            (hS _ (getSoulGemsWith_mem_allGems config c t tgt ht added
              (List.getElem?_mem ha)).1)
            (hS _ (getSoulGemsWith_mem_allGems config c k src hs removed
              (List.getElem?_mem hr)).1)
            ((isOwned_GetInventoryCounts actor removed).mp hown)]
          exact hI)
      (by
        intro actor success processed victim hI _
        exact hI)
    exact ⟨outcome, final.caster, h1, h3, hI⟩
  · exact ⟨_, caster, trapSoul_guard_value fuel config caster victimActor hg, rfl, rfl⟩

theorem C13_trapSoul_conserves_gem_count_witness :
    ∃ outcome after,
      trapSoul 7 (sampleConfig true true true true) (some (sampleCaster [53, 30, 10]))
        (some (sampleVictim SoulSize.Grand)) = .ok outcome ∧
      outcome.caster = some after ∧
      ∑ gem ∈ Finset.range 100, after.inventory gem =
        ∑ gem ∈ Finset.range 100, (sampleCaster [53, 30, 10]).inventory gem :=
  C13_trapSoul_conserves_gem_count 7 (sampleConfig true true true true)
    (sampleCaster [53, 30, 10]) (sampleVictim SoulSize.Grand) (Finset.range 100)
    (by decide) (by decide) (by decide)

/-- C11: with shrinking disabled, in an aligned configuration, past the entry guards and with
fuel above the victim's soul size, `trapSoul` returns; every gem replaced during the call was
replaced for a processed victim of some size `s`: the gem removed and the gem added are gems of
lists of one capacity `c ≥ s`, and the list of the gem added holds souls of size `s`; and when the
caster owns no gem that `_trapBlackSoul` (for a Black victim) or `_trapFullSoul` (for a white one,
under the partial-fill and displacement toggles) can fill, the result is false and the caster is
unchanged. -/
theorem C11_no_shrinking_capacity_covers_soul (fuel : Nat) (config : YASTMConfig)
    (caster victimActor : Actor)
    (hfuel : victimActor.soulSize + 2 ≤ fuel) (halign : config.isAligned = true)
    (hc : caster.isDead = false) (hv : victimActor.isDead = true)
    (hst : victimActor.soulTrapVictimStatus ≠ 0)
    (hshrink : config.isSoulShrinkingAllowed = false) :
    ∃ outcome after new,
      trapSoul fuel config (some caster) (some victimActor) = .ok outcome ∧
      outcome.caster = some after ∧ after.replaced = caster.replaced ++ new ∧
      (∀ entry ∈ new, ∃ victim ∈ outcome.processed, ∃ c k,
        victim.soulSize ≤ c ∧ gemOfList config c k entry.2 ∧
        gemOfList config c victim.soulSize entry.1) ∧
      (((victimActor.soulSize = SoulSize.Black →
            ¬ ownsGemOf config caster.GetInventoryCounts SoulSize.Black SoulSize.None) ∧
          (victimActor.soulSize ≠ SoulSize.Black → ∀ c k,
            ¬ eligiblePair config caster.GetInventoryCounts victimActor.soulSize
              config.isPartialFillsAllowed config.isSoulDisplacementAllowed c k)) →
        outcome.returned = false ∧ after = caster) := by
  obtain ⟨outcome, final, h1, _, hI, h3, h4, h5⟩ := trapSoul_run fuel config caster victimActor
    hfuel halign hc hv hst
    (fun state =>
      (∃ new, state.caster.replaced = caster.replaced ++ new ∧
        ∀ entry ∈ new, ∃ victim ∈ state.processed, ∃ c k,
          victim.soulSize ≤ c ∧ gemOfList config c k entry.2 ∧
          gemOfList config c victim.soulSize entry.1) ∧
      (((victimActor.soulSize = SoulSize.Black →
            ¬ ownsGemOf config caster.GetInventoryCounts SoulSize.Black SoulSize.None) ∧
          (victimActor.soulSize ≠ SoulSize.Black → ∀ c k,
            ¬ eligiblePair config caster.GetInventoryCounts victimActor.soulSize
              config.isPartialFillsAllowed config.isSoulDisplacementAllowed c k)) →
        state.caster = caster ∧ state.isSoulTrapSuccessful = false ∧
        ∀ victim ∈ state.victims, victim = Victim.ofActor victimActor))
    ⟨⟨[], by simp, by simp⟩, fun _ => ⟨rfl, rfl, by simp⟩⟩
    (by
      intro actor success processed victim next hI hp
      obtain ⟨⟨new, hnew, hall⟩, hnofill⟩ := hI
      obtain ⟨hpr, hcase⟩ := processVictim_step config _ _ _ _ actor success processed victim
        next hp
      rcases hcase with ⟨e1, e2, e3⟩ | ⟨_, c, k, t, removed, added, hfill, hrep, _⟩
      · refine ⟨⟨new, by rw [e1]; exact hnew, ?_⟩, ?_⟩
        · intro entry he
          obtain ⟨v, hvm, rest⟩ := hall entry he
          exact ⟨v, by rw [hpr]; exact List.mem_append_left _ hvm, rest⟩
        · intro hno
          obtain ⟨g1, g2, _⟩ := hnofill hno
          exact ⟨by rw [e1]; exact g1, by rw [e3]; exact g2, by rw [e2]; simp⟩
      · have hcap : victim.soulSize ≤ c ∧ t = victim.soulSize ∧
            (k = SoulSize.None ∨ k < victim.soulSize) := by
          rcases hfill with ⟨f1, f2, f3, f4⟩ | ⟨_, f2, _, f4, f5⟩ | ⟨_, f2, _⟩
          · exact ⟨by rw [f1, f2], by rw [f1, f4], Or.inl f3⟩
          · refine ⟨f2, f5, ?_⟩
            cases hd : config.isSoulDisplacementAllowed
            · left
              rw [hd] at f4
              simp only [Bool.false_eq_true, if_false, SoulSize.Petty] at f4
              simp only [SoulSize.None]
              omega
            · right
              rw [hd] at f4
              simpa using f4
          · rw [hshrink] at f2
            exact absurd f2 (by simp)
        have hown := ownsGemOf_of_replacedGem config _ actor next.caster c k t _ _ hrep
        obtain ⟨src, tgt, i, hs, ht, hr, ha, _, _, hafter⟩ := hrep
        refine ⟨⟨new ++ [(added, removed)], ?_, ?_⟩, ?_⟩
        · rw [hafter, replaceItem_replaced, hnew, List.append_assoc]
        · intro entry he
          rcases List.mem_append.mp he with he | he
          · obtain ⟨v, hvm, rest⟩ := hall entry he
            exact ⟨v, by rw [hpr]; exact List.mem_append_left _ hvm, rest⟩
          · have he2 : entry = (added, removed) := by simpa using he
            subst he2
            refine ⟨victim, by rw [hpr]; simp, c, k, hcap.1, ⟨src, hs, List.getElem?_mem hr⟩,
              ?_⟩
            rw [← hcap.2.1]
            exact ⟨tgt, ht, List.getElem?_mem ha⟩
        · intro hno
          exfalso
          obtain ⟨g1, _, g3⟩ := hnofill hno
          have hvict : victim = Victim.ofActor victimActor := g3 victim (by simp)
          have g1b : actor = caster := g1
          subst g1b
          subst hvict
          rcases hfill with ⟨f1, f2, f3, _⟩ | ⟨f1, f2, f3, f4, _⟩ | ⟨_, f2, _⟩
          · rw [f2, f3] at hown
            exact hno.1 f1 hown
          · exact hno.2 f1 c k ⟨f2, f3, f4, hown⟩
          · rw [hshrink] at f2
            exact absurd f2 (by simp))
    (by
      intro actor success processed victim hI _
      obtain ⟨⟨new, hnew, hall⟩, hnofill⟩ := hI
      refine ⟨⟨new, hnew, ?_⟩, ?_⟩
      · intro entry he
        obtain ⟨v, hvm, rest⟩ := hall entry he
        exact ⟨v, List.mem_append_left _ hvm, rest⟩
      · intro hno
        obtain ⟨g1, g2, _⟩ := hnofill hno
        exact ⟨g1, g2, by simp⟩)
  obtain ⟨⟨new, hnew, hall⟩, hnofill⟩ := hI
  refine ⟨outcome, final.caster, new, h1, h3, hnew, ?_, ?_⟩
  · intro entry he
    obtain ⟨v, hvm, rest⟩ := hall entry he
    exact ⟨v, by rw [h4]; exact hvm, rest⟩
  · intro hno
    obtain ⟨g1, g2, _⟩ := hnofill hno
    refine ⟨?_, g1⟩
    cases hret : outcome.returned with
    | false => rfl
    | true =>
      have := h5 hret
      rw [g2] at this
      exact absurd this (by simp)

theorem C11_no_shrinking_capacity_covers_soul_witness :
    ∃ outcome after new,
      trapSoul 7 (sampleConfig true true true false) (some (sampleCaster [53, 40]))
        (some (sampleVictim SoulSize.Grand)) = .ok outcome ∧
      outcome.caster = some after ∧
      after.replaced = (sampleCaster [53, 40]).replaced ++ new ∧
      (∀ entry ∈ new, ∃ victim ∈ outcome.processed, ∃ c k,
        victim.soulSize ≤ c ∧ gemOfList (sampleConfig true true true false) c k entry.2 ∧
        gemOfList (sampleConfig true true true false) c victim.soulSize entry.1) ∧
      (((SoulSize.Grand = SoulSize.Black →
            ¬ ownsGemOf (sampleConfig true true true false)
              (sampleCaster [53, 40]).GetInventoryCounts SoulSize.Black SoulSize.None) ∧
          (SoulSize.Grand ≠ SoulSize.Black → ∀ c k,
            ¬ eligiblePair (sampleConfig true true true false)
              (sampleCaster [53, 40]).GetInventoryCounts SoulSize.Grand
              (sampleConfig true true true false).isPartialFillsAllowed
              (sampleConfig true true true false).isSoulDisplacementAllowed c k)) →
        outcome.returned = false ∧ after = sampleCaster [53, 40]) :=
  C11_no_shrinking_capacity_covers_soul 7 (sampleConfig true true true false)
    (sampleCaster [53, 40]) (sampleVictim SoulSize.Grand) (by decide) (by decide) rfl rfl
    (by decide) rfl

/-! ## Independence from the lists of the other colour -/

theorem forFirst_congr {σ : Type} (body body2 : Nat → Except Fault (Option σ)) :
    ∀ (count start : Nat), (∀ i, start ≤ i → i < start + count → body i = body2 i) →
      forFirst body start count = forFirst body2 start count := by
  intro count
  induction count with
  | zero => intro start _; rfl
  | succ n ih =>
    intro start h
    unfold forFirst
    rw [h start (le_refl _) (by omega), ih (start + 1) (fun i h1 h2 => h i (by omega) (by omega))]

theorem forFirstDown_congr {σ : Type} (body body2 : Nat → Except Fault (Option σ)) :
    ∀ (start : Nat), (∀ i, 1 ≤ i → i ≤ start → body i = body2 i) →
      forFirstDown body start = forFirstDown body2 start := by
  intro start
  induction start with
  | zero => intro _; rfl
  | succ n ih =>
    intro h
    unfold forFirstDown
    rw [h (n + 1) (by omega) (le_refl _), ih (fun i h1 h2 => h i h1 (by omega))]

theorem getSoulGemsWith_withBlackLists (config : YASTMConfig) (empty filled : List Gem)
    (c k : Nat) (hc : c ≠ SoulSize.Black) :
    (config.withBlackLists empty filled).getSoulGemsWith c k = config.getSoulGemsWith c k := by
  unfold YASTMConfig.getSoulGemsWith YASTMConfig.withBlackLists
  simp only [hc, if_false]

theorem trapFullSoul_withBlackLists (config : YASTMConfig) (empty filled : List Gem)
    (caster : Actor) (victim : Victim) (p d r : Bool) (victims : VictimQueue)
    (m : InventoryCountMap) (hs : victim.soulSize ≤ SoulSize.Grand) :
    _trapFullSoul (config.withBlackLists empty filled) caster victim p d r victims m =
      _trapFullSoul config caster victim p d r victims m := by
  have hcap : ∀ c, victim.soulSize ≤ c →
      c < victim.soulSize + ((if p then SoulSize.Grand else victim.soulSize) + 1 -
        victim.soulSize) → toSoulSize c ≠ SoulSize.Black := by
    intro c h1 h2
    simp only [SoulSize.Grand, SoulSize.Black, toSoulSize] at hs h2 ⊢
    cases p <;> simp at h2 <;> omega
  unfold _trapFullSoul
  dsimp only
  cases r with
  | true =>
    simp only [if_true]
    congr 1
    apply forFirst_congr
    intro c h1 h2
    dsimp only
    rw [getSoulGemsWith_withBlackLists config empty filled _ _ (hcap c h1 h2)]
    split
    · rfl
    · apply forFirst_congr
      intro k _ _
      dsimp only
      rw [getSoulGemsWith_withBlackLists config empty filled _ _ (hcap c h1 h2)]
  | false =>
    simp only [Bool.false_eq_true, if_false]
    congr 1
    apply forFirst_congr
    intro k _ _
    dsimp only
    apply forFirst_congr
    intro c h1 h2
    dsimp only
    unfold _fillSoulGemWith
    rw [getSoulGemsWith_withBlackLists config empty filled _ _ (hcap c h1 h2),
      getSoulGemsWith_withBlackLists config empty filled _ _ (hcap c h1 h2)]

theorem trapShrunkSoul_withBlackLists (config : YASTMConfig) (empty filled : List Gem)
    (caster : Actor) (victim : Victim) (d : Bool) (m : InventoryCountMap)
    (victims : VictimQueue) (hs : victim.soulSize ≤ SoulSize.Black) :
    _trapShrunkSoul (config.withBlackLists empty filled) caster victim d m victims =
      _trapShrunkSoul config caster victim d m victims := by
  have hcap : ∀ c, 1 ≤ c → c ≤ victim.soulSize - 1 → toSoulSize c ≠ SoulSize.Black := by
    intro c h1 h2
    simp only [SoulSize.Black, toSoulSize] at hs ⊢
    omega
  unfold _trapShrunkSoul
  dsimp only
  congr 1
  apply forFirstDown_congr
  intro c h1 h2
  dsimp only
  rw [getSoulGemsWith_withBlackLists config empty filled _ _ (hcap c h1 h2)]
  split
  · rfl
  · apply forFirst_congr
    intro k _ _
    dsimp only
    rw [getSoulGemsWith_withBlackLists config empty filled _ _ (hcap c h1 h2)]

theorem processVictim_withBlackLists (config : YASTMConfig) (empty filled : List Gem)
    (p d r s : Bool) (state : LoopState) (victim : Victim)
    (hs : victim.soulSize ≤ SoulSize.Grand) :
    processVictim (config.withBlackLists empty filled) p d r s state victim =
      processVictim config p d r s state victim := by
  have hb : victim.soulSize ≠ SoulSize.Black := by
    simp only [SoulSize.Grand, SoulSize.Black] at hs ⊢
    omega
  have hs6 : victim.soulSize ≤ SoulSize.Black := by
    simp only [SoulSize.Grand, SoulSize.Black] at hs ⊢
    omega
  unfold processVictim
  simp only [hb, if_false]
  rw [trapFullSoul_withBlackLists config empty filled _ victim p d r _ _ hs,
    trapShrunkSoul_withBlackLists config empty filled _ victim d _ _ hs6]

theorem trapSoulLoop_withBlackLists (config : YASTMConfig) (empty filled : List Gem)
    (p d r s : Bool) :
    ∀ (fuel : Nat) (caster : Actor) (success : Bool) (processed : List Victim)
      (victim : Victim), victim.soulSize ≤ SoulSize.Grand →
      trapSoulLoop (config.withBlackLists empty filled) p d r s fuel
        { caster := caster, victims := [victim], isSoulTrapSuccessful := success,
          processed := processed } =
      trapSoulLoop config p d r s fuel
        { caster := caster, victims := [victim], isSoulTrapSuccessful := success,
          processed := processed } := by
  intro fuel
  induction fuel with
  | zero => intro _ _ _ _ _; rfl
  | succ n ih =>
    intro caster success processed victim hs
    simp only [trapSoulLoop, processVictim_withBlackLists config empty filled p d r s _ victim hs]
    cases hp : processVictim config p d r s
        { caster := caster, victims := [], isSoulTrapSuccessful := success,
          processed := processed } victim with
    | error f => rfl
    | ok next =>
      dsimp only
      obtain ⟨_, hcase⟩ := processVictim_step config p d r s caster success processed victim
        next hp
      have hq : next.victims = [] ∨ ∃ k, k < victim.soulSize ∧
          next.victims = [Victim.ofSoulSize k] := by
        rcases hcase with ⟨_, h2, _⟩ | ⟨_, c, k, t, removed, added, h1, _, h3⟩
        · exact Or.inl h2
        · rcases h3 with h3 | ⟨h3, h4⟩
          · exact Or.inl h3
          · exact Or.inr ⟨k, fillOfTurn_displaced_lt p d s victim c k t h1 h3, h4⟩
      rcases hq with hq | ⟨k, hk, hq⟩
      · cases n with
        | zero => rfl
        | succ m => simp only [trapSoulLoop, hq]
      · obtain ⟨nc, nv, ns, np⟩ := next
        simp only at hq
        subst hq
        exact ih nc ns np (Victim.ofSoulSize k) (by
          show k ≤ SoulSize.Grand
          simp only [SoulSize.Grand] at hs ⊢
          omega)

/-- With a white victim `trapSoul` does not depend on the black lists of the configuration. -/
theorem trapSoul_withBlackLists (fuel : Nat) (config : YASTMConfig) (empty filled : List Gem)
    (caster victimActor : Actor) (hc : caster.isDead = false) (hv : victimActor.isDead = true)
    (hst : victimActor.soulTrapVictimStatus ≠ 0)
    (hs : victimActor.soulSize ≤ SoulSize.Grand) :
    trapSoul fuel (config.withBlackLists empty filled) (some caster) (some victimActor) =
      trapSoul fuel config (some caster) (some victimActor) := by
  rw [trapSoul_past_guards fuel config caster victimActor hc hv hst,
    trapSoul_past_guards fuel _ caster victimActor hc hv hst]
  have h := trapSoulLoop_withBlackLists config empty filled config.isPartialFillsAllowed
    config.isSoulDisplacementAllowed config.isSoulRelocationAllowed
    config.isSoulShrinkingAllowed fuel caster false [] (Victim.ofActor victimActor) hs
  have e1 : (config.withBlackLists empty filled).isPartialFillsAllowed =
      config.isPartialFillsAllowed := rfl
  have e2 : (config.withBlackLists empty filled).isSoulDisplacementAllowed =
      config.isSoulDisplacementAllowed := rfl
  have e3 : (config.withBlackLists empty filled).isSoulRelocationAllowed =
      config.isSoulRelocationAllowed := rfl
  have e4 : (config.withBlackLists empty filled).isSoulShrinkingAllowed =
      config.isSoulShrinkingAllowed := rfl
  rw [e1, e2, e3, e4, h]

/-- C12: past the entry guards. For a white victim `trapSoul` gives the same result whatever the
two black lists hold; and in an aligned configuration whose white gems are in neither black list,
with fuel above the soul size, it returns, every gem it removed or added is a gem of a list of
a capacity in Petty..Grand, and the count of every gem of the two black lists is unchanged. For
a Black victim it gives the same result whatever the white lists and the toggles are, and the
caster is either unchanged or has one gem of the empty-black list replaced by a gem of the
filled-black list. -/
theorem C12_white_and_black_gems_never_mix (fuel : Nat) (config : YASTMConfig)
    (caster victimActor : Actor) (hc : caster.isDead = false) (hv : victimActor.isDead = true)
    (hst : victimActor.soulTrapVictimStatus ≠ 0) :
    (SoulSize.Petty ≤ victimActor.soulSize → victimActor.soulSize ≤ SoulSize.Grand →
      (∀ empty filled,
        trapSoul fuel (config.withBlackLists empty filled) (some caster) (some victimActor) =
          trapSoul fuel config (some caster) (some victimActor)) ∧
      (config.isAligned = true → victimActor.soulSize + 2 ≤ fuel →
        (∀ gem ∈ config.whiteGems,
          gem ∉ config._blackSoulGemsEmpty ∧ gem ∉ config._blackSoulGemsFilled) →
        ∃ outcome after new,
          trapSoul fuel config (some caster) (some victimActor) = .ok outcome ∧
          outcome.caster = some after ∧ after.replaced = caster.replaced ++ new ∧
          (∀ entry ∈ new, ∃ c k t, SoulSize.Petty ≤ c ∧ c ≤ SoulSize.Grand ∧
            gemOfList config c k entry.2 ∧ gemOfList config c t entry.1) ∧
          (∀ gem, gem ∈ config._blackSoulGemsEmpty ∨ gem ∈ config._blackSoulGemsFilled →
            after.inventory gem = caster.inventory gem))) ∧
    (victimActor.soulSize = SoulSize.Black → 2 ≤ fuel →
      config._blackSoulGemsEmpty.length ≤ config._blackSoulGemsFilled.length →
      (∀ globals defaults white,
        trapSoul fuel (config.withWhiteLists globals defaults white) (some caster)
            (some victimActor) =
          trapSoul fuel config (some caster) (some victimActor)) ∧
      ∃ outcome after,
        trapSoul fuel config (some caster) (some victimActor) = .ok outcome ∧
        outcome.caster = some after ∧
        (after = caster ∨ ∃ removed added,
          removed ∈ config._blackSoulGemsEmpty ∧ added ∈ config._blackSoulGemsFilled ∧
          after = _replaceItem caster added removed)) := by
  refine ⟨fun hs1 hs5 => ⟨fun empty filled =>
    trapSoul_withBlackLists fuel config empty filled caster victimActor hc hv hst hs5, ?_⟩, ?_⟩
  · intro halign hfuel hdisj
    obtain ⟨outcome, final, h1, _, hI, h3, _, _⟩ := trapSoul_run fuel config caster
      victimActor hfuel halign hc hv hst
      (fun state =>
        (∃ new, state.caster.replaced = caster.replaced ++ new ∧
          ∀ entry ∈ new, ∃ c k t, SoulSize.Petty ≤ c ∧ c ≤ SoulSize.Grand ∧
            gemOfList config c k entry.2 ∧ gemOfList config c t entry.1) ∧
        (∀ gem, gem ∈ config._blackSoulGemsEmpty ∨ gem ∈ config._blackSoulGemsFilled →
          state.caster.inventory gem = caster.inventory gem) ∧
        (∀ victim ∈ state.victims,
          SoulSize.Petty ≤ victim.soulSize ∧ victim.soulSize ≤ SoulSize.Grand))
      ⟨⟨[], by simp, by simp⟩, fun _ _ => rfl, by
        intro victim hmem
        have : victim = Victim.ofActor victimActor := by simpa using hmem
        subst this
        exact ⟨hs1, hs5⟩⟩
      (by
        intro actor success processed victim next hI hp
        obtain ⟨⟨new, hnew, hall⟩, hblack, hwhite⟩ := hI
        obtain ⟨w1, w5⟩ := hwhite victim (by simp)
        obtain ⟨_, hcase⟩ := processVictim_step config _ _ _ _ actor success processed victim
          next hp
        rcases hcase with ⟨e1, e2, _⟩ | ⟨_, c, k, t, removed, added, hfill, hrep, hq⟩
        · refine ⟨⟨new, by rw [e1]; exact hnew, hall⟩, ?_, ?_⟩
          · intro gem hg
            rw [e1]
            exact hblack gem hg
          · rw [e2]
            simp
        · have hcap : SoulSize.Petty ≤ c ∧ c ≤ SoulSize.Grand := by
            simp only [SoulSize.Petty, SoulSize.Grand, SoulSize.Black] at w1 w5 ⊢
            rcases hfill with ⟨f1, _⟩ | ⟨_, f2, f3, _⟩ | ⟨_, _, f3, f4, _⟩
            · simp only [SoulSize.Black] at f1
              omega
            · cases hp2 : config.isPartialFillsAllowed
              · rw [hp2] at f3
                simp only [Bool.false_eq_true, if_false] at f3
                omega
              · rw [hp2] at f3
                simp only [if_true, SoulSize.Grand] at f3
                omega
            · simp only [SoulSize.Petty] at f3
              omega
          have hcb : c ≠ SoulSize.Black := by
            simp only [SoulSize.Grand, SoulSize.Black] at hcap ⊢
            omega
          obtain ⟨src, tgt, i, hs, ht, hr, ha, _, _, hafter⟩ := hrep
          have hremw := (getSoulGemsWith_mem_allGems config c k src hs removed
            (List.getElem?_mem hr)).2.1 hcb
          have haddw := (getSoulGemsWith_mem_allGems config c t tgt ht added
            (List.getElem?_mem ha)).2.1 hcb
          refine ⟨⟨new ++ [(added, removed)], ?_, ?_⟩, ?_, ?_⟩
          · rw [hafter, replaceItem_replaced, hnew, List.append_assoc]
          · intro entry he
            rcases List.mem_append.mp he with he | he
            · exact hall entry he
            · have he2 : entry = (added, removed) := by simpa using he
              subst he2
              exact ⟨c, k, t, hcap.1, hcap.2, ⟨src, hs, List.getElem?_mem hr⟩,
                ⟨tgt, ht, List.getElem?_mem ha⟩⟩
          · intro gem hg
            rw [hafter, replaceItem_inventory_other actor added removed gem]
            · exact hblack gem hg
            · rintro rfl
              rcases hg with hg | hg
              · exact (hdisj _ haddw).1 hg
              · exact (hdisj _ haddw).2 hg
            · rintro rfl
              rcases hg with hg | hg
              · exact (hdisj _ hremw).1 hg
              · exact (hdisj _ hremw).2 hg
          · intro w hw
            rcases hq with hq | ⟨hk0, hq⟩
            · rw [hq] at hw
              simp at hw
            · rw [hq] at hw
              have hw2 : w = Victim.ofSoulSize k := by simpa using hw
              subst hw2
              have hlt := fillOfTurn_displaced_lt _ _ _ victim c k t hfill hk0
              show SoulSize.Petty ≤ k ∧ k ≤ SoulSize.Grand
              simp only [SoulSize.None, SoulSize.Petty, SoulSize.Grand] at hk0 w5 ⊢
              omega)
      (by
        intro actor success processed victim hI _
        obtain ⟨hlog, hblack, _⟩ := hI
        exact ⟨hlog, hblack, by simp⟩)
    obtain ⟨⟨new, hnew, hall⟩, hblack, _⟩ := hI
    exact ⟨outcome, final.caster, new, h1, h3, hnew, hall, hblack⟩
  · intro hblack hfuel hlen
    obtain ⟨⟨b, caster2⟩, hfill⟩ := fillSoulGem_total caster config._blackSoulGemsEmpty
      config._blackSoulGemsFilled caster.GetInventoryCounts hlen
    have hval := trapSoul_black_value fuel config caster victimActor hfuel hc hv hst hblack b
      caster2 hfill
    refine ⟨fun globals defaults white => ?_, _, caster2, hval, rfl, ?_⟩
    · rw [hval]
      exact trapSoul_black_value fuel (config.withWhiteLists globals defaults white) caster
        victimActor hfuel hc hv hst hblack b caster2 hfill
    · cases b with
      | false => exact Or.inl (fillSoulGem_inv_false _ _ _ _ _ hfill).1
      | true =>
        obtain ⟨i, removed, added, g1, g2, _, _, g5⟩ := fillSoulGem_inv_true _ _ _ _ _ hfill
        exact Or.inr ⟨removed, added, List.getElem?_mem g1, List.getElem?_mem g2, g5⟩

theorem C12_white_and_black_gems_never_mix_witness :
    ∃ outcome after new,
      trapSoul 7 (sampleConfig true true true true) (some (sampleCaster [53, 30, 60]))
        (some (sampleVictim SoulSize.Grand)) = .ok outcome ∧
      outcome.caster = some after ∧
      after.replaced = (sampleCaster [53, 30, 60]).replaced ++ new ∧
      (∀ entry ∈ new, ∃ c k t, SoulSize.Petty ≤ c ∧ c ≤ SoulSize.Grand ∧
        gemOfList (sampleConfig true true true true) c k entry.2 ∧
        gemOfList (sampleConfig true true true true) c t entry.1) ∧
      (∀ gem, gem ∈ (sampleConfig true true true true)._blackSoulGemsEmpty ∨
          gem ∈ (sampleConfig true true true true)._blackSoulGemsFilled →
        after.inventory gem = (sampleCaster [53, 30, 60]).inventory gem) :=
  ((C12_white_and_black_gems_never_mix 7 (sampleConfig true true true true)
    (sampleCaster [53, 30, 60]) (sampleVictim SoulSize.Grand) rfl rfl (by decide)).1
    (by decide) (by decide)).2 (by decide) (by decide) (by decide)

/-- C12, as stated, fails where a form is listed in both colours: the two-colour sample groups
pass `_isValidConfig` and are mapped to an aligned configuration in which gem `60` is in the list
of the empty black gems; for a Grand victim and a caster who owns gem `60`, `trapSoul` returns
true and the count of gem `60` goes from 1 to 0. -/
theorem C12_gem_listed_in_both_colours_counterexample :
    _isValidConfig sampleTwoColourGroups sampleDataHandler = true ∧
    _createSoulGemMap (sampleUnmapped true true true true) sampleTwoColourGroups
      sampleDataHandler = .ok sampleTwoColourConfig ∧
    sampleTwoColourConfig.isAligned = true ∧
    60 ∈ sampleTwoColourConfig._blackSoulGemsEmpty ∧
    (sampleVictim SoulSize.Grand).soulSize = SoulSize.Grand ∧
    ∃ outcome after,
      trapSoul 7 sampleTwoColourConfig (some (sampleCaster [60]))
        (some (sampleVictim SoulSize.Grand)) = .ok outcome ∧
      outcome.returned = true ∧ outcome.caster = some after ∧
      (sampleCaster [60]).inventory 60 = 1 ∧ after.inventory 60 = 0 ∧
      after.inventory 60 ≠ (sampleCaster [60]).inventory 60 :=
  ⟨by decide, rfl, by decide, by decide, rfl, _, _, rfl, rfl, rfl, rfl, rfl, by decide⟩

/-! ## The first owned gem and the fill -/

/-- C23: `_indexOfFirstOwnedObjectInList` returns -1 exactly when no listed object is in the count
map with a count above 0; it returns `i` exactly when `objectsToSearch[i]` is in the map with a
count above 0 and no object at a smaller index is; the value is -1 or an index of the list; and
an object in the map with count 0 is not owned. -/
theorem C23_indexOfFirstOwnedObjectInList_least (inventoryCountMap : InventoryCountMap)
    (objectsToSearch : List Gem) :
    (_indexOfFirstOwnedObjectInList inventoryCountMap objectsToSearch = -1 ↔
      ∀ gem ∈ objectsToSearch, ¬ ∃ count, inventoryCountMap gem = some count ∧ 0 < count) ∧
    (∀ i : Nat, _indexOfFirstOwnedObjectInList inventoryCountMap objectsToSearch = (i : Int) ↔
      (∃ gem count, objectsToSearch[i]? = some gem ∧ inventoryCountMap gem = some count ∧
        0 < count) ∧
      ∀ (j : Nat) (gem : Gem), j < i → objectsToSearch[j]? = some gem →
        ¬ ∃ count, inventoryCountMap gem = some count ∧ 0 < count) ∧
    (_indexOfFirstOwnedObjectInList inventoryCountMap objectsToSearch = -1 ∨
      ∃ i : Nat, i < objectsToSearch.length ∧
        _indexOfFirstOwnedObjectInList inventoryCountMap objectsToSearch = (i : Int)) ∧
    (∀ gem, inventoryCountMap gem = some 0 → isOwned inventoryCountMap gem = false) := by
  have hown : ∀ gem, isOwned inventoryCountMap gem = false ↔
      ¬ ∃ count, inventoryCountMap gem = some count ∧ 0 < count := by
    intro gem
    rw [← isOwned_iff]
    simp
  unfold _indexOfFirstOwnedObjectInList
  rcases indexOfFirstOwnedFrom_spec inventoryCountMap objectsToSearch 0 with
    ⟨h1, h2⟩ | ⟨j, g, h1, h2, h3, h4⟩
  · refine ⟨?_, ?_, Or.inl h1, ?_⟩
    · rw [h1]
      simp only [true_iff]
      exact fun gem hg => (hown gem).mp (h2 gem hg)
    · intro i
      rw [h1]
      constructor
      · intro h
        omega
      · rintro ⟨⟨gem, count, hg, hc, hpos⟩, _⟩
        exact absurd ⟨count, hc, hpos⟩ ((hown gem).mp (h2 gem (List.getElem?_mem hg)))
    · intro gem h0
      simp [isOwned, h0]
  · simp only [Nat.zero_add] at h1
    have hjlt : j < objectsToSearch.length := by
      rcases Nat.lt_or_ge j objectsToSearch.length with h | h
      · exact h
      · rw [List.getElem?_eq_none h] at h2
        simp at h2
    have hgown : ∃ count, inventoryCountMap g = some count ∧ 0 < count :=
      (isOwned_iff inventoryCountMap g).mp h3
    refine ⟨?_, ?_, Or.inr ⟨j, hjlt, h1⟩, ?_⟩
    · rw [h1]
      constructor
      · intro h
        omega
      · intro h
        exact absurd hgown (h g (List.getElem?_mem h2))
    · intro i
      rw [h1]
      constructor
      · intro h
        have hij : j = i := by omega
        subst hij
        obtain ⟨count, hc, hpos⟩ := hgown
        exact ⟨⟨g, count, h2, hc, hpos⟩, fun j2 gem hj hg => (hown gem).mp (h4 j2 gem hj hg)⟩
      · rintro ⟨⟨gem, count, hg, hc, hpos⟩, hbefore⟩
        rcases Nat.lt_trichotomy i j with h | h | h
        · exact absurd ⟨count, hc, hpos⟩ ((hown gem).mp (h4 i gem h hg))
        · rw [h]
        · exact absurd hgown (hbefore j g h h2)
    · intro gem h0
      simp [isOwned, h0]

/-- C22: on the caster's own count map and with a target list at least as long as the source
list, `_fillSoulGem` returns; the result is true exactly when the caster holds a gem of the
source list; when true, with `i` the least index of a held source gem, the count of every gem
changes by +1 if it is `targetSoulGems[i]` and by -1 if it is `sourceSoulGems[i]` and not
otherwise; when false the caster is unchanged. -/
theorem C22_fillSoulGem_frame (caster : Actor) (sourceSoulGems targetSoulGems : List Gem)
    (hlen : sourceSoulGems.length ≤ targetSoulGems.length) :
    ∃ result after,
      _fillSoulGem caster sourceSoulGems targetSoulGems caster.GetInventoryCounts =
        .ok (result, after) ∧
      (result = true ↔ ∃ gem ∈ sourceSoulGems, 0 < caster.inventory gem) ∧
      (result = true → ∃ (i : Nat) (removed added : Gem),
        sourceSoulGems[i]? = some removed ∧ targetSoulGems[i]? = some added ∧
        0 < caster.inventory removed ∧
        (∀ (j : Nat) (gem : Gem), j < i → sourceSoulGems[j]? = some gem →
          caster.inventory gem = 0) ∧
        ∀ gem, after.inventory gem + (if gem = removed then 1 else 0) =
          caster.inventory gem + (if gem = added then 1 else 0)) ∧
      (result = false → after = caster) := by
  obtain ⟨⟨b, after⟩, hfill⟩ := fillSoulGem_total caster sourceSoulGems targetSoulGems
    caster.GetInventoryCounts hlen
  refine ⟨b, after, hfill, ?_, ?_, ?_⟩
  · cases b with
    | true =>
      obtain ⟨i, removed, added, h1, _, h3, _, _⟩ := fillSoulGem_inv_true _ _ _ _ _ hfill
      simp only [true_iff]
      exact ⟨removed, List.getElem?_mem h1, (isOwned_GetInventoryCounts caster removed).mp h3⟩
    | false =>
      obtain ⟨_, hno⟩ := fillSoulGem_inv_false _ _ _ _ _ hfill
      simp only [Bool.false_eq_true, false_iff]
      rintro ⟨gem, hmem, hpos⟩
      have := (isOwned_GetInventoryCounts caster gem).mpr hpos
      rw [hno gem hmem] at this
      exact Bool.noConfusion this
  · intro hb
    subst hb
    obtain ⟨i, removed, added, h1, h2, h3, h4, h5⟩ := fillSoulGem_inv_true _ _ _ _ _ hfill
    have hpos := (isOwned_GetInventoryCounts caster removed).mp h3
    refine ⟨i, removed, added, h1, h2, hpos, ?_, ?_⟩
    · intro j gem hj hg
      have h := h4 j gem hj hg
      by_contra hne
      have := (isOwned_GetInventoryCounts caster gem).mpr (by omega)
      rw [h] at this
      exact Bool.noConfusion this
    · intro gem
      rw [h5, replaceItem_inventory]
      by_cases hr : gem = removed
      · subst hr
        by_cases ha : gem = added
        · simp [ha]
        · simp [ha]
          omega
      · simp only [hr, if_false, Nat.add_zero]
        by_cases ha : gem = added
        · simp [ha]
        · simp [ha]
  · intro hb
    subst hb
    exact (fillSoulGem_inv_false _ _ _ _ _ hfill).1

theorem C22_fillSoulGem_frame_witness :
    ∃ result after,
      _fillSoulGem (sampleCaster [21, 22]) [20, 21, 22] [30, 31, 32]
        (sampleCaster [21, 22]).GetInventoryCounts = .ok (result, after) ∧
      (result = true ↔ ∃ gem ∈ [20, 21, 22], 0 < (sampleCaster [21, 22]).inventory gem) ∧
      (result = true → ∃ (i : Nat) (removed added : Gem),
        [20, 21, 22][i]? = some removed ∧ [30, 31, 32][i]? = some added ∧
        0 < (sampleCaster [21, 22]).inventory removed ∧
        (∀ (j : Nat) (gem : Gem), j < i → [20, 21, 22][j]? = some gem →
          (sampleCaster [21, 22]).inventory gem = 0) ∧
        ∀ gem, after.inventory gem + (if gem = removed then 1 else 0) =
          (sampleCaster [21, 22]).inventory gem + (if gem = added then 1 else 0)) ∧
      (result = false → after = sampleCaster [21, 22]) :=
  C22_fillSoulGem_frame (sampleCaster [21, 22]) [20, 21, 22] [30, 31, 32] (by decide)

/-- C25 at its failing input: a Common victim, displacement and shrinking allowed, and a caster
without gems. `_trapFullSoul` makes only valid lookups and finds nothing; `_trapShrunkSoul`, at
capacity Petty, passes the contained size Lesser to `getSoulGemsWith`, which rejects the pair and
throws `std::range_error`; `trapSoul` catches it. -/
theorem C25_shrink_search_raises_range_error :
    isValidContainedSoulSize SoulSize.Petty SoulSize.Lesser = false ∧
    YASTMConfig.getSoulGemsWith (sampleConfig true true true true) SoulSize.Petty
      SoulSize.Lesser = .error Fault.rangeError ∧
    _trapFullSoul (sampleConfig true true true true) (sampleCaster [])
      { soulSize := SoulSize.Common, isDisplacedSoul := false } true true true []
      (sampleCaster []).GetInventoryCounts = .ok (false, sampleCaster [], []) ∧
    _trapShrunkSoul (sampleConfig true true true true) (sampleCaster [])
      { soulSize := SoulSize.Common, isDisplacedSoul := false } true
      (sampleCaster []).GetInventoryCounts [] = .error Fault.rangeError ∧
    ∃ outcome, trapSoul 8 (sampleConfig true true true true) (some (sampleCaster []))
        (some (sampleVictim SoulSize.Common)) = .ok outcome ∧
      outcome.caught = true ∧ outcome.returned = false :=
  ⟨rfl, rfl, rfl, rfl, _, rfl, rfl, rfl⟩

/-! ## The length of the victim loop -/

/-- One turn of the loop leaves the queue as it was after the pop, or puts one soul on it, which
is smaller than the victim of the turn. -/
theorem processVictim_queue (config : YASTMConfig) (p d r s : Bool) (state : LoopState)
    (victim : Victim) (next : LoopState)
    (h : processVictim config p d r s state victim = .ok next) :
    next.processed = state.processed ++ [victim] ∧
    (next.victims = state.victims ∨
      ∃ k, SoulSize.None < k ∧ k < victim.soulSize ∧
        next.victims = state.victims.emplace (Victim.ofSoulSize k)) := by
  unfold processVictim at h
  simp only at h
  by_cases hb : victim.soulSize = SoulSize.Black
  · simp only [hb, if_true] at h
    cases hres : _trapBlackSoul config state.caster victim state.caster.GetInventoryCounts with
    | error f => rw [hres] at h; simp at h
    | ok res =>
      obtain ⟨b, caster2⟩ := res
      rw [hres] at h
      cases b with
      | true =>
        simp only [Except.ok.injEq] at h
        subst h
        exact ⟨rfl, Or.inl rfl⟩
      | false =>
        simp only [Except.ok.injEq] at h
        subst h
        exact ⟨rfl, Or.inl rfl⟩
  · simp only [hb, if_false] at h
    cases hres : _trapFullSoul config state.caster victim p d r state.victims
        state.caster.GetInventoryCounts with
    | error f => rw [hres] at h; simp at h
    | ok res =>
      obtain ⟨b, caster2, victims2⟩ := res
      rw [hres] at h
      rcases trapFullSoul_found config state.caster victim p d r state.victims _ _ hres with
        ⟨h1, _, _⟩ | ⟨h1, c, k, removed, added, g1, g2, g3, g4, g5, _⟩
      · simp only at h1
        subst h1
        simp only at h
        cases s with
        | false =>
          simp only [Bool.false_eq_true, if_false, Except.ok.injEq] at h
          subst h
          exact ⟨rfl, Or.inl rfl⟩
        | true =>
          simp only [if_true] at h
          cases hres2 : _trapShrunkSoul config state.caster victim d
              state.caster.GetInventoryCounts state.victims with
          | error f => rw [hres2] at h; simp at h
          | ok res2 =>
            obtain ⟨b2, caster3, victims3⟩ := res2
            rw [hres2] at h
            rcases trapShrunkSoul_found config state.caster victim d _ state.victims _ hres2
              with ⟨e1, _, _⟩ | ⟨e1, c, k, removed, added, e2, e3, e4, e5, e6, _⟩
            · simp only at e1
              subst e1
              simp only [Except.ok.injEq] at h
              subst h
              exact ⟨rfl, Or.inl rfl⟩
            · simp only at e1 e6
              subst e1
              simp only [Except.ok.injEq] at h
              subst h
              refine ⟨rfl, ?_⟩
              by_cases hk : 0 < k
              · right
                refine ⟨k, hk, ?_, ?_⟩
                · cases d <;> simp [SoulSize.Petty] at e4 <;> omega
                · show victims3 = _
                  rw [e6]
                  simp [hk]
              · left
                show victims3 = _
                rw [e6]
                simp [hk]
      · simp only at h1 g5
        subst h1
        simp only [Except.ok.injEq] at h
        subst h
        refine ⟨rfl, ?_⟩
        by_cases hk : r = true ∧ 0 < k
        · right
          refine ⟨k, hk.2, ?_, ?_⟩
          · cases d <;> simp [SoulSize.Petty] at g3 <;> omega
          · show victims2 = _
            rw [g5]
            simp [afterFullFill, hk.1, hk.2, toSoulSize]
        · left
          show victims2 = _
          rw [g5]
          unfold afterFullFill
          have : (r && decide (SoulSize.None < k)) = false := by
            cases r <;> simp at hk ⊢
            omega
          simp [this]

/-- From a state whose queue holds at most one victim, every state in which the loop condition
is evaluated has a queue of at most one victim. -/
theorem trapSoulLoopTrace_queue (config : YASTMConfig) (p d r s : Bool) :
    ∀ (fuel : Nat) (state : LoopState), state.victims.length ≤ 1 →
      ∀ st ∈ trapSoulLoopTrace config p d r s fuel state, st.victims.length ≤ 1 := by
  intro fuel
  induction fuel with
  | zero =>
    intro state hq st hst
    simp only [trapSoulLoopTrace, List.mem_singleton] at hst
    rw [hst]
    exact hq
  | succ fuel ih =>
    intro state hq st hst
    unfold trapSoulLoopTrace at hst
    rcases List.mem_cons.mp hst with hst | hst
    · rw [hst]
      exact hq
    · cases hv : state.victims with
      | nil =>
        rw [hv] at hst
        simp at hst
      | cons victim rest =>
        rw [hv] at hst
        have hrest : rest = [] := by
          rw [hv] at hq
          simp only [List.length_cons] at hq
          exact List.length_eq_zero.mp (by omega)
        subst hrest
        simp only at hst
        cases hp : processVictim config p d r s { state with victims := [] } victim with
        | error f =>
          rw [hp] at hst
          simp at hst
        | ok next =>
          rw [hp] at hst
          simp only at hst
          obtain ⟨_, hnext⟩ := processVictim_queue config p d r s _ victim next hp
          refine ih next ?_ st hst
          rcases hnext with hnext | ⟨k, _, _, hnext⟩
          · rw [hnext]
            simp
          · rw [hnext]
            simp [VictimQueue.emplace]

/-- When the loop is left through its condition, the state it is left in is the last state in
which the condition was evaluated. -/
theorem trapSoulLoop_mem_trace (config : YASTMConfig) (p d r s : Bool) :
    ∀ (fuel : Nat) (state final : LoopState),
      trapSoulLoop config p d r s fuel state = (final, none) →
      final ∈ trapSoulLoopTrace config p d r s fuel state := by
  intro fuel
  induction fuel with
  | zero =>
    intro state final h
    simp [trapSoulLoop] at h
  | succ fuel ih =>
    intro state final h
    unfold trapSoulLoop at h
    unfold trapSoulLoopTrace
    cases hv : state.victims with
    | nil =>
      rw [hv] at h
      simp only [Prod.mk.injEq, and_true] at h
      rw [h]
      exact List.mem_cons_self _ _
    | cons victim rest =>
      rw [hv] at h
      simp only at h ⊢
      cases hp : processVictim config p d r s { state with victims := rest } victim with
      | error f =>
        rw [hp] at h
        simp at h
      | ok next =>
        rw [hp] at h
        simp only at h ⊢
        exact List.mem_cons_of_mem _ (ih next final h)

/-- C21: in an aligned configuration, past the entry guards, for a victim of soul size `s` at
least Petty and with fuel `s + 2`: a turn of the loop leaves the queue as the pop left it or
queues one soul, strictly smaller than the victim of the turn; the queue holds at most one victim
whenever the loop condition is evaluated; `trapSoul` returns, and the loop body ran at most `s`
times, hence at most 5 times for a white victim, and exactly once for a Black victim. -/
theorem C21_trapSoul_loop_runs_at_most_soul_size_times (fuel : Nat) (config : YASTMConfig)
    (caster victimActor : Actor)
    (hfuel : victimActor.soulSize + 2 ≤ fuel) (halign : config.isAligned = true)
    (hc : caster.isDead = false) (hv : victimActor.isDead = true)
    (hst : victimActor.soulTrapVictimStatus ≠ 0)
    (hsize : SoulSize.Petty ≤ victimActor.soulSize) :
    (∀ (state : LoopState) (victim : Victim) (next : LoopState),
      processVictim config config.isPartialFillsAllowed config.isSoulDisplacementAllowed
        config.isSoulRelocationAllowed config.isSoulShrinkingAllowed state victim = .ok next →
      next.victims = state.victims ∨
        ∃ k, SoulSize.None < k ∧ k < victim.soulSize ∧
          next.victims = state.victims.emplace (Victim.ofSoulSize k)) ∧
    (∀ st ∈ trapSoulLoopTrace config config.isPartialFillsAllowed
        config.isSoulDisplacementAllowed config.isSoulRelocationAllowed
        config.isSoulShrinkingAllowed fuel
        { caster := caster, victims := VictimQueue.emplace [] (Victim.ofActor victimActor),
          isSoulTrapSuccessful := false, processed := [] },
      st.victims.length ≤ 1) ∧
    ∃ outcome, trapSoul fuel config (some caster) (some victimActor) = .ok outcome ∧
      outcome.processed.length ≤ victimActor.soulSize ∧
      (victimActor.soulSize ≤ SoulSize.Grand → outcome.processed.length ≤ 5) ∧
      (victimActor.soulSize = SoulSize.Black → outcome.processed.length = 1) := by
  refine ⟨fun state victim next h =>
      (processVictim_queue config _ _ _ _ state victim next h).2,
    trapSoulLoopTrace_queue config _ _ _ _ fuel _ (by simp [VictimQueue.emplace]), ?_⟩
  obtain ⟨outcome, final, h1, _, hI, _, h4, _⟩ := trapSoul_run fuel config caster victimActor
    hfuel halign hc hv hst
    (fun state => (∀ v ∈ state.victims, 1 ≤ v.soulSize ∧
        state.processed.length + v.soulSize ≤ victimActor.soulSize) ∧
      state.processed.length ≤ victimActor.soulSize)
    (by
      simp only [SoulSize.Petty] at hsize
      refine ⟨?_, Nat.zero_le _⟩
      intro v hvm
      simp only [List.mem_singleton] at hvm
      subst hvm
      simp only [Victim.ofActor, List.length_nil]
      omega)
    (by
      intro actor success processed victim next hI hp
      obtain ⟨hproc, hq⟩ := processVictim_queue config _ _ _ _ _ victim next hp
      obtain ⟨hv1, hv2⟩ := hI.1 victim (List.mem_singleton.mpr rfl)
      simp only at hv2 hproc hq
      have hlen : next.processed.length = processed.length + 1 := by
        rw [hproc]
        simp
      refine ⟨?_, by omega⟩
      intro v hvm
      rcases hq with hq | ⟨k, hk1, hk2, hq⟩
      · rw [hq] at hvm
        simp at hvm
      · rw [hq] at hvm
        simp only [VictimQueue.emplace, List.mem_singleton] at hvm
        subst hvm
        simp only [Victim.ofSoulSize, SoulSize.None] at hk1 ⊢
        omega)
    (by
      intro actor success processed victim hI _
      obtain ⟨hv1, hv2⟩ := hI.1 victim (List.mem_singleton.mpr rfl)
      simp only at hv2
      refine ⟨by simp, ?_⟩
      simp only [List.length_append, List.length_singleton]
      omega)
  refine ⟨outcome, h1, ?_, ?_, ?_⟩
  · rw [h4]
    exact hI.2
  · intro hg
    simp only [SoulSize.Grand] at hg
    rw [h4]
    have := hI.2
    omega
  · intro hblack
    obtain ⟨⟨b, caster2⟩, hfill⟩ := fillSoulGem_total caster config._blackSoulGemsEmpty
      config._blackSoulGemsFilled caster.GetInventoryCounts
      (le_of_eq (isAligned_black config halign))
    have h2 := trapSoul_black_value fuel config caster victimActor (by omega) hc hv hst hblack
      b caster2 hfill
    rw [h1] at h2
    simp only [Except.ok.injEq] at h2
    rw [h2]
    rfl

theorem C21_trapSoul_loop_runs_at_most_soul_size_times_witness :
    (∀ (state : LoopState) (victim : Victim) (next : LoopState),
      processVictim (sampleConfig true true true false)
        (sampleConfig true true true false).isPartialFillsAllowed
        (sampleConfig true true true false).isSoulDisplacementAllowed
        (sampleConfig true true true false).isSoulRelocationAllowed
        (sampleConfig true true true false).isSoulShrinkingAllowed state victim = .ok next →
      next.victims = state.victims ∨
        ∃ k, SoulSize.None < k ∧ k < victim.soulSize ∧
          next.victims = state.victims.emplace (Victim.ofSoulSize k)) ∧
    (∀ st ∈ trapSoulLoopTrace (sampleConfig true true true false)
        (sampleConfig true true true false).isPartialFillsAllowed
        (sampleConfig true true true false).isSoulDisplacementAllowed
        (sampleConfig true true true false).isSoulRelocationAllowed
        (sampleConfig true true true false).isSoulShrinkingAllowed 7
        { caster := sampleCaster [53, 52, 20],
          victims := VictimQueue.emplace [] (Victim.ofActor (sampleVictim SoulSize.Grand)),
          isSoulTrapSuccessful := false, processed := [] },
      st.victims.length ≤ 1) ∧
    ∃ outcome, trapSoul 7 (sampleConfig true true true false) (some (sampleCaster [53, 52, 20]))
        (some (sampleVictim SoulSize.Grand)) = .ok outcome ∧
      outcome.processed.length ≤ (sampleVictim SoulSize.Grand).soulSize ∧
      ((sampleVictim SoulSize.Grand).soulSize ≤ SoulSize.Grand →
        outcome.processed.length ≤ 5) ∧
      ((sampleVictim SoulSize.Grand).soulSize = SoulSize.Black →
        outcome.processed.length = 1) :=
  C21_trapSoul_loop_runs_at_most_soul_size_times 7 (sampleConfig true true true false)
    (sampleCaster [53, 52, 20]) (sampleVictim SoulSize.Grand) (by decide) (by decide)
    (by decide) (by decide) (by decide) (by decide)

/-! ## Building the gem lists -/

theorem createSoulGemMap_sample :
    (_createSoulGemMap (sampleUnmapped true true true true) sampleGroups sampleDataHandler).toOption.map
      (fun c => (c._whiteSoulGems, c._blackSoulGemsEmpty, c._blackSoulGemsFilled)) =
      some (sampleWhiteSoulGems, [60], [66]) := by
  decide

theorem isValidConfig_sample : _isValidConfig sampleGroups sampleDataHandler = true := by
  decide

theorem createSoulGemMap_sampleMixed :
    _createSoulGemMap (sampleUnmapped true true true true) sampleMixedGroups sampleDataHandler =
      .ok sampleMixedConfig :=
  rfl

theorem isValidConfig_sampleMixed :
    _isValidConfig sampleMixedGroups sampleDataHandler = true := by
  decide

/-! ## `_isValidConfig` -/

theorem isValidMember_iff (dataHandler : TESDataHandler) (soulGemGroup : SoulGemGroup) (i : Nat)
    (soulGemId : SoulGemId) :
    isValidMember dataHandler soulGemGroup i soulGemId = true ↔
      ∃ form, dataHandler soulGemId.formId soulGemId.pluginName = some form ∧
        form.isSoulGem = true ∧ form.maximumCapacity = soulGemGroup.effectiveCapacity ∧
        (form.hasReusableKeyword = true → form.containedSoul ≠ SOUL_LEVEL.kNone →
          form.linkedSoulGem = some SOUL_LEVEL.kNone) ∧
        (if soulGemGroup.capacity = SoulSize.Black then
          (i = 0 ∧ form.containedSoul = SOUL_LEVEL.kNone) ∨
            (i = 1 ∧ form.containedSoul = SOUL_LEVEL.kGrand)
         else form.containedSoul = i) := by
  have hlast : ∀ form : GameForm, hasValidContainedSoul soulGemGroup i form = true ↔
      (if soulGemGroup.capacity = SoulSize.Black then
          (i = 0 ∧ form.containedSoul = SOUL_LEVEL.kNone) ∨
            (i = 1 ∧ form.containedSoul = SOUL_LEVEL.kGrand)
         else form.containedSoul = i) := by
    intro form
    unfold hasValidContainedSoul
    by_cases hb : soulGemGroup.capacity = SoulSize.Black
    · simp only [hb, if_true]
      match i with
      | 0 => simp
      | 1 => simp
      | n + 2 => simp
    · simp only [hb, if_false]
      simp
  unfold isValidMember
  cases hform : dataHandler soulGemId.formId soulGemId.pluginName with
  | none => simp
  | some form =>
    simp only [Option.some.injEq, exists_eq_left']
    by_cases h1 : form.isSoulGem = true
    · by_cases h2 : soulGemGroup.effectiveCapacity = form.maximumCapacity
      · by_cases h3 : form.hasReusableKeyword = true
        · by_cases h4 : form.containedSoul = SOUL_LEVEL.kNone
          · simp [h1, h2, h3, h4, hlast]
          · cases h5 : form.linkedSoulGem with
            | none => simp [h1, h2, h3, h4]
            | some linked =>
              by_cases h6 : linked = SOUL_LEVEL.kNone
              · simp [h1, h2, h3, h4, h6, hlast]
              · simp [h1, h2, h3, h4, h6]
        · simp [h1, h2, h3, hlast]
      · simp only [h1, Bool.not_true, Bool.false_eq_true, if_false, bne_iff_ne, ne_eq, h2,
          not_false_eq_true, if_true, true_and, false_iff, not_and]
        intro h
        exact absurd h.symm h2
    · simp [h1]

theorem areValidMembersFrom_iff (dataHandler : TESDataHandler) (soulGemGroup : SoulGemGroup) :
    ∀ (members : List SoulGemId) (i : Nat),
      areValidMembersFrom dataHandler soulGemGroup i members = true ↔
        ∀ (j : Nat) (soulGemId : SoulGemId), members[j]? = some soulGemId →
          isValidMember dataHandler soulGemGroup (i + j) soulGemId = true := by
  intro members
  induction members with
  | nil =>
    intro i
    simp [areValidMembersFrom]
  | cons first rest ih =>
    intro i
    unfold areValidMembersFrom
    constructor
    · intro h j soulGemId hj
      by_cases hfirst : isValidMember dataHandler soulGemGroup i first = true
      · simp only [hfirst, if_true] at h
        cases j with
        | zero =>
          simp only [List.getElem?_cons_zero, Option.some.injEq] at hj
          subst hj
          exact hfirst
        | succ j =>
          simp only [List.getElem?_cons_succ] at hj
          have := (ih (i + 1)).mp h j soulGemId hj
          rw [show i + (j + 1) = i + 1 + j by omega]
          exact this
      · simp [hfirst] at h
    · intro h
      have hfirst : isValidMember dataHandler soulGemGroup i first = true := h 0 first (by simp)
      simp only [hfirst, if_true]
      refine (ih (i + 1)).mpr ?_
      intro j soulGemId hj
      have := h (j + 1) soulGemId (by simpa using hj)
      rw [show i + 1 + j = i + (j + 1) by omega]
      exact this

/-- C26: `_isValidConfig` accepts exactly when, for every group and every member index `i`, the
member's form exists, is a soul gem and has the group's effective capacity as its maximum
capacity; a form with the reusable keyword that contains a soul has a linked soul gem, which is
empty; in a black group the member is at index 0 and empty or at index 1 and holds a Grand
soul (so there is no member at an index from 2 on); in a white group the member at index `i`
holds soul level `i`. -/
theorem C26_isValidConfig_accepts_iff (soulGemGroups : List SoulGemGroup)
    (dataHandler : TESDataHandler) :
    _isValidConfig soulGemGroups dataHandler = true ↔
      ∀ soulGemGroup ∈ soulGemGroups, ∀ (i : Nat) (soulGemId : SoulGemId),
        soulGemGroup.members[i]? = some soulGemId →
        ∃ form, dataHandler soulGemId.formId soulGemId.pluginName = some form ∧
          form.isSoulGem = true ∧ form.maximumCapacity = soulGemGroup.effectiveCapacity ∧
          (form.hasReusableKeyword = true → form.containedSoul ≠ SOUL_LEVEL.kNone →
            form.linkedSoulGem = some SOUL_LEVEL.kNone) ∧
          (if soulGemGroup.capacity = SoulSize.Black then
            (i = 0 ∧ form.containedSoul = SOUL_LEVEL.kNone) ∨
              (i = 1 ∧ form.containedSoul = SOUL_LEVEL.kGrand)
           else form.containedSoul = i) := by
  induction soulGemGroups with
  | nil => simp [_isValidConfig]
  | cons first rest ih =>
    unfold _isValidConfig
    by_cases hfirst : areValidMembersFrom dataHandler first 0 first.members = true
    · simp only [hfirst, if_true, ih, List.mem_cons, forall_eq_or_imp]
      have := (areValidMembersFrom_iff dataHandler first first.members 0).mp hfirst
      simp only [Nat.zero_add, isValidMember_iff] at this
      exact ⟨fun h => ⟨this, h⟩, fun h => h.2⟩
    · simp only [hfirst, if_false, Bool.false_eq_true, false_iff, List.mem_cons,
        forall_eq_or_imp, not_and]
      intro h
      exfalso
      apply hfirst
      rw [areValidMembersFrom_iff]
      simp only [Nat.zero_add, isValidMember_iff]
      exact h

/-- C27 at its failing input: a black group with the empty black gem as its only member.
`_isValidConfig` accepts it, and `_createSoulGemMap`, which `processGameForms` then calls, reads
`members()[1]` past the end of the members. -/
theorem C27_valid_config_with_short_black_group_is_mapped_out_of_bounds :
    _isValidConfig [sampleGroup "black" false SoulSize.Black [0]] sampleDataHandler = true ∧
    (sampleGroup "black" false SoulSize.Black [0]).members.length = 1 ∧
    _createSoulGemMap (sampleUnmapped true true true true)
      [sampleGroup "black" false SoulSize.Black [0]] sampleDataHandler =
        .error Fault.outOfBounds ∧
    processGameForms (sampleUnmapped true true true true)
      [sampleGroup "black" false SoulSize.Black [0]] sampleDataHandler =
        .error Fault.outOfBounds :=
  ⟨by decide, by decide, rfl, rfl⟩

/-! ## `_createSoulGemMap`: the cells of the white lists -/

theorem pushWhite_ok (whiteSoulGems next : List (List (List Gem))) (row i : Nat) (gem : Gem)
    (h : pushWhite whiteSoulGems row i gem = .ok next) :
    next.length = whiteSoulGems.length ∧
    (∀ r, rowLength next r = rowLength whiteSoulGems r) ∧
    (∀ r k, cellOf next r k =
      (cellOf whiteSoulGems r k).map fun gems =>
        if r = row ∧ k = i then gems ++ [gem] else gems) := by
  unfold pushWhite at h
  cases hrow : whiteSoulGems[row]? with
  | none => rw [hrow] at h; simp at h
  | some variants =>
    rw [hrow] at h
    simp only at h
    cases hcell : variants[i]? with
    | none => rw [hcell] at h; simp at h
    | some gems =>
      rw [hcell] at h
      simp only [Except.ok.injEq] at h
      subst h
      have hrlt : row < whiteSoulGems.length := by
        rcases Nat.lt_or_ge row whiteSoulGems.length with hlt | hge
        · exact hlt
        · rw [List.getElem?_eq_none hge] at hrow
          exact absurd hrow (by simp)
      have hilt : i < variants.length := by
        rcases Nat.lt_or_ge i variants.length with hlt | hge
        · exact hlt
        · rw [List.getElem?_eq_none hge] at hcell
          exact absurd hcell (by simp)
      refine ⟨List.length_set _ _ _, ?_, ?_⟩
      · intro r
        unfold rowLength
        rw [List.getElem?_set]
        by_cases hr : row = r
        · subst hr
          simp [hrlt, hrow]
        · simp [hr]
      · intro r k
        unfold cellOf
        rw [List.getElem?_set]
        by_cases hr : row = r
        · subst hr
          simp only [hrlt, if_true, hrow, true_and]
          rw [List.getElem?_set]
          by_cases hk : i = k
          · subst hk
            simp [hilt, hcell]
          · have hk2 : ¬ k = i := fun e => hk e.symm
            simp only [hk, if_false, hk2]
            cases variants[k]? <;> simp
        · have hr2 : ¬ r = row := fun e => hr e.symm
          simp only [hr, if_false, hr2, false_and]
          cases whiteSoulGems[r]? with
          | none => simp
          | some v => cases v[k]? <;> simp

/-- The gems that the loop over the members, started at counter `i`, appends to the list at
index `k` of its row. -/
theorem addWhiteMembers_ok (dataHandler : TESDataHandler) (capacity : Nat) :
    ∀ (members : List SoulGemId) (i : Nat) (whiteSoulGems next : List (List (List Gem))),
      addWhiteMembers dataHandler capacity i members whiteSoulGems = .ok next →
      next.length = whiteSoulGems.length ∧
      (∀ r, rowLength next r = rowLength whiteSoulGems r) ∧
      (∀ r k, cellOf next r k =
        (cellOf whiteSoulGems r k).map fun gems =>
          gems ++ (if r = whiteRow capacity ∧ i ≤ k then
            ((members[k - i]?).map fun soulGemId =>
              _getFormFromId soulGemId dataHandler).toList
            else [])) := by
  intro members
  induction members with
  | nil =>
    intro i whiteSoulGems next h
    simp only [addWhiteMembers, Except.ok.injEq] at h
    subst h
    refine ⟨rfl, fun _ => rfl, ?_⟩
    intro r k
    cases cellOf whiteSoulGems r k <;> simp
  | cons first rest ih =>
    intro i whiteSoulGems next h
    unfold addWhiteMembers at h
    cases hpush : pushWhite whiteSoulGems (whiteRow capacity) i
        (_getFormFromId first dataHandler) with
    | error f => rw [hpush] at h; simp at h
    | ok mid =>
      rw [hpush] at h
      simp only at h
      obtain ⟨a1, a2, a3⟩ := pushWhite_ok _ _ _ _ _ hpush
      obtain ⟨b1, b2, b3⟩ := ih (i + 1) mid next h
      refine ⟨b1.trans a1, fun r => (b2 r).trans (a2 r), ?_⟩
      intro r k
      rw [b3, a3]
      cases cellOf whiteSoulGems r k with
      | none => rfl
      | some gems =>
        simp only [Option.map_some', Option.some.injEq]
        by_cases hr : r = whiteRow capacity
        · simp only [hr, true_and]
          by_cases hk : k = i
          · subst hk
            simp
          · by_cases hlt : i + 1 ≤ k
            · have hle : i ≤ k := by omega
              obtain ⟨d, rfl⟩ : ∃ d, k = i + 1 + d := ⟨k - (i + 1), by omega⟩
              simp only [hk, if_false, hlt, if_true, hle]
              rw [show i + 1 + d - (i + 1) = d by omega, show i + 1 + d - i = d + 1 by omega]
              simp
            · have hle : ¬ i ≤ k := by omega
              simp [hk, hlt, hle]
        · simp [hr]

theorem addGroup_ok (dataHandler : TESDataHandler) (config next : YASTMConfig)
    (soulGemGroup : SoulGemGroup) (h : addGroup dataHandler config soulGemGroup = .ok next) :
    next._globals = config._globals ∧ next._globalsDefaults = config._globalsDefaults ∧
    next._whiteSoulGems.length = config._whiteSoulGems.length ∧
    (∀ r, rowLength next._whiteSoulGems r = rowLength config._whiteSoulGems r) ∧
    (∀ r k, cellOf next._whiteSoulGems r k =
      (cellOf config._whiteSoulGems r k).map fun gems =>
        gems ++ (if soulGemGroup.capacity ≠ SoulSize.Black ∧ r = whiteRow soulGemGroup.capacity
          then (soulGemGroup.gemAt dataHandler k).toList else [])) ∧
    next._blackSoulGemsEmpty = config._blackSoulGemsEmpty ++
      (if soulGemGroup.capacity = SoulSize.Black then (soulGemGroup.gemAt dataHandler 0).toList
        else []) ∧
    next._blackSoulGemsFilled = config._blackSoulGemsFilled ++
      (if soulGemGroup.capacity = SoulSize.Black then (soulGemGroup.gemAt dataHandler 1).toList
        else []) := by
  unfold addGroup at h
  by_cases hb : soulGemGroup.capacity = SoulSize.Black
  · simp only [hb, if_true] at h
    cases h0 : soulGemGroup.members[0]? with
    | none => rw [h0] at h; simp at h
    | some emptyId =>
      cases h1 : soulGemGroup.members[1]? with
      | none => rw [h0, h1] at h; simp at h
      | some filledId =>
        rw [h0, h1] at h
        simp only [Except.ok.injEq] at h
        subst h
        refine ⟨rfl, rfl, rfl, fun _ => rfl, ?_, ?_, ?_⟩
        · intro r k
          simp only [hb, ne_eq, not_true_eq_false, false_and, if_false, List.append_nil]
          cases cellOf config._whiteSoulGems r k <;> rfl
        · simp [hb, SoulGemGroup.gemAt, h0]
        · simp [hb, SoulGemGroup.gemAt, h1]
  · simp only [hb, if_false] at h
    cases hadd : addWhiteMembers dataHandler soulGemGroup.capacity 0 soulGemGroup.members
        config._whiteSoulGems with
    | error f => rw [hadd] at h; simp at h
    | ok white =>
      rw [hadd] at h
      simp only [Except.ok.injEq] at h
      subst h
      obtain ⟨a1, a2, a3⟩ := addWhiteMembers_ok dataHandler _ _ _ _ _ hadd
      refine ⟨rfl, rfl, a1, a2, ?_, ?_, ?_⟩
      · intro r k
        rw [a3]
        simp only [Nat.zero_le, and_true, Nat.sub_zero, ne_eq, hb, not_false_eq_true, true_and]
        rfl
      · simp [hb]
      · simp [hb]

theorem addGroups_ok (dataHandler : TESDataHandler) (reusable : Bool) :
    ∀ (soulGemGroups : List SoulGemGroup) (config next : YASTMConfig),
      addGroups dataHandler reusable soulGemGroups config = .ok next →
      next._globals = config._globals ∧ next._globalsDefaults = config._globalsDefaults ∧
      next._whiteSoulGems.length = config._whiteSoulGems.length ∧
      (∀ r, rowLength next._whiteSoulGems r = rowLength config._whiteSoulGems r) ∧
      (∀ r k, cellOf next._whiteSoulGems r k =
        (cellOf config._whiteSoulGems r k).map fun gems =>
          gems ++ (rowGroups soulGemGroups reusable r).filterMap
            (SoulGemGroup.gemAt dataHandler k)) ∧
      next._blackSoulGemsEmpty = config._blackSoulGemsEmpty ++
        (groupsOf soulGemGroups reusable SoulSize.Black).filterMap
          (SoulGemGroup.gemAt dataHandler 0) ∧
      next._blackSoulGemsFilled = config._blackSoulGemsFilled ++
        (groupsOf soulGemGroups reusable SoulSize.Black).filterMap
          (SoulGemGroup.gemAt dataHandler 1) := by
  intro soulGemGroups
  induction soulGemGroups with
  | nil =>
    intro config next h
    simp only [addGroups, Except.ok.injEq] at h
    subst h
    refine ⟨rfl, rfl, rfl, fun _ => rfl, ?_, ?_, ?_⟩
    · intro r k
      cases cellOf config._whiteSoulGems r k <;> simp [rowGroups]
    · simp [groupsOf]
    · simp [groupsOf]
  | cons first rest ih =>
    intro config next h
    unfold addGroups at h
    by_cases hflag : first.isReusable = reusable
    · simp only [hflag, if_true] at h
      cases hadd : addGroup dataHandler config first with
      | error f => rw [hadd] at h; simp at h
      | ok mid =>
        rw [hadd] at h
        simp only at h
        obtain ⟨a1, a2, a3, a4, a5, a6, a7⟩ := addGroup_ok dataHandler config mid first hadd
        obtain ⟨b1, b2, b3, b4, b5, b6, b7⟩ := ih mid next h
        refine ⟨b1.trans a1, b2.trans a2, b3.trans a3, fun r => (b4 r).trans (a4 r), ?_, ?_, ?_⟩
        · intro r k
          rw [b5, a5]
          cases cellOf config._whiteSoulGems r k with
          | none => rfl
          | some gems =>
            simp only [Option.map_some', Option.some.injEq, List.append_assoc,
              List.append_cancel_left_eq]
            unfold rowGroups
            rw [List.filter_cons]
            by_cases hb : first.capacity = SoulSize.Black
            · simp [hflag, hb]
            · by_cases hr : r = whiteRow first.capacity
              · have hp : ((first.isReusable == reusable) &&
                    !(first.capacity == SoulSize.Black) &&
                    (whiteRow first.capacity == r)) = true := by
                  rw [hr]
                  simp [hflag, hb]
                rw [if_pos hp, if_pos ⟨hb, hr⟩, List.filterMap_cons]
                cases first.gemAt dataHandler k <;> rfl
              · have hp : ¬ ((first.isReusable == reusable) &&
                    !(first.capacity == SoulSize.Black) &&
                    (whiteRow first.capacity == r)) = true := by
                  intro hall
                  simp only [Bool.and_eq_true, beq_iff_eq] at hall
                  exact hr hall.2.symm
                rw [if_neg hp, if_neg (fun e => hr e.2)]
                rfl
        · rw [b6, a6, List.append_assoc]
          congr 1
          unfold groupsOf
          rw [List.filter_cons]
          by_cases hb : first.capacity = SoulSize.Black
          · simp only [hb, if_true, hflag, beq_self_eq_true, Bool.and_self, List.filterMap_cons]
            cases first.gemAt dataHandler 0 <;> simp
          · simp [hflag, hb]
        · rw [b7, a7, List.append_assoc]
          congr 1
          unfold groupsOf
          rw [List.filter_cons]
          by_cases hb : first.capacity = SoulSize.Black
          · simp only [hb, if_true, hflag, beq_self_eq_true, Bool.and_self, List.filterMap_cons]
            cases first.gemAt dataHandler 1 <;> simp
          · simp [hflag, hb]
    · simp only [hflag, if_false] at h
      obtain ⟨b1, b2, b3, b4, b5, b6, b7⟩ := ih config next h
      have hskipRow : ∀ r, rowGroups (first :: rest) reusable r = rowGroups rest reusable r := by
        intro r
        unfold rowGroups
        rw [List.filter_cons]
        simp [hflag]
      have hskip : groupsOf (first :: rest) reusable SoulSize.Black =
          groupsOf rest reusable SoulSize.Black := by
        unfold groupsOf
        rw [List.filter_cons]
        simp [hflag]
      refine ⟨b1, b2, b3, b4, ?_, ?_, ?_⟩
      · intro r k
        rw [b5, hskipRow]
      · rw [b6, hskip]
      · rw [b7, hskip]

theorem resizeVariants_length (count : Nat) (variants : List (List Gem)) :
    (resizeVariants count variants).length = count := by
  simp only [resizeVariants, List.length_append, List.length_take, List.length_replicate]
  omega

theorem resizeVariants_getElem? (count : Nat) (variants : List (List Gem)) (k : Nat) :
    (resizeVariants count variants)[k]? =
      if k < count then some ((variants[k]?).getD []) else none := by
  unfold resizeVariants
  rw [List.getElem?_append, List.length_take, List.getElem?_take, List.getElem?_replicate]
  by_cases hk : k < count
  · by_cases hl : k < variants.length
    · have hmin : k < min count variants.length := by omega
      simp only [hmin, hk, if_true]
      rw [List.getElem?_eq_getElem hl]
      rfl
    · have hmin : ¬ k < min count variants.length := by omega
      have hrep : k - min count variants.length < count - variants.length := by omega
      simp only [hmin, if_false, hrep, if_true, hk]
      rw [List.getElem?_eq_none (by omega)]
      rfl
  · have hmin : ¬ k < min count variants.length := by omega
    have hrep : ¬ k - min count variants.length < count - variants.length := by omega
    simp only [hmin, if_false, hrep, hk]

theorem rowLength_resize (whiteSoulGems : List (List (List Gem))) (r : Nat) :
    rowLength (resizeWhiteSoulGems whiteSoulGems) r =
      if r < whiteSoulGems.length then some (getVariantCountForCapacity (r + 1)) else none := by
  unfold rowLength resizeWhiteSoulGems
  rw [List.getElem?_mapIdx]
  by_cases hr : r < whiteSoulGems.length
  · rw [List.getElem?_eq_getElem hr]
    simp [hr, resizeVariants_length]
  · rw [List.getElem?_eq_none (by omega)]
    simp [hr]

theorem cellOf_resize (whiteSoulGems : List (List (List Gem))) (r k : Nat) :
    cellOf (resizeWhiteSoulGems whiteSoulGems) r k =
      if r < whiteSoulGems.length ∧ k < getVariantCountForCapacity (r + 1) then
        some ((cellOf whiteSoulGems r k).getD []) else none := by
  unfold cellOf resizeWhiteSoulGems
  rw [List.getElem?_mapIdx]
  by_cases hr : r < whiteSoulGems.length
  · rw [List.getElem?_eq_getElem hr]
    simp only [Option.map_some', resizeVariants_getElem?, hr, true_and]
  · rw [List.getElem?_eq_none (by omega)]
    simp [hr]

theorem cellOf_isSome (whiteSoulGems : List (List (List Gem))) (r k n : Nat)
    (h : rowLength whiteSoulGems r = some n) :
    (cellOf whiteSoulGems r k).isSome = true ↔ k < n := by
  unfold rowLength at h
  unfold cellOf
  cases hrow : whiteSoulGems[r]? with
  | none => rw [hrow] at h; simp at h
  | some variants =>
    rw [hrow] at h
    simp only [Option.map_some', Option.some.injEq] at h
    subst h
    simp only
    constructor
    · intro hs
      rcases Nat.lt_or_ge k variants.length with hlt | hge
      · exact hlt
      · rw [List.getElem?_eq_none hge] at hs
        simp at hs
    · intro hlt
      rw [List.getElem?_eq_getElem hlt]
      rfl

/-- When `_createSoulGemMap` returns, its result is the configuration that the two loops over
the groups built, and the listing loops met no null pointer. -/
theorem createSoulGemMap_build (config next : YASTMConfig) (soulGemGroups : List SoulGemGroup)
    (dataHandler : TESDataHandler)
    (h : _createSoulGemMap config soulGemGroups dataHandler = .ok next) :
    ∃ mid, addGroups dataHandler true soulGemGroups
        { config with _whiteSoulGems := resizeWhiteSoulGems config._whiteSoulGems } = .ok mid ∧
      addGroups dataHandler false soulGemGroups mid = .ok next ∧
      listWhiteSoulGems next._whiteSoulGems = .ok () ∧
      listSoulGemForms next._blackSoulGemsEmpty = .ok () := by
  unfold _createSoulGemMap at h
  simp only at h
  cases h1 : addGroups dataHandler true soulGemGroups
      { config with _whiteSoulGems := resizeWhiteSoulGems config._whiteSoulGems } with
  | error f => rw [h1] at h; simp at h
  | ok mid =>
    rw [h1] at h
    simp only at h
    cases h2 : addGroups dataHandler false soulGemGroups mid with
    | error f => rw [h2] at h; simp at h
    | ok last =>
      rw [h2] at h
      simp only at h
      cases h3 : listWhiteSoulGems last._whiteSoulGems with
      | error f => rw [h3] at h; simp at h
      | ok u =>
        rw [h3] at h
        simp only at h
        cases h4 : listSoulGemForms last._blackSoulGemsEmpty with
        | error f => rw [h4] at h; simp at h
        | ok v =>
          rw [h4] at h
          simp only [Except.ok.injEq] at h
          subst h
          exact ⟨mid, rfl, h2, h3, h4⟩

/-- The lists that the two loops over the groups build: each list that the resizing keeps or
creates, followed by the gems of the reusable groups and then by the gems of the other groups,
each in configuration order; the toggles are not touched. -/
theorem addGroups_both_ok (config mid next : YASTMConfig) (soulGemGroups : List SoulGemGroup)
    (dataHandler : TESDataHandler)
    (h1 : addGroups dataHandler true soulGemGroups
      { config with _whiteSoulGems := resizeWhiteSoulGems config._whiteSoulGems } = .ok mid)
    (h : addGroups dataHandler false soulGemGroups mid = .ok next) :
    next._globals = config._globals ∧ next._globalsDefaults = config._globalsDefaults ∧
    next._whiteSoulGems.length = config._whiteSoulGems.length ∧
    (∀ r, rowLength next._whiteSoulGems r =
      rowLength (resizeWhiteSoulGems config._whiteSoulGems) r) ∧
    (∀ r k, cellOf next._whiteSoulGems r k =
      (cellOf (resizeWhiteSoulGems config._whiteSoulGems) r k).map fun gems =>
        gems ++ ((rowGroups soulGemGroups true r).filterMap (SoulGemGroup.gemAt dataHandler k) ++
          (rowGroups soulGemGroups false r).filterMap (SoulGemGroup.gemAt dataHandler k))) ∧
    next._blackSoulGemsEmpty = config._blackSoulGemsEmpty ++
      ((groupsOf soulGemGroups true SoulSize.Black).filterMap
          (SoulGemGroup.gemAt dataHandler 0) ++
        (groupsOf soulGemGroups false SoulSize.Black).filterMap
          (SoulGemGroup.gemAt dataHandler 0)) ∧
    next._blackSoulGemsFilled = config._blackSoulGemsFilled ++
      ((groupsOf soulGemGroups true SoulSize.Black).filterMap
          (SoulGemGroup.gemAt dataHandler 1) ++
        (groupsOf soulGemGroups false SoulSize.Black).filterMap
          (SoulGemGroup.gemAt dataHandler 1)) := by
  obtain ⟨a1, a2, a3, a4, a5, a6, a7⟩ := addGroups_ok dataHandler true _ _ _ h1
  obtain ⟨b1, b2, b3, b4, b5, b6, b7⟩ := addGroups_ok dataHandler false _ _ _ h
  simp only at a1 a2 a3 a4 a5 a6 a7
  refine ⟨b1.trans a1, b2.trans a2, ?_, fun r => (b4 r).trans (a4 r), ?_, ?_, ?_⟩
  · rw [b3, a3]
    simp [resizeWhiteSoulGems]
  · intro r k
    rw [b5, a5]
    cases cellOf (resizeWhiteSoulGems config._whiteSoulGems) r k with
    | none => rfl
    | some gems => simp
  · rw [b6, a6, List.append_assoc]
  · rw [b7, a7, List.append_assoc]

/-- The lists after `_createSoulGemMap`: each list that the resizing keeps or creates, followed
by the gems of the reusable groups and then by the gems of the other groups, each in
configuration order; the toggles are not touched. -/
theorem createSoulGemMap_ok (config next : YASTMConfig) (soulGemGroups : List SoulGemGroup)
    (dataHandler : TESDataHandler)
    (h : _createSoulGemMap config soulGemGroups dataHandler = .ok next) :
    next._globals = config._globals ∧ next._globalsDefaults = config._globalsDefaults ∧
    next._whiteSoulGems.length = config._whiteSoulGems.length ∧
    (∀ r, rowLength next._whiteSoulGems r =
      rowLength (resizeWhiteSoulGems config._whiteSoulGems) r) ∧
    (∀ r k, cellOf next._whiteSoulGems r k =
      (cellOf (resizeWhiteSoulGems config._whiteSoulGems) r k).map fun gems =>
        gems ++ ((rowGroups soulGemGroups true r).filterMap (SoulGemGroup.gemAt dataHandler k) ++
          (rowGroups soulGemGroups false r).filterMap (SoulGemGroup.gemAt dataHandler k))) ∧
    next._blackSoulGemsEmpty = config._blackSoulGemsEmpty ++
      ((groupsOf soulGemGroups true SoulSize.Black).filterMap
          (SoulGemGroup.gemAt dataHandler 0) ++
        (groupsOf soulGemGroups false SoulSize.Black).filterMap
          (SoulGemGroup.gemAt dataHandler 0)) ∧
    next._blackSoulGemsFilled = config._blackSoulGemsFilled ++
      ((groupsOf soulGemGroups true SoulSize.Black).filterMap
          (SoulGemGroup.gemAt dataHandler 1) ++
        (groupsOf soulGemGroups false SoulSize.Black).filterMap
          (SoulGemGroup.gemAt dataHandler 1)) := by
  obtain ⟨mid, h1, h2, _, _⟩ := createSoulGemMap_build config next soulGemGroups dataHandler h
  exact addGroups_both_ok config mid next soulGemGroups dataHandler h1 h2

theorem getSoulGemsWith_white_cell (config : YASTMConfig) (c k : Nat)
    (hc1 : SoulSize.Petty ≤ c) (hc2 : c ≤ SoulSize.Grand) (hk : k ≤ c) :
    config.getSoulGemsWith c k =
      match cellOf config._whiteSoulGems (c - 1) k with
      | some gems => .ok gems
      | none => .error Fault.outOfBounds := by
  simp only [SoulSize.Petty, SoulSize.Grand] at hc1 hc2
  have hcap : isValidSoulCapacity c = true := by
    simp [isValidSoulCapacity, SoulSize.Petty, SoulSize.Black]
    omega
  have hb : ¬ c = SoulSize.Black := by
    simp only [SoulSize.Black]
    omega
  have hcont : isValidContainedSoulSize c k = true := by
    simp [isValidContainedSoulSize, hb, SoulSize.None, hk]
  unfold YASTMConfig.getSoulGemsWith cellOf
  simp only [hcap, hcont, Bool.not_true, Bool.false_eq_true, if_false, hb]
  cases config._whiteSoulGems[c - 1]? with
  | none => rfl
  | some variants =>
    simp only
    cases hv : variants[k]? <;> rfl

theorem whiteRow_small (capacity : Nat) (h1 : 1 ≤ capacity) (h2 : capacity ≤ SoulSize.Black) :
    whiteRow capacity = capacity - 1 := by
  simp only [SoulSize.Black] at h2
  unfold whiteRow
  interval_cases capacity <;> rfl

theorem whiteRow_zero : whiteRow 0 = 2 ^ 64 - 1 := by
  unfold whiteRow
  norm_num

theorem rowGroups_eq_groupsOf (soulGemGroups : List SoulGemGroup) (reusable : Bool) (c : Nat)
    (hcap : ∀ soulGemGroup ∈ soulGemGroups, soulGemGroup.capacity ≤ SoulSize.Black)
    (hc1 : SoulSize.Petty ≤ c) (hc2 : c ≤ SoulSize.Grand) :
    rowGroups soulGemGroups reusable (c - 1) = groupsOf soulGemGroups reusable c := by
  simp only [SoulSize.Petty, SoulSize.Grand] at hc1 hc2
  unfold rowGroups groupsOf
  apply List.filter_congr
  intro g hg
  have hg6 := hcap g hg
  cases hflag : (g.isReusable == reusable) with
  | false => simp
  | true =>
    simp only [Bool.true_and]
    by_cases h0 : g.capacity = 0
    · rw [h0, whiteRow_zero]
      have e1 : ((0 : Nat) == c) = false := by
        simp only [beq_eq_false_iff_ne, ne_eq]
        omega
      have e2 : ((2 ^ 64 - 1 : Nat) == c - 1) = false := by
        simp only [beq_eq_false_iff_ne, ne_eq]
        omega
      rw [e1, e2]
      simp
    · rw [whiteRow_small g.capacity (by omega) hg6]
      simp only [SoulSize.Black] at hg6 ⊢
      by_cases hgc : g.capacity = c
      · have h6 : ¬ g.capacity = 6 := by omega
        simp only [hgc] at h6 ⊢
        simp [h6]
      · have hrow : ¬ g.capacity - 1 = c - 1 := by omega
        have e1 : (g.capacity == c) = false := by
          simp only [beq_eq_false_iff_ne, ne_eq]
          exact hgc
        have e2 : (g.capacity - 1 == c - 1) = false := by
          simp only [beq_eq_false_iff_ne, ne_eq]
          exact hrow
        rw [e1, e2, Bool.and_false]

/-! ## `_createSoulGemMap` on complete groups -/

theorem rowLength_resize_five (whiteSoulGems : List (List (List Gem)))
    (hlen : whiteSoulGems.length = 5) (r : Nat) (hr : r < 5) :
    rowLength (resizeWhiteSoulGems whiteSoulGems) r = some (r + 2) := by
  rw [rowLength_resize, hlen]
  have hb : ¬ r + 1 = SoulSize.Black := by
    simp only [SoulSize.Black]
    omega
  simp [hr, getVariantCountForCapacity, hb]

theorem isUnmapped_iff (config : YASTMConfig) :
    config.isUnmapped = true ↔
      config._whiteSoulGems.length = 5 ∧
      (∀ variants ∈ config._whiteSoulGems, ∀ gems ∈ variants, gems = []) ∧
      config._blackSoulGemsEmpty = [] ∧ config._blackSoulGemsFilled = [] := by
  unfold YASTMConfig.isUnmapped
  simp only [Bool.and_eq_true, beq_iff_eq, List.all_eq_true, List.isEmpty_iff, and_assoc]

theorem cellOf_unmapped (config : YASTMConfig) (h : config.isUnmapped = true) (r k : Nat) :
    (cellOf config._whiteSoulGems r k).getD [] = [] := by
  obtain ⟨_, hcells, _, _⟩ := (isUnmapped_iff config).mp h
  unfold cellOf
  cases hrow : config._whiteSoulGems[r]? with
  | none => rfl
  | some variants =>
    simp only
    cases hcell : variants[k]? with
    | none => rfl
    | some gems =>
      exact hcells variants (List.getElem?_mem hrow) gems (List.getElem?_mem hcell)

/-- The lists of a configuration mapped from no lists: for every valid pair, the gems of the
reusable groups of the capacity and then the gems of its other groups, each in configuration
order. -/
theorem createSoulGemMap_lists (config next : YASTMConfig) (soulGemGroups : List SoulGemGroup)
    (dataHandler : TESDataHandler) (hun : config.isUnmapped = true)
    (hcap : ∀ soulGemGroup ∈ soulGemGroups, soulGemGroup.capacity ≤ SoulSize.Black)
    (h : _createSoulGemMap config soulGemGroups dataHandler = .ok next) (c k : Nat)
    (hc : isValidSoulCapacity c = true) (hk : isValidContainedSoulSize c k = true) :
    next.getSoulGemsWith c k =
      .ok ((groupsOf soulGemGroups true c).filterMap
          (SoulGemGroup.gemAt dataHandler (variantIndex c k)) ++
        (groupsOf soulGemGroups false c).filterMap
          (SoulGemGroup.gemAt dataHandler (variantIndex c k))) := by
  obtain ⟨hlen, _, hbe, hbf⟩ := (isUnmapped_iff config).mp hun
  obtain ⟨_, _, _, _, hcells, hempty, hfilled⟩ :=
    createSoulGemMap_ok config next soulGemGroups dataHandler h
  by_cases hb : c = SoulSize.Black
  · subst hb
    simp only [isValidContainedSoulSize, if_true, Bool.or_eq_true, decide_eq_true_eq] at hk
    rcases hk with hk | hk
    · subst hk
      rw [getSoulGemsWith_black_none, hempty, hbe]
      simp [variantIndex]
    · subst hk
      rw [getSoulGemsWith_black_black, hfilled, hbf]
      simp [variantIndex, SoulSize.Black, SoulSize.None]
  · simp only [isValidSoulCapacity, Bool.and_eq_true, decide_eq_true_eq, SoulSize.Petty,
      SoulSize.Black] at hc hb
    simp only [isValidContainedSoulSize, SoulSize.Black, hb, if_false, Bool.and_eq_true,
      decide_eq_true_eq] at hk
    have hc2 : c ≤ 5 := by omega
    rw [getSoulGemsWith_white_cell next c k hc.1 hc2 hk.2, hcells, cellOf_resize, hlen]
    have hvar : getVariantCountForCapacity (c - 1 + 1) = c + 1 := by
      rw [show c - 1 + 1 = c by omega]
      simp [getVariantCountForCapacity, SoulSize.Black, hb]
    have hcond : c - 1 < 5 ∧ k < getVariantCountForCapacity (c - 1 + 1) := by
      rw [hvar]
      omega
    rw [if_pos hcond, cellOf_unmapped config hun]
    simp only [Option.map_some', List.nil_append]
    rw [rowGroups_eq_groupsOf soulGemGroups true c hcap hc.1 hc2,
      rowGroups_eq_groupsOf soulGemGroups false c hcap hc.1 hc2]
    simp [variantIndex, SoulSize.Black, hb]

/-- A member whose form is not found is listed as a null pointer, and the listing loop over the
white lists reads it; a null pointer in the list of the filled black gems is not read. -/
theorem createSoulGemMap_missing_form :
    _createSoulGemMap (sampleUnmapped true true true true)
      [sampleGroupOf "Missing.esp" "petty" false SoulSize.Petty [0, 1]] sampleDataHandler =
        .error Fault.nullDereference ∧
    (_createSoulGemMap (sampleUnmapped true true true true)
      [{ id := "black", isReusable := false, capacity := SoulSize.Black,
         effectiveCapacity := SoulSize.Grand,
         members := [{ formId := 60, pluginName := "Skyrim.esm" },
                     { formId := 66, pluginName := "Missing.esp" }] }]
      sampleDataHandler).toOption.map (fun config => config._blackSoulGemsFilled) =
        some [Gem.null] :=
  ⟨rfl, by decide⟩

/-- The member forms of a configuration that `_isValidConfig` accepts are found as soul gems, so
the entry that `_createSoulGemMap` lists for a member is the pointer to its form. -/
theorem getFormFromId_of_isValidConfig (dataHandler : TESDataHandler) :
    ∀ (soulGemGroups : List SoulGemGroup), _isValidConfig soulGemGroups dataHandler = true →
      ∀ soulGemGroup ∈ soulGemGroups, ∀ soulGemId ∈ soulGemGroup.members,
        ∃ form, dataHandler soulGemId.formId soulGemId.pluginName = some form ∧
          form.isSoulGem = true ∧ _getFormFromId soulGemId dataHandler = form.gem := by
  intro soulGemGroups
  induction soulGemGroups with
  | nil =>
    intro _ g hg
    simp at hg
  | cons first rest ih =>
    intro h g hg soulGemId hid
    unfold _isValidConfig at h
    by_cases hfirst : areValidMembersFrom dataHandler first 0 first.members = true
    · simp only [hfirst, if_true] at h
      rcases List.mem_cons.mp hg with hg | hg
      · subst hg
        obtain ⟨j, hj⟩ := List.mem_iff_getElem?.mp hid
        have hvalid := (areValidMembersFrom_iff dataHandler g g.members 0).mp hfirst j
          soulGemId hj
        obtain ⟨form, hform, hgem, _⟩ := (isValidMember_iff dataHandler g (0 + j)
          soulGemId).mp hvalid
        refine ⟨form, hform, hgem, ?_⟩
        unfold _getFormFromId
        rw [hform]
        simp [hgem]
      · exact ih h g hg soulGemId hid
    · simp [hfirst] at h

/-! ## The claims on the gem lists -/

/-- C24: from a configuration with no gem listed and groups whose capacities are soul sizes,
whenever `_createSoulGemMap` returns, the list of every valid pair of capacity and contained soul
size (the two black lists among them) is the gems of the reusable groups of that capacity in
configuration order followed by the gems of its other groups in configuration order; and when
the caster owns a gem of the reusable part, a successful `_fillSoulGem` from that list removes a
gem of the reusable part. -/
theorem C24_reusable_gems_listed_and_filled_first (config next : YASTMConfig)
    (soulGemGroups : List SoulGemGroup) (dataHandler : TESDataHandler)
    (hun : config.isUnmapped = true)
    (hcap : ∀ soulGemGroup ∈ soulGemGroups, soulGemGroup.capacity ≤ SoulSize.Black)
    (h : _createSoulGemMap config soulGemGroups dataHandler = .ok next) :
    (∀ c k, isValidSoulCapacity c = true → isValidContainedSoulSize c k = true →
      next.getSoulGemsWith c k =
        .ok ((groupsOf soulGemGroups true c).filterMap
            (SoulGemGroup.gemAt dataHandler (variantIndex c k)) ++
          (groupsOf soulGemGroups false c).filterMap
            (SoulGemGroup.gemAt dataHandler (variantIndex c k)))) ∧
    next._blackSoulGemsEmpty =
      (groupsOf soulGemGroups true SoulSize.Black).filterMap
          (SoulGemGroup.gemAt dataHandler 0) ++
        (groupsOf soulGemGroups false SoulSize.Black).filterMap
          (SoulGemGroup.gemAt dataHandler 0) ∧
    next._blackSoulGemsFilled =
      (groupsOf soulGemGroups true SoulSize.Black).filterMap
          (SoulGemGroup.gemAt dataHandler 1) ++
        (groupsOf soulGemGroups false SoulSize.Black).filterMap
          (SoulGemGroup.gemAt dataHandler 1) ∧
    (∀ (c k : Nat) (caster after : Actor) (soulGemCountMap : InventoryCountMap)
      (sourceSoulGems targetSoulGems : List Gem),
      isValidSoulCapacity c = true → isValidContainedSoulSize c k = true →
      next.getSoulGemsWith c k = .ok sourceSoulGems →
      _fillSoulGem caster sourceSoulGems targetSoulGems soulGemCountMap = .ok (true, after) →
      (∃ gem ∈ (groupsOf soulGemGroups true c).filterMap
          (SoulGemGroup.gemAt dataHandler (variantIndex c k)),
        isOwned soulGemCountMap gem = true) →
      ∃ (i : Nat) (removed added : Gem),
        ((groupsOf soulGemGroups true c).filterMap
          (SoulGemGroup.gemAt dataHandler (variantIndex c k)))[i]? = some removed ∧
        sourceSoulGems[i]? = some removed ∧ targetSoulGems[i]? = some added ∧
        after = _replaceItem caster added removed) := by
  obtain ⟨_, _, hbe, hbf⟩ := (isUnmapped_iff config).mp hun
  obtain ⟨_, _, _, _, _, hempty, hfilled⟩ :=
    createSoulGemMap_ok config next soulGemGroups dataHandler h
  refine ⟨fun c k hc hk =>
      createSoulGemMap_lists config next soulGemGroups dataHandler hun hcap h c k hc hk,
    by rw [hempty, hbe, List.nil_append], by rw [hfilled, hbf, List.nil_append], ?_⟩
  intro c k caster after soulGemCountMap sourceSoulGems targetSoulGems hc hk hsrc hfill hown
  rw [createSoulGemMap_lists config next soulGemGroups dataHandler hun hcap h c k hc hk] at hsrc
  simp only [Except.ok.injEq] at hsrc
  obtain ⟨i, removed, added, h1, h2, _, h4, h5⟩ :=
    fillSoulGem_inv_true caster after sourceSoulGems targetSoulGems soulGemCountMap hfill
  refine ⟨i, removed, added, ?_, h1, h2, h5⟩
  obtain ⟨gem, hmem, hgem⟩ := hown
  obtain ⟨j, hj⟩ := List.mem_iff_getElem?.mp hmem
  have hjlt : j < ((groupsOf soulGemGroups true c).filterMap
      (SoulGemGroup.gemAt dataHandler (variantIndex c k))).length := by
    rcases Nat.lt_or_ge j ((groupsOf soulGemGroups true c).filterMap
      (SoulGemGroup.gemAt dataHandler (variantIndex c k))).length with hlt | hge
    · exact hlt
    · rw [List.getElem?_eq_none hge] at hj
      exact absurd hj (by simp)
  have hsrcj : sourceSoulGems[j]? = some gem := by
    rw [← hsrc, List.getElem?_append_left hjlt]
    exact hj
  have hij : i ≤ j := by
    by_contra hcon
    have := h4 j gem (by omega) hsrcj
    rw [hgem] at this
    exact Bool.noConfusion this
  rw [← hsrc, List.getElem?_append_left (by omega)] at h1
  exact h1

theorem C24_reusable_gems_listed_and_filled_first_witness :
    sampleMixedConfig.getSoulGemsWith SoulSize.Petty SoulSize.None =
      .ok ((groupsOf sampleMixedGroups true SoulSize.Petty).filterMap
          (SoulGemGroup.gemAt sampleDataHandler (variantIndex SoulSize.Petty SoulSize.None)) ++
        (groupsOf sampleMixedGroups false SoulSize.Petty).filterMap
          (SoulGemGroup.gemAt sampleDataHandler (variantIndex SoulSize.Petty SoulSize.None))) :=
  (C24_reusable_gems_listed_and_filled_first (sampleUnmapped true true true true)
    sampleMixedConfig sampleMixedGroups sampleDataHandler (by decide) (by decide) rfl).1
    SoulSize.Petty SoulSize.None (by decide) (by decide)

/-- The forms of the members of the mixed sample groups are all found as soul gems, and
`_createSoulGemMap` maps them to the mixed sample configuration, an aligned one. -/
theorem createSoulGemMap_sampleMixed_forms :
    (∀ soulGemGroup ∈ sampleMixedGroups, ∀ soulGemId ∈ soulGemGroup.members,
      _getFormFromId soulGemId sampleDataHandler ≠ Gem.null) ∧
    sampleMixedConfig.isAligned = true := by
  decide

/-- C29: for a white capacity `c`, a contained soul size `k` is valid exactly when `k` is below
`getVariantCountForCapacity c`, which is `c + 1`; for Black the valid contained sizes are None
and Black and the variant count is 2; and when `_createSoulGemMap` returns on five rows of white
lists, row `i` has `getVariantCountForCapacity (i + 1)` variants and `getSoulGemsWith` returns a
list for every pair that it does not reject. -/
theorem C29_variant_count_matches_valid_contained_sizes :
    (∀ c k, SoulSize.Petty ≤ c → c ≤ SoulSize.Grand →
      (isValidContainedSoulSize c k = true ↔ k < getVariantCountForCapacity c) ∧
      getVariantCountForCapacity c = c + 1) ∧
    (∀ k, isValidContainedSoulSize SoulSize.Black k = true ↔
      k = SoulSize.None ∨ k = SoulSize.Black) ∧
    getVariantCountForCapacity SoulSize.Black = 2 ∧
    (∀ (config next : YASTMConfig) (soulGemGroups : List SoulGemGroup)
      (dataHandler : TESDataHandler), config._whiteSoulGems.length = 5 →
      _createSoulGemMap config soulGemGroups dataHandler = .ok next →
      (∀ i, i < 5 →
        rowLength next._whiteSoulGems i = some (getVariantCountForCapacity (i + 1))) ∧
      ∀ c k, isValidSoulCapacity c = true → isValidContainedSoulSize c k = true →
        ∃ gems, next.getSoulGemsWith c k = .ok gems) := by
  refine ⟨?_, ?_, rfl, ?_⟩
  · intro c k hc1 hc2
    simp only [SoulSize.Petty, SoulSize.Grand] at hc1 hc2
    have hb : ¬ c = SoulSize.Black := by
      simp only [SoulSize.Black]
      omega
    simp only [isValidContainedSoulSize, getVariantCountForCapacity, hb, if_false,
      Bool.and_eq_true, decide_eq_true_eq, SoulSize.None, and_true]
    omega
  · intro k
    simp [isValidContainedSoulSize]
  · intro config next soulGemGroups dataHandler hlen h
    obtain ⟨_, _, _, hrows, hcells, _, _⟩ :=
      createSoulGemMap_ok config next soulGemGroups dataHandler h
    have hrow : ∀ i, i < 5 → rowLength next._whiteSoulGems i = some (i + 2) := by
      intro i hi
      rw [hrows i]
      exact rowLength_resize_five _ hlen i hi
    refine ⟨?_, ?_⟩
    · intro i hi
      rw [hrow i hi]
      have hb : ¬ i + 1 = SoulSize.Black := by
        simp only [SoulSize.Black]
        omega
      simp [getVariantCountForCapacity, hb]
    · intro c k hc hk
      by_cases hb : c = SoulSize.Black
      · subst hb
        simp only [isValidContainedSoulSize, if_true, Bool.or_eq_true, decide_eq_true_eq] at hk
        rcases hk with hk | hk
        · subst hk
          exact ⟨_, getSoulGemsWith_black_none next⟩
        · subst hk
          exact ⟨_, getSoulGemsWith_black_black next⟩
      · simp only [isValidSoulCapacity, Bool.and_eq_true, decide_eq_true_eq, SoulSize.Petty,
          SoulSize.Black] at hc hb
        simp only [isValidContainedSoulSize, SoulSize.Black, hb, if_false, Bool.and_eq_true,
          decide_eq_true_eq] at hk
        have hc2 : c ≤ 5 := by omega
        rw [getSoulGemsWith_white_cell next c k hc.1 hc2 hk.2]
        have hsome := (cellOf_isSome next._whiteSoulGems (c - 1) k (c - 1 + 2)
          (hrow (c - 1) (by omega))).mpr (by omega)
        obtain ⟨gems, hgems⟩ := Option.isSome_iff_exists.mp hsome
        rw [hgems]
        exact ⟨gems, rfl⟩

end YASTM
